import Mathlib

/-!
Verification development for the KaxaNuk Data-Curator multi-endpoint table
consolidation and entity-packing engine.

The Python source is shallowly embedded:

* `pyarrow.Table` values become `Table`: an ordered association list of
  column name to column data.  Cells of the data-provider-toolkit tables are
  modelled as `Option Int` (a null or an opaque comparable value); the
  data-block tables, which also carry dates, strings and decimals, are
  modelled over the richer `PyVal` type further below.
* Python `dict`s (which iterate in insertion order) become ordered
  association lists with insert-or-update semantics.
* Raised exceptions become `Except` errors mirroring the exception classes
  of `kaxanuk.data_curator.exceptions`.
* `networkx.lexicographical_topological_sort` becomes an explicit
  Kahn-style loop that repeatedly pops the smallest currently-ready node
  (smallest w.r.t. the lexicographic order on key tuples), which is exactly
  what the networkx heap implementation computes.
* pyarrow joins match null key cells with null key cells, following the
  source's own documented semantics ("PyArrow join handles nulls as equal
  by default", `data_provider_toolkit.py`).
-/

deriving instance DecidableEq for Except

namespace DataCurator

/-- A toolkit table cell: `none` is a null, `some n` an opaque scalar value. -/
abbrev Cell := Option Int

/-- Column-oriented table: ordered list of (column name, column data), the
embedding of `pyarrow.Table` as used by `DataProviderToolkit`. -/
structure Table where
  cols : List (String × List Cell)
deriving DecidableEq, Repr

namespace Table

/-- The table's column names, in column order (`table.column_names`). -/
def columnNames (t : Table) : List String :=
  t.cols.map Prod.fst

/-- Number of rows (`table.num_rows`); `0` for the empty table. -/
def numRows (t : Table) : Nat :=
  match t.cols with
  | [] => 0
  | c :: _ => c.2.length

/-- Look up a column's data by name (first match). -/
def lookupCol (t : Table) (name : String) : Option (List Cell) :=
  (t.cols.find? (fun c => c.1 == name)).map Prod.snd

/-- Whether the table has every one of the given columns. -/
def hasCols (t : Table) (names : List String) : Bool :=
  names.all (fun n => (t.lookupCol n).isSome)

/-- The cell of column `name` at row `j` (null when out of range). -/
def cellAt (t : Table) (name : String) (j : Nat) : Cell :=
  ((t.lookupCol name).getD []).getD j none

/-- Embedding of `table.select(names)`: the named columns, in the given order. -/
def selectCols (t : Table) (names : List String) : Table :=
  ⟨names.filterMap (fun n => (t.lookupCol n).map (fun col => (n, col)))⟩

/-- Well-formedness: all columns have the same length and names are unique. -/
def WF (t : Table) : Prop :=
  (∀ c ∈ t.cols, c.2.length = t.numRows) ∧ t.columnNames.Nodup

end Table

/-- A primary key tuple: the key cells of one row, in key-column order. -/
abbrev Key := List Cell

/-- The key tuple of row `j` of `t` w.r.t. the key column names. -/
def rowKey (t : Table) (names : List String) (j : Nat) : Key :=
  names.map (fun n => t.cellAt n j)

/-- All key tuples of `t`, in row order. -/
def keyRows (t : Table) (names : List String) : List Key :=
  (List.range t.numRows).map (rowKey t names)

/-- Rebuild a table from a list of rows (embedding of
`pyarrow.Table.from_arrays(list(zip(*sorted_rows)), names)`). -/
def rowsToTable (names : List String) (rows : List Key) : Table :=
  ⟨names.enum.map (fun p => (p.2, rows.map (fun r => r.getD p.1 none)))⟩

namespace DataProviderToolkit

/-- Errors raised by `DataProviderToolkit`, mirroring the exception classes
in `kaxanuk.data_curator.exceptions`. -/
inductive ToolkitError
  | runtimeError (msg : String)
  | orderError (msg : String)
  | noDataError (msg : String)
  | argumentError (msg : String)
  | valueError (msg : String)
  | keyError (msg : String)
  | incorrectMappingTypeError (msg : String)
  | discrepancyError (discrepant_columns : List String)
      (discrepancies_table : Table) (key_column_names : List String)
deriving DecidableEq, Repr

/-- Source rows of `_merge_primary_key_subsets_preserving_order`: the key
tuples of `table` after dropping rows whose key cells are all null
(`table.filter(keep_mask)` with `keep_mask = invert(all_null_mask)`). -/
def filteredKeyRows (t : Table) : List Key :=
  (keyRows t t.columnNames).filter (fun r => !(r.all (fun c => c.isNone)))

/-- Duplicate-row check: `true` iff the rows are pairwise distinct (the source
compares `group_by(...).num_rows` against `num_rows`). -/
def dupFree : List Key → Bool
  | [] => true
  | r :: rest => !(rest.contains r) && dupFree rest

/-- The directed edges added by `networkx.add_path(graph, rows)`: one edge per
consecutive pair of rows. -/
def pathEdges (rows : List Key) : List (Key × Key) :=
  rows.zip rows.tail

/-- Node insertion for `networkx.add_path`: append the rows that are not yet
graph nodes, keeping first-insertion order. -/
def addPathNodes (nodes : List Key) (rows : List Key) : List Key :=
  rows.foldl (fun acc r => if acc.contains r then acc else acc ++ [r]) nodes

/-- The per-table loop of `_merge_primary_key_subsets_preserving_order`:
check each table's schema, drop all-null-key rows, reject duplicate rows,
and fold the remaining rows into the graph as a path. -/
def foldKeyTables (names : List String) :
    List Table → List Key × List (Key × Key) →
    Except ToolkitError (List Key × List (Key × Key))
  | [], acc => .ok acc
  | t :: rest, acc =>
    -- the model's tables carry no runtime column types, so the source's
    -- "different column types" branch of the schema check collapses
    if t.columnNames ≠ names then
      .error (.runtimeError
        (if t.columnNames.length ≠ names.length then
          ("Primary key merge tables have different number of columns.")
        else
          ("Primary key merge tables have different column names.")))
    else if t.numRows = 0 then
      foldKeyTables names rest acc
    else
      let rows := filteredKeyRows t
      if rows.isEmpty then
        foldKeyTables names rest acc
      else if !(dupFree rows) then
        .error (.runtimeError ("Primary key merge table contains duplicate rows."))
      else
        foldKeyTables names rest (addPathNodes acc.1 rows, acc.2 ++ pathEdges rows)

/-- Lexicographic order on cells used by the topological sort's tie-breaking
(`networkx.lexicographical_topological_sort` pops the heap-minimal node). -/
def cellLt : Cell → Cell → Bool
  | none, none => false
  | none, some _ => true
  | some _, none => false
  | some a, some b => a < b

/-- Lexicographic order on key tuples (tie-break order of the sort). -/
def keyLt : Key → Key → Bool
  | [], [] => false
  | [], _ :: _ => true
  | _ :: _, [] => false
  | a :: as, b :: bs => cellLt a b || (a == b && keyLt as bs)

/-- The nodes with no incoming edge from a still-unprocessed node: exactly the
nodes sitting in the heap of `networkx.lexicographical_topological_sort`. -/
def readyNodes (remaining : List Key) (edges : List (Key × Key)) : List Key :=
  remaining.filter (fun v => !(edges.any (fun e => e.2 == v && remaining.contains e.1)))

/-- The minimum of a nonempty candidate list w.r.t. `keyLt` (the heap pop). -/
def minReady (r : Key) (rs : List Key) : Key :=
  rs.foldl (fun a k => if keyLt k a then k else a) r

/-- Kahn-style loop of `networkx.lexicographical_topological_sort`: repeatedly
pop the smallest ready node.  `fuel` bounds the recursion; with
`remaining.length ≤ fuel` it never runs out.  `none` models
`networkx.NetworkXUnfeasible` (a cycle). -/
def lexTopoGo (edges : List (Key × Key)) : Nat → List Key → Option (List Key)
  | 0, remaining => if remaining.isEmpty then some [] else none
  | fuel + 1, remaining =>
    if remaining.isEmpty then some []
    else
      match readyNodes remaining edges with
      | [] => none
      | r :: rs =>
        let m := minReady r rs
        (lexTopoGo edges fuel (remaining.erase m)).map (fun out => m :: out)

/-- Deterministic topological sort of the key graph with lexicographic
tie-breaking; `none` on a cycle. -/
def lexTopoSort (nodes : List Key) (edges : List (Key × Key)) : Option (List Key) :=
  lexTopoGo edges nodes.length nodes

/-- Edge reversal for `graph.reverse(copy=True)`. -/
def reverseEdges (edges : List (Key × Key)) : List (Key × Key) :=
  edges.map (fun e => (e.2, e.1))

/-- Embedding of `DataProviderToolkit._merge_primary_key_subsets_preserving_order`. -/
def merge_primary_key_subsets_preserving_order
    (primary_key_subsets_tables : List Table)
    (predominant_order_descending : Bool := false) :
    Except ToolkitError Table :=
  match primary_key_subsets_tables with
  | [] => .ok ⟨[]⟩
  | first_table :: _ =>
    let column_names := first_table.columnNames
    if column_names.isEmpty then
      .error (.runtimeError ("Primary key merge tables have no columns."))
    else
      match foldKeyTables column_names primary_key_subsets_tables ([], []) with
      | .error e => .error e
      | .ok (nodes, edges) =>
        if nodes.isEmpty then
          .ok (rowsToTable column_names [])
        else
          let sorted_rows? :=
            if predominant_order_descending then
              -- topologically sort the reversed graph and reverse the result
              (lexTopoSort nodes (reverseEdges edges)).map List.reverse
            else
              lexTopoSort nodes edges
          match sorted_rows? with
          | none =>
            .error (.orderError
              ("Inconsistent key order between tables results in a circular dependency."))
          | some sorted_rows =>
            if sorted_rows.isEmpty then
              .ok (rowsToTable column_names [])
            else
              .ok (rowsToTable column_names sorted_rows)

/-- The key-graph edge list accumulated over all endpoint key tables. -/
def keyGraphEdges (tables : List Table) : List (Key × Key) :=
  (tables.map (fun t => pathEdges (filteredKeyRows t))).flatten

/-- Table of the merge scenario endpoint A: keys `[d1, d2, d3]`. -/
def mergeOkTableA : Table := ⟨[(("FundamentalDataRow.filing_date"), [some 1, some 2, some 3])]⟩

/-- Table of the merge scenario endpoint B: keys `[d2, d3, d4]`. -/
def mergeOkTableB : Table := ⟨[(("FundamentalDataRow.filing_date"), [some 2, some 3, some 4])]⟩

/-- A rank function witnessing that the two scenario key tables are
order-consistent. -/
def mergeOkRank : Key → Nat
  | [some n] => n.toNat
  | _ => 0

/-- Contradictory-order scenario endpoint A: keys `[d1, d2]`. -/
def mergeCycleTableA : Table := ⟨[(("FundamentalDataRow.filing_date"), [some 1, some 2])]⟩

/-- Contradictory-order scenario endpoint B: keys `[d2, d1]`. -/
def mergeCycleTableB : Table := ⟨[(("FundamentalDataRow.filing_date"), [some 2, some 1])]⟩

/-! Embedding of `DataProviderToolkit.consolidate_processed_endpoint_tables`.
Endpoint tables are an ordered association list (endpoint name, table),
matching Python dict insertion/iteration order. -/

/-- An entity field descriptor, the model of the class-attribute descriptors
used as `EntityField`: the owning entity class name and the field name. -/
structure EntityFieldRef where
  entity : String
  field : String
deriving DecidableEq, Repr

/-- The qualified column name of an entity field
(`f"{field.__objclass__.__name__}.{field.__name__}"`). -/
def qualifiedFieldName (f : EntityFieldRef) : String :=
  f.entity ++ (".") ++ f.field

/-- Byte-order comparison of characters (Python string comparison compares
code points, as `sorted` does). -/
def charLeB (a b : Char) : Bool :=
  Nat.ble a.val.toNat b.val.toNat

/-- Lexicographic comparison of char lists. -/
def charsLeB : List Char → List Char → Bool
  | [], _ => true
  | _ :: _, [] => false
  | a :: as, b :: bs => if a = b then charsLeB as bs else charLeB a b

/-- Lexicographic string comparison (model of Python `str` ordering). -/
def strLeB (a b : String) : Bool :=
  charsLeB a.data b.data

/-- Stable insertion into a sorted list (model of Python `sorted`). -/
def insSortedStr (a : String) : List String → List String
  | [] => [a]
  | b :: t => if strLeB a b then a :: b :: t else b :: insSortedStr a t

/-- Sort a list of strings ascending (model of Python `sorted`). -/
def sortStrings (l : List String) : List String :=
  l.foldr insSortedStr []

/-- Stable insertion of a keyed pair into a key-sorted list. -/
def insSortedPair {α : Type} (a : String × α) : List (String × α) → List (String × α)
  | [] => [a]
  | b :: t => if strLeB a.1 b.1 then a :: b :: t else b :: insSortedPair a t

/-- Sort keyed pairs ascending by key (model of `sorted(dict.items())`). -/
def sortPairsByKey {α : Type} (l : List (String × α)) : List (String × α) :=
  l.foldr insSortedPair []

/-- Association-list lookup by string key (first match). -/
def lookupAssoc {α : Type} (l : List (String × α)) (k : String) : Option α :=
  (l.find? (fun p => p.1 == k)).map Prod.snd

/-- Insert-or-append for a dict of lists (`dict.setdefault(k, []).append(v)`
pattern used by the source's `col_to_tables` and `field_to_full_names`). -/
def upsertAppend {α : Type} : List (String × List α) → String → α → List (String × List α)
  | [], k, v => [(k, [v])]
  | (c, vs) :: rest, k, v =>
    if c == k then (c, vs ++ [v]) :: rest else (c, vs) :: upsertAppend rest k v

/-- The data of column `name` of `t`, empty when absent. -/
def colOf (t : Table) (name : String) : List Cell :=
  (t.lookupCol name).getD []

/-- Index of the (unique) row of `t` whose key tuple equals `k`, if any: the
row matched by the left outer join for a given merged key.  Null key cells
match null key cells, per the source's documented join semantics. -/
def joinedRowIndex (t : Table) (keyNames : List String) (k : Key) : Option Nat :=
  (List.range t.numRows).find? (fun i => rowKey t keyNames i == k)

/-- Embedding of one endpoint's alignment step: left-outer-join the merged
key table (with its order column) onto the endpoint table, sort by the order
column, read the indicator column as the validity mask, and drop the helper
columns.  The result re-expresses the endpoint's data on the merged row
index: key columns first (from the merged table), then the endpoint's
non-key columns. -/
def alignTable (merged : Table) (keyNames : List String) (t : Table) :
    Table × List Bool :=
  let matchIdxs := (List.range merged.numRows).map
    (fun j => joinedRowIndex t keyNames (rowKey merged keyNames j))
  let keyCols := (merged.selectCols keyNames).cols
  let dataCols := (t.cols.filter (fun c => !(keyNames.contains c.1))).map
    (fun c => (c.1, matchIdxs.map (fun m? =>
      match m? with
      | some i => c.2.getD i none
      | none => none)))
  (⟨keyCols ++ dataCols⟩, matchIdxs.map Option.isSome)

/-- Alignment of every endpoint table: endpoints missing a key column get an
empty placeholder table and an all-`False` validity mask. -/
def alignAll (tables : List (String × Table)) (keyNames : List String)
    (merged : Table) : List (Table × List Bool) :=
  tables.map (fun et =>
    if et.2.hasCols keyNames then alignTable merged keyNames et.2
    else (⟨[]⟩, List.replicate merged.numRows false))

/-- The `(table index, non-key column name)` pairs enumerated by the
`col_to_tables` comprehension, in source iteration order. -/
def alignColPairs (alignedTables : List Table) (keyNames : List String) :
    List (Nat × String) :=
  (alignedTables.enum).flatMap (fun p =>
    (p.2.columnNames.filter (fun c => !(keyNames.contains c))).map
      (fun c => (p.1, c)))

/-- Build `col_to_tables`: for every non-key column name, the indices of the
aligned tables carrying it, in endpoint order. -/
def colToTables (alignedTables : List Table) (keyNames : List String) :
    List (String × List Nat) :=
  (alignColPairs alignedTables keyNames).foldl
    (fun acc ic => upsertAppend acc ic.2 ic.1) []

/-- Elementwise conjunction of two validity masks. -/
def andMask (a b : List Bool) : List Bool :=
  (a.zip b).map (fun p => p.1 && p.2)

/-- Elementwise disjunction of two row masks. -/
def orMask (a b : List Bool) : List Bool :=
  (a.zip b).map (fun p => p.1 || p.2)

/-- Embedding of `array.filter(mask)`. -/
def filterByMask {α : Type} (xs : List α) (mask : List Bool) : List α :=
  ((xs.zip mask).filter (fun p => p.2)).map Prod.fst

/-- Embedding of `pyarrow.compute.replace_with_mask` on boolean arrays: where
`mask` is true, take the next element of `repl`, else keep `base`. -/
def replaceWithMask : List Bool → List Bool → List Bool → List Bool
  | [], _, _ => []
  | base, [], _ => base
  | b :: bs, m :: ms, repl =>
    if m then
      match repl with
      | [] => b :: replaceWithMask bs ms []
      | r :: rs => r :: replaceWithMask bs ms rs
    else b :: replaceWithMask bs ms repl

/-- One common-row comparison: `equal(...).fill_null(False)` (equal and both
non-null) or both null. -/
def noDiscrepancyCell (a b : Cell) : Bool :=
  (match a, b with
   | some x, some y => x == y
   | _, _ => false)
  || (a.isNone && b.isNone)

/-- Model of `set.add` on the discrepant-column set (iteration order of the
model is insertion order). -/
def addDiscrepantColumn (cols : List String) (c : String) : List String :=
  if cols.contains c then cols else cols ++ [c]

/-- All pairs of elements of a list, in the order of the source's
`for i in range(n): for j in range(i + 1, n)` double loop. -/
def indexPairs : List Nat → List (Nat × Nat)
  | [] => []
  | i :: rest => rest.map (fun j => (i, j)) ++ indexPairs rest

/-- The per-pair discrepancy check on one shared column, updating the
`(discrepant_columns, discrepant_rows_mask)` state. -/
def scanPair (aligned : List Table) (masks : List (List Bool)) (numRows : Nat)
    (col : String) (st : List String × Option (List Bool)) (pr : Nat × Nat) :
    List String × Option (List Bool) :=
  let m1 := masks.getD pr.1 []
  let m2 := masks.getD pr.2 []
  let common := andMask m1 m2
  if !(common.any id) then st
  else
    let col1common := filterByMask (colOf (aligned.getD pr.1 ⟨[]⟩) col) common
    let col2common := filterByMask (colOf (aligned.getD pr.2 ⟨[]⟩) col) common
    let noDisc := (col1common.zip col2common).map (fun p => noDiscrepancyCell p.1 p.2)
    if noDisc.all id then st
    else
      let discMask := noDisc.map (fun b => !b)
      let fullSize := replaceWithMask (List.replicate numRows false) common discMask
      (addDiscrepantColumn st.1 col,
       some (match st.2 with
             | none => fullSize
             | some m => orMask m fullSize))

/-- The discrepancy-detection loops over all shared columns and all endpoint
pairs sharing them. -/
def discrepancyScan (aligned : List Table) (masks : List (List Bool))
    (numRows : Nat) (c2t : List (String × List Nat)) :
    List String × Option (List Bool) :=
  c2t.foldl (fun st entry =>
    if entry.2.length < 2 then st
    else (indexPairs entry.2).foldl (scanPair aligned masks numRows entry.1) st)
    ([], none)

/-- Embedding of `DataProviderToolkit._calculate_common_column_discrepancies`. -/
def calculate_common_column_discrepancies
    (discrepant_columns : List String) (discrepant_rows_mask : List Bool)
    (primary_keys_table : Table) (key_column_names : List String)
    (aligned_tables : List Table) (endpoints : List String) : Table :=
  let keyCols := key_column_names.map
    (fun c => (c, filterByMask (colOf primary_keys_table c) discrepant_rows_mask))
  let discCols := (sortStrings discrepant_columns).flatMap (fun col =>
    (aligned_tables.enum).filterMap (fun p =>
      if (p.2.lookupCol col).isSome then
        some ((endpoints.getD p.1 ("")) ++ ("$") ++ col,
          filterByMask (colOf p.2 col) discrepant_rows_mask)
      else none))
  ⟨keyCols ++ discCols⟩

/-- First non-null cell (`pyarrow.compute.coalesce`). -/
def firstSome : List Cell → Cell
  | [] => none
  | some x :: _ => some x
  | none :: rest => firstSome rest

/-- Elementwise coalesce of several aligned arrays. -/
def coalesceCols (numRows : Nat) (arrays : List (List Cell)) : List Cell :=
  (List.range numRows).map (fun j => firstSome (arrays.map (fun a => a.getD j none)))

/-- The bare field name of a qualified column name
(`full_name.split('.', 1)[1]`).  The source would raise `IndexError` on a
name with no dot; the model keeps such a name whole, which no reachable
remapped column exercises. -/
def fieldOfFullName (full : String) : String :=
  match (full.data.dropWhile (fun c => c ≠ ('.'))) with
  | [] => full
  | _ :: rest => ⟨rest⟩

/-- Group the sorted qualified column names by bare field name
(`field_to_full_names`), in insertion order. -/
def fieldToFullNames (all_col_names : List String) : List (String × List String) :=
  all_col_names.foldl (fun acc full => upsertAppend acc (fieldOfFullName full) full) []

/-- Collect the candidate arrays to coalesce for one bare-field group: iterate
the group's qualified names (ascending) and, within each, the aligned tables
carrying it in endpoint order, dropping any array equal to one already
collected.  (The source first dedups by object identity and then by
`Array.equals`, which together amount to dedup by value equality.) -/
def collectCoalesceArrays (aligned : List Table) (c2t : List (String × List Nat))
    (full_names : List String) : List (List Cell) :=
  full_names.foldl (fun arrays full =>
    ((lookupAssoc c2t full).getD []).foldl (fun arrays2 ti =>
      let arr := colOf (aligned.getD ti ⟨[]⟩) full
      if arrays2.contains arr then arrays2 else arrays2 ++ [arr]) arrays) []

/-- The `consolidated_columns` assignments produced by the field-group loop:
each bare-field group's qualified names all mapped to the group's coalesced
column (groups with no candidate arrays contribute nothing; that case is
unreachable since every `col_to_tables` entry is nonempty). -/
def consolidatedCoalesced (nRows : Nat) (aligned : List Table)
    (c2t : List (String × List Nat)) : List (String × List Cell) :=
  (sortPairsByKey (fieldToFullNames (sortStrings (c2t.map Prod.fst)))).flatMap (fun g =>
    let arrays := collectCoalesceArrays aligned c2t g.2
    if arrays.isEmpty then []
    else g.2.map (fun full => (full, coalesceCols nRows arrays)))

/-- Assemble the consolidated table after a discrepancy-free scan: key
columns first (in declared order) holding the merged keys, then every
qualified column name in ascending order, each group of names sharing a bare
field receiving the same coalesced column. -/
def buildConsolidatedTable (merged : Table) (keyNames : List String)
    (aligned : List Table) (c2t : List (String × List Nat)) : Table :=
  ⟨(keyNames.map (fun n => (n, colOf merged n))) ++
    (sortStrings (c2t.map Prod.fst)).filterMap (fun n =>
      (lookupAssoc (consolidatedCoalesced merged.numRows aligned c2t) n).map
        (fun c => (n, c)))⟩

/-- The primary-key subsets taken from the endpoint tables that contain every
key column. -/
def consolidateSubsets (tables : List (String × Table)) (keyNames : List String) :
    List Table :=
  tables.filterMap (fun et =>
    if et.2.hasCols keyNames then some (et.2.selectCols keyNames) else none)

/-- The aligned tables of all endpoints, in endpoint order. -/
def consolidationAlignedTables (tables : List (String × Table))
    (keyNames : List String) (merged : Table) : List Table :=
  (alignAll tables keyNames merged).map Prod.fst

/-- The per-endpoint validity masks, in endpoint order. -/
def consolidationMasks (tables : List (String × Table))
    (keyNames : List String) (merged : Table) : List (List Bool) :=
  (alignAll tables keyNames merged).map Prod.snd

/-- The whole post-merge phase of the consolidation: align, detect
discrepancies (raising the discrepancy error with the debug table), or
coalesce into the final wide table. -/
def consolidateAligned (tables : List (String × Table)) (keyNames : List String)
    (merged : Table) : Except ToolkitError Table :=
  let aligned := consolidationAlignedTables tables keyNames merged
  let masks := consolidationMasks tables keyNames merged
  let c2t := colToTables aligned keyNames
  let scan := discrepancyScan aligned masks merged.numRows c2t
  if scan.1.isEmpty then
    .ok (buildConsolidatedTable merged keyNames aligned c2t)
  else
    .error (.discrepancyError scan.1
      (calculate_common_column_discrepancies scan.1 (scan.2.getD []) merged
        keyNames aligned (tables.map Prod.fst))
      keyNames)

/-- Embedding of `DataProviderToolkit.consolidate_processed_endpoint_tables`. -/
def consolidate_processed_endpoint_tables
    (processed_endpoint_tables : List (String × Table))
    (table_merge_fields : List EntityFieldRef)
    (predominant_order_descending : Bool := false) :
    Except ToolkitError Table :=
  match processed_endpoint_tables with
  | [] => .ok ⟨[]⟩
  | [single] => .ok single.2
  | _ :: _ :: _ =>
    let key_column_names := table_merge_fields.map qualifiedFieldName
    let primary_key_subsets := consolidateSubsets processed_endpoint_tables key_column_names
    if primary_key_subsets.isEmpty then
      .error (.runtimeError
        ("None of the provided tables contain the required primary key columns for merging."))
    else
      match merge_primary_key_subsets_preserving_order primary_key_subsets
        predominant_order_descending with
      | .error e => .error e
      | .ok merged_key_table =>
        consolidateAligned processed_endpoint_tables key_column_names merged_key_table

/-- The clear-mask of `_clear_table_rows_by_primary_key`: row `i` of `table`
is cleared iff its key tuple (over the clear-keys table's columns) occurs in
the clear-keys table.  This is the `is_in` mask over the inner-join row
indices; nulls compare equal, per the source's comment on pyarrow join
semantics. -/
def clearRowMask (table keys : Table) : List Bool :=
  (List.range table.numRows).map (fun i =>
    (List.range keys.numRows).any (fun j =>
      rowKey table keys.columnNames i == rowKey keys keys.columnNames j))

/-- Embedding of `DataProviderToolkit._clear_table_rows_by_primary_key`:
validate that every key and preserved column exists, return the table
unchanged when it or the clear-keys table is empty or no row matches, and
otherwise null every non-preserved column on the matching rows. -/
def clear_table_rows_by_primary_key (table clear_rows_primary_keys : Table)
    (preserved_column_names : List String) : Except ToolkitError Table :=
  let key_columns := clear_rows_primary_keys.columnNames
  match (key_columns ++ preserved_column_names).find?
      (fun col => !(table.columnNames.contains col)) with
  | some col => .error (.valueError ((("Column '") ++ col) ++ ("' not found in table.")))
  | none =>
    if table.numRows == 0 || clear_rows_primary_keys.numRows == 0 then
      .ok table
    else
      let mask := clearRowMask table clear_rows_primary_keys
      if mask.any id then
        .ok ⟨table.cols.map (fun c =>
          if preserved_column_names.contains c.1 then c
          else (c.1, (c.2.zip mask).map (fun p => if p.2 then none else p.1)))⟩
      else
        .ok table

/-- The per-endpoint loop of `clear_discrepant_processed_endpoint_tables_rows`,
propagating the first error. -/
def clearEndpointLoop (tables : List (String × Table)) (keys : Table)
    (preserved : List String) : Except ToolkitError (List (String × Table)) :=
  match tables with
  | [] => .ok []
  | et :: rest =>
    match clear_table_rows_by_primary_key et.2 keys preserved with
    | .error e => .error e
    | .ok t =>
      match clearEndpointLoop rest keys preserved with
      | .error e => .error e
      | .ok rs => .ok ((et.1, t) :: rs)

/-- Embedding of
`DataProviderToolkit.clear_discrepant_processed_endpoint_tables_rows`: select
the key columns of the discrepancy table (pyarrow `select` raises `KeyError`
on a missing column) and clear every endpoint table's matching rows. -/
def clear_discrepant_processed_endpoint_tables_rows (discrepancy_table : Table)
    (processed_endpoint_tables : List (String × Table))
    (key_column_names preserved_column_names : List String) :
    Except ToolkitError (List (String × Table)) :=
  match key_column_names.find?
      (fun col => !(discrepancy_table.columnNames.contains col)) with
  | some col => .error (.keyError ((("Field ") ++ col) ++ (" does not exist in schema.")))
  | none =>
    clearEndpointLoop processed_endpoint_tables
      (discrepancy_table.selectCols key_column_names) preserved_column_names

/-- The discrepancy table of the row-clearing scenario: key `K.d = 1`. -/
def clrDisc : Table := ⟨[(("K.d"), [some 1])]⟩

/-- The endpoint table of the row-clearing scenario. -/
def clrEp : Table := ⟨[(("K.d"), [some 1, some 2]), (("A.x"), [some 5, some 6])]⟩

/-- Default endpoint entry used with `List.getD`. -/
def epDefault : String × Table := (("") , ⟨[]⟩)

/-- A discrepant row of a shared column between the aligned tables of two
endpoints: both validity masks are true and the two cells are neither equal
nor both null. -/
def badRow (aligned : List Table) (masks : List (List Bool)) (col : String)
    (i1 i2 j : Nat) : Prop :=
  (masks.getD i1 []).getD j false = true ∧
  (masks.getD i2 []).getD j false = true ∧
  noDiscrepancyCell (Table.cellAt (aligned.getD i1 ⟨[]⟩) col j)
    (Table.cellAt (aligned.getD i2 ⟨[]⟩) col j) = false

/-- Existence of a discrepant common-valid row for a column and endpoint pair. -/
def BadPair (aligned : List Table) (masks : List (List Bool)) (col : String)
    (i1 i2 : Nat) : Prop :=
  ∃ j, badRow aligned masks col i1 i2 j

/-- First endpoint of the discrepancy scenario. -/
def discE1 : String × Table :=
  (("ep1"), ⟨[(("R.d"), [some 1, some 2]), (("R.x"), [some 10, some 20])]⟩)

/-- Second endpoint of the discrepancy scenario: disagrees on `R.x` at row 1. -/
def discE2 : String × Table :=
  (("ep2"), ⟨[(("R.d"), [some 1, some 2]), (("R.x"), [some 10, some 99])]⟩)

/-- Merge field of the discrepancy scenario. -/
def discFields : List EntityFieldRef := [⟨("R"), ("d")⟩]

/-- The merged key table of the discrepancy scenario. -/
def discMerged : Table := rowsToTable [("R.d")] [[some 1], [some 2]]

/-- The original claim C4's candidate collection: coalesce only the aligned
arrays carrying exactly the one qualified column name. -/
def exactNameCoalesce (tables : List (String × Table)) (keyNames : List String)
    (merged : Table) (n : String) : List Cell :=
  coalesceCols merged.numRows
    (collectCoalesceArrays (consolidationAlignedTables tables keyNames merged)
      (colToTables (consolidationAlignedTables tables keyNames merged) keyNames) [n])

/-- First endpoint of the cross-entity coalesce scenario: carries `A.x`. -/
def cxE1 : String × Table :=
  (("ep1"), ⟨[(("K.d"), [some 1, some 2]), (("A.x"), [some 1, none])]⟩)

/-- Second endpoint of the cross-entity coalesce scenario: carries `B.x`,
a different entity with the same bare field name. -/
def cxE2 : String × Table :=
  (("ep2"), ⟨[(("K.d"), [some 1, some 2]), (("B.x"), [none, some 2])]⟩)

/-- Merge field of the cross-entity coalesce scenario. -/
def cxFields : List EntityFieldRef := [⟨("K"), ("d")⟩]

/-- The merged key table of the cross-entity coalesce scenario. -/
def cxMerged : Table := rowsToTable [("K.d")] [[some 1], [some 2]]

end DataProviderToolkit

namespace BaseDataBlock

/-! Embedding of `kaxanuk.data_curator.data_blocks.base_data_block`.

Python runtime values reaching `convert_value_to_type` are modelled by
`PyVal`: `None`, `str`, `int`, `float`, `decimal.Decimal`, `datetime.date`
and `datetime.datetime`.  Floats and decimals are modelled as exactly
represented scaled decimal values `m / 10 ^ e` (binary-float rounding is
outside the model).  The numeric parsers accept the plain
`[sign] digits [. digits]` shape and `date.fromisoformat` the dashed
`YYYY-MM-DD` calendar form; Python additionally accepts whitespace,
underscores, exponent forms and compact ISO dates, which this pipeline never
produces. -/

/-- Whether a character is a decimal digit. -/
def isDigitCh (c : Char) : Bool :=
  DataProviderToolkit.charLeB ('0') c && DataProviderToolkit.charLeB c ('9')

/-- Numeric value of a digit character. -/
def digitVal (c : Char) : Nat :=
  c.toNat - (('0').toNat)

/-- Parse a nonempty all-digit run as a natural number. -/
def parseNatDigits (cs : List Char) : Option Nat :=
  if cs ≠ [] ∧ cs.all isDigitCh then
    some (cs.foldl (fun a c => 10 * a + digitVal c) 0)
  else none

/-- Parse `[sign] digits` as an integer (model of `int(str)`). -/
def parseInt (cs : List Char) : Option Int :=
  match cs with
  | ('-') :: rest => (parseNatDigits rest).map (fun n => -(n : Int))
  | ('+') :: rest => (parseNatDigits rest).map (fun n => (n : Int))
  | _ => (parseNatDigits cs).map (fun n => (n : Int))

/-- Split a character run at the first dot. -/
def splitDot : List Char → (List Char × Option (List Char))
  | [] => ([], none)
  | c :: rest =>
    if c = ('.') then ([], some rest)
    else
      let p := splitDot rest
      (c :: p.1, p.2)

/-- Parse `digits [. digits]` as a scaled decimal magnitude. -/
def parseScaledMag (cs : List Char) : Option (Nat × Nat) :=
  let p := splitDot cs
  match p.2 with
  | none => (parseNatDigits cs).map (fun n => (n, 0))
  | some frac =>
    if (p.1 ++ frac) ≠ [] ∧ (p.1 ++ frac).all isDigitCh then
      some ((p.1 ++ frac).foldl (fun a c => 10 * a + digitVal c) 0, frac.length)
    else none

/-- Parse `[sign] digits [. digits]` as an exact scaled decimal (model of
`float(str)` and `Decimal(str)`). -/
def parseScaled (cs : List Char) : Option (Int × Nat) :=
  match cs with
  | ('-') :: rest => (parseScaledMag rest).map (fun p => (-(p.1 : Int), p.2))
  | ('+') :: rest => (parseScaledMag rest).map (fun p => ((p.1 : Int), p.2))
  | _ => (parseScaledMag cs).map (fun p => ((p.1 : Int), p.2))

/-- Gregorian leap year. -/
def isLeap (y : Nat) : Bool :=
  (y % 4 == 0 && !(y % 100 == 0)) || y % 400 == 0

/-- Days in a month. -/
def daysInMonth (y mo : Nat) : Nat :=
  if mo = 2 then (if isLeap y then 29 else 28)
  else if mo = 4 ∨ mo = 6 ∨ mo = 9 ∨ mo = 11 then 30
  else 31

/-- A `datetime.date` value. -/
structure PyDate where
  year : Nat
  month : Nat
  day : Nat
deriving DecidableEq, Repr

/-- A `datetime.datetime` value (microseconds dropped; the pipeline produces
whole seconds). -/
structure PyDateTime where
  year : Nat
  month : Nat
  day : Nat
  hour : Nat
  minute : Nat
  second : Nat
deriving DecidableEq, Repr

/-- `datetime.date()` truncation. -/
def PyDateTime.toDate (dt : PyDateTime) : PyDate :=
  ⟨dt.year, dt.month, dt.day⟩

/-- Model of `datetime.date.fromisoformat` on the dashed calendar form. -/
def parseIsoDate (cs : List Char) : Option PyDate :=
  match cs with
  | [y1, y2, y3, y4, s1, m1, m2, s2, d1, d2] =>
    if s1 = ('-') ∧ s2 = ('-') ∧ [y1, y2, y3, y4, m1, m2, d1, d2].all isDigitCh then
      let y := digitVal y1 * 1000 + digitVal y2 * 100 + digitVal y3 * 10 + digitVal y4
      let mo := digitVal m1 * 10 + digitVal m2
      let d := digitVal d1 * 10 + digitVal d2
      if 1 ≤ y ∧ 1 ≤ mo ∧ mo ≤ 12 ∧ 1 ≤ d ∧ d ≤ daysInMonth y mo then
        some ⟨y, mo, d⟩
      else none
    else none
  | _ => none

/-- Left-pad a digit run with zeros to the given length. -/
def padLeftZeros (cs : List Char) (len : Nat) : List Char :=
  List.replicate (len - cs.length) ('0') ++ cs

/-- Decimal digits of a natural number. -/
def renderNat (n : Nat) : List Char :=
  Nat.toDigits 10 n

/-- Model of `str(int)`. -/
def renderInt (n : Int) : List Char :=
  if n < 0 then ('-') :: renderNat n.natAbs else renderNat n.natAbs

/-- Model of `str(Decimal)`: render `m / 10 ^ e` with exactly `e` fraction
digits. -/
def renderScaled (m : Int) (e : Nat) : List Char :=
  if e = 0 then renderInt m
  else
    let ds := padLeftZeros (renderNat m.natAbs) (e + 1)
    let ip := ds.take (ds.length - e)
    let fp := ds.drop (ds.length - e)
    (if m < 0 then [('-')] else []) ++ ip ++ ('.') :: fp

/-- Drop trailing fractional zeros of a scaled value. -/
def normFloat : Int → Nat → Int × Nat
  | m, 0 => (m, 0)
  | m, e + 1 => if m % 10 = 0 then normFloat (m / 10) e else (m, e + 1)

/-- Model of `str(float)`: shortest decimal form, always with a fraction
part. -/
def renderFloat (m : Int) (e : Nat) : List Char :=
  let p := normFloat m e
  if p.2 = 0 then renderInt p.1 ++ [('.'), ('0')]
  else renderScaled p.1 p.2

/-- Model of `str(date)` (ISO form). -/
def renderDate (d : PyDate) : List Char :=
  padLeftZeros (renderNat d.year) 4 ++ ('-') ::
    (padLeftZeros (renderNat d.month) 2 ++ ('-') :: padLeftZeros (renderNat d.day) 2)

/-- Model of `str(datetime)`. -/
def renderDateTime (dt : PyDateTime) : List Char :=
  renderDate ⟨dt.year, dt.month, dt.day⟩ ++ (' ') ::
    (padLeftZeros (renderNat dt.hour) 2 ++ (':') ::
      (padLeftZeros (renderNat dt.minute) 2 ++ (':') :: padLeftZeros (renderNat dt.second) 2))

/-- Python runtime values reaching `convert_value_to_type`. -/
inductive PyVal
  | pnone
  | pstr (s : String)
  | pint (n : Int)
  | pfloat (m : Int) (e : Nat)
  | pdec (m : Int) (e : Nat)
  | pdate (d : PyDate)
  | pdatetime (dt : PyDateTime)
deriving DecidableEq, Repr

/-- The type objects a field can declare. -/
inductive PyTy
  | date
  | datetime
  | decimal
  | int
  | float
  | str
  | noneType
  | other (n : String)
deriving DecidableEq, Repr

/-- `type(value)`. -/
def typeOf : PyVal → PyTy
  | .pnone => .noneType
  | .pstr _ => .str
  | .pint _ => .int
  | .pfloat _ _ => .float
  | .pdec _ _ => .decimal
  | .pdate _ => .date
  | .pdatetime _ => .datetime

/-- `type.__name__`. -/
def PyTy.name : PyTy → String
  | .date => ("date")
  | .datetime => ("datetime")
  | .decimal => ("Decimal")
  | .int => ("int")
  | .float => ("float")
  | .str => ("str")
  | .noneType => ("NoneType")
  | .other n => n

/-- `str(value)`. -/
def pyStr : PyVal → String
  | .pnone => ("None")
  | .pstr s => s
  | .pint n => ⟨renderInt n⟩
  | .pfloat m e => ⟨renderFloat m e⟩
  | .pdec m e => ⟨renderScaled m e⟩
  | .pdate d => ⟨renderDate d⟩
  | .pdatetime dt => ⟨renderDateTime dt⟩

/-- Exceptions escaping `convert_value_to_type`:
`DataBlockTypeConversionNotImplementedError` (not caught by the wrapper,
since it does not extend `ValueError`/`TypeError`),
`DataBlockTypeConversionRuntimeError` (the wrapper for `InvalidOperation`,
`TypeError` and `ValueError`), and the `AttributeError` a non-nullable union
target would hit on `__name__`. -/
inductive ConvError
  | notImplemented (conversion_type : String) (original_value : PyVal)
  | runtime (conversion_type : String) (original_value : PyVal)
  | attributeError
deriving DecidableEq, Repr

/-- A declared target type: a plain class or a two-member union. -/
inductive PyType
  | simple (t : PyTy)
  | union (a b : PyTy)
deriving DecidableEq, Repr

/-- The dispatch of `convert_value_to_type` after the nullable unwrap:
passthrough on exact runtime-type match, then dispatch on the target type's
`__name__`, wrapping `InvalidOperation`/`TypeError`/`ValueError` into the
runtime conversion error carrying the (unwrapped) type name and the original
value. -/
def convertCore (v : PyVal) (t : PyTy) : Except ConvError PyVal :=
  if typeOf v = t then .ok v
  else if PyTy.name t = ("date") then
    match v with
    | .pdatetime dt => .ok (.pdate (PyDateTime.toDate dt))
    | .pstr s =>
      match parseIsoDate s.data with
      | some d => .ok (.pdate d)
      | none => .error (.runtime (PyTy.name t) v)
    | _ => .error (.runtime (PyTy.name t) v)
  else if PyTy.name t = ("Decimal") then
    match parseScaled ((pyStr v).data) with
    | some p => .ok (.pdec p.1 p.2)
    | none => .error (.runtime (PyTy.name t) v)
  else if PyTy.name t = ("int") then
    match v with
    | .pstr s =>
      match parseInt s.data with
      | some n => .ok (.pint n)
      | none => .error (.runtime (PyTy.name t) v)
    | .pint n => .ok (.pint n)
    | .pfloat m e => .ok (.pint (Int.tdiv m ((10 : Int) ^ e)))
    | .pdec m e => .ok (.pint (Int.tdiv m ((10 : Int) ^ e)))
    | _ => .error (.runtime (PyTy.name t) v)
  else if PyTy.name t = ("float") then
    match v with
    | .pstr s =>
      match parseScaled s.data with
      | some p => .ok (.pfloat p.1 p.2)
      | none => .error (.runtime (PyTy.name t) v)
    | .pint n => .ok (.pfloat n 0)
    | .pfloat m e => .ok (.pfloat m e)
    | .pdec m e => .ok (.pfloat m e)
    | _ => .error (.runtime (PyTy.name t) v)
  else if PyTy.name t = ("str") then
    .ok (.pstr (pyStr v))
  else
    .error (.notImplemented (PyTy.name t) v)

/-- Embedding of `BaseDataBlock.convert_value_to_type`: unwrap a nullable
union target (`T | None`), returning `None` for `None` or the empty string;
otherwise dispatch via `convertCore`.  A two-member union whose second
member is not `NoneType` falls through both the unwrap and the passthrough
and hits `AttributeError` on `to_type.__name__`. -/
def convert_value_to_type (original_value : PyVal) (to_type : PyType) :
    Except ConvError PyVal :=
  match to_type with
  | .union a b =>
    if b = .noneType then
      if original_value = .pnone ∨ original_value = .pstr ("") then .ok .pnone
      else convertCore original_value a
    else .error .attributeError
  | .simple t => convertCore original_value t

/-! Entity-class model shared by the relation map, the splitter and the
packer.  A dataclass field's type annotation is modelled by `PyHint`:
a scalar annotation (a `PyType` as used by `convert_value_to_type`), a
reference to another `BaseDataEntity` subclass (plain or `| None`), or a
`dict`/`list` generic whose value/element hint is kept. -/

/-- A dataclass field's type annotation. -/
inductive PyHint
  | ty (t : PyType)
  | ent (n : String)
  | entOpt (n : String)
  | dictOf (v : PyHint)
  | listOf (v : PyHint)
deriving DecidableEq, Repr

/-- Embedding of `BaseDataBlock._unwrap_optional_type`: strip a `| None`
union with a single remaining member. -/
def unwrapOptional : PyHint → PyHint
  | .entOpt n => .ent n
  | .ty (PyType.union a b) => if b = .noneType then .ty (.simple a) else .ty (.union a b)
  | h => h

/-- Embedding of `BaseDataBlock._unwrap_dict_value_type`: extract the value
hint from `dict[K, V]`. -/
def unwrapDictValue : PyHint → PyHint
  | .dictOf v => v
  | h => h

/-- An entity class: its `__name__`, whether it is a dataclass, and its
declared fields in declaration order. -/
structure EntityClass where
  clsName : String
  isDataclass : Bool
  efields : List (String × PyHint)
deriving DecidableEq, Repr

/-- The direct sub-entity dependencies of an entity class, per the source's
first-pass field walk: unwrap optional, then dict value, then optional
again, and keep fields whose inner type is a `BaseDataEntity` subclass.
`none` when the name does not resolve to a dataclass (the source `continue`s
without recording a dependency entry). -/
def entityDepEntry (classes : List EntityClass) (e : String) :
    Option (List (String × String)) :=
  match classes.find? (fun c => c.clsName == e) with
  | some c =>
    if c.isDataclass then
      some (c.efields.filterMap (fun f =>
        match unwrapOptional (unwrapDictValue (unwrapOptional f.2)) with
        | .ent n => some (f.1, n)
        | _ => none))
    else none
  | none => none

/-- First pass of `_calculate_ordered_entity_relation_map`: a BFS queue from
the main entity collecting each processed dataclass entity's direct
dependencies, in pop order (which is the dict insertion order of
`all_entities_with_deps`). -/
def collectDeps (classes : List EntityClass) :
    Nat → List String → List String → List (String × List (String × String)) →
    List (String × List (String × String))
  | 0, _, _, acc => acc
  | _ + 1, [], _, acc => acc
  | fuel + 1, e :: queue, processed, acc =>
    if processed.contains e then collectDeps classes fuel queue processed acc
    else
      match entityDepEntry classes e with
      | none => collectDeps classes fuel queue (processed ++ [e]) acc
      | some ed =>
        collectDeps classes fuel
          (queue ++ ed.filterMap (fun fd =>
            if (processed ++ [e]).contains fd.2 then none else some fd.2))
          (processed ++ [e]) (acc ++ [(e, ed)])

/-- Total declared field count, bounding the BFS queue traffic. -/
def totalEntityFields (classes : List EntityClass) : Nat :=
  classes.foldl (fun a c => a + c.efields.length) 0

/-- The `all_entities_with_deps` dict: entity name to direct dependencies,
in first-processed order. -/
def allEntityDeps (classes : List EntityClass) (main : String) :
    List (String × List (String × String)) :=
  collectDeps classes (2 + totalEntityFields classes) [main] [] []

/-- Readiness check of the second pass: every recorded dependency value is
already a key of `result` (vacuously true with no dependencies). -/
def isReadyB (deps : List (String × List (String × String))) (result : List String)
    (e : String) : Bool :=
  ((DataProviderToolkit.lookupAssoc deps e).getD []).all (fun fd => result.contains fd.2)

/-- Second pass of `_calculate_ordered_entity_relation_map`.  Python
iterates `remaining_entities`, a `set`, whose iteration order is
hash-dependent; the model takes that order as the parameter `ord` (round
`r` examines the remaining entities in the order of `ord r`).  Each round
appends every ready entity, then removes them from the remaining set;
an empty ready round breaks (circular dependencies). -/
def topoLoop (deps : List (String × List (String × String))) (ord : Nat → List String) :
    Nat → Nat → List String → List String → List String
  | 0, _, result, _ => result
  | fuel + 1, round, result, remaining =>
    if remaining.isEmpty then result
    else
      let ready := (ord round).filter (fun e =>
        remaining.contains e && isReadyB deps result e)
      if ready.isEmpty then result
      else
        topoLoop deps ord fuel (round + 1) (result ++ ready)
          (remaining.filter (fun e => !(ready.contains e)))

/-- Embedding of `BaseDataBlock._calculate_ordered_entity_relation_map`,
returning the ordered key list of the resulting map (each key's value is the
unchanged `all_entities_with_deps` entry, i.e. `lookupAssoc` of
`allEntityDeps`). -/
def calculate_ordered_entity_relation_map (main : String)
    (classes : List EntityClass) (ord : Nat → List String) : List String :=
  let deps := allEntityDeps classes main
  topoLoop deps ord (deps.length + 1) 0 [] (deps.map Prod.fst)

/-- The claim's reading of the tie-break: the ready entities of each round
are appended in first-discovery (BFS / dict insertion) order. -/
def firstDiscoveryOrderMap (main : String) (classes : List EntityClass) : List String :=
  calculate_ordered_entity_relation_map main classes
    (fun _ => (allEntityDeps classes main).map Prod.fst)

/-- Entity classes of the relation-map scenario: `M` depends on `A` and `B`
(discovered in that order), which are independent. -/
def c9classes : List EntityClass :=
  [⟨("M"), true, [(("a"), .ent ("A")), (("b"), .ent ("B")),
     (("d"), .ty (.simple .date))]⟩,
   ⟨("A"), true, [(("x"), .ty (.simple .int))]⟩,
   ⟨("B"), true, [(("y"), .ty (.simple .int))]⟩]

/-- Dependency-prefix property of an ordered key list: every recorded
dependency of the entity at position `i` already occurs among the first `i`
keys. -/
def DepPrefix (deps : List (String × List (String × String))) (r : List String) : Prop :=
  ∀ i, i < r.length →
    ∀ fd ∈ ((DataProviderToolkit.lookupAssoc deps (r.getD i (""))).getD []),
      fd.2 ∈ r.take i

/-- Reachability along recorded dependency edges, from the root entity. -/
inductive Reach (deps : List (String × List (String × String))) (root : String) :
    String → Prop
  | refl : Reach deps root root
  | step {b c : String} : Reach deps root b →
      (∃ ed, (b, ed) ∈ deps ∧ ∃ f, (f, c) ∈ ed) → Reach deps root c

/-! Embedding of `_split_consolidated_table_into_entity_tables`. -/

/-- The data-block mapping error raised by the splitter. -/
inductive DataBlockError
  | incorrectMappingType (msg : String)
deriving DecidableEq, Repr

/-- Dict assignment `d[k] = v`: overwrite the existing entry or append. -/
def setAssoc {α : Type} : List (String × α) → String → α → List (String × α)
  | [], k, v => [(k, v)]
  | (k0, v0) :: t, k, v =>
    if k0 == k then (k0, v) :: t else (k0, v0) :: setAssoc t k v

/-- `entity_columns[entity_class][field_name] = column`, creating the outer
entry on first appearance (`if entity_class not in entity_columns`). -/
def setEntityCol (acc : List (String × List (String × List Cell)))
    (ename fname : String) (col : List Cell) :
    List (String × List (String × List Cell)) :=
  match DataProviderToolkit.lookupAssoc acc ename with
  | none => acc ++ [(ename, [(fname, col)])]
  | some inner => setAssoc acc ename (setAssoc inner fname col)

/-- The per-column loop of the splitter: split each column name at the first
dot (`split('.', 1)`; no dot raises the mapping error), resolve the entity
name in the class-name map, require a dataclass and a declared field, and
record the column under `entity_columns[entity][field]`. -/
def splitLoop (entity_class_name_map : List (String × EntityClass)) :
    List (String × List Cell) → List (String × List (String × List Cell)) →
    Except DataBlockError (List (String × List (String × List Cell)))
  | [], acc => .ok acc
  | (cn, col) :: rest, acc =>
    match (splitDot cn.data).2 with
    | none => .error (.incorrectMappingType ((("Invalid column name format: ") ++ cn)))
    | some fieldPart =>
      match DataProviderToolkit.lookupAssoc entity_class_name_map
          (⟨(splitDot cn.data).1⟩ : String) with
      | none => .error (.incorrectMappingType ((("Entity not found for column ") ++ cn)))
      | some cls =>
        if !cls.isDataclass then
          .error (.incorrectMappingType ((("Entity class is not a dataclass for ") ++ cn)))
        else if !((cls.efields.map Prod.fst).contains (⟨fieldPart⟩ : String)) then
          .error (.incorrectMappingType ((("Field not found for column ") ++ cn)))
        else
          splitLoop entity_class_name_map rest
            (setEntityCol acc (⟨(splitDot cn.data).1⟩ : String)
              (⟨fieldPart⟩ : String) col)

/-- Embedding of `BaseDataBlock._split_consolidated_table_into_entity_tables`:
one table per referenced entity (in first-appearance order), columns named by
bare field name. -/
def _split_consolidated_table_into_entity_tables (table : Table)
    (entity_class_name_map : List (String × EntityClass)) :
    Except DataBlockError (List (String × Table)) :=
  (splitLoop entity_class_name_map table.cols []).map
    (fun ets => ets.map (fun p => (p.1, (⟨p.2⟩ : Table))))

/-- The validity of one column name, factoring the splitter's four checks. -/
def columnNameValid (entity_class_name_map : List (String × EntityClass))
    (cn : String) : Bool :=
  match (splitDot cn.data).2 with
  | none => false
  | some fieldPart =>
    match DataProviderToolkit.lookupAssoc entity_class_name_map
        (⟨(splitDot cn.data).1⟩ : String) with
    | none => false
    | some cls =>
      cls.isDataclass && (cls.efields.map Prod.fst).contains (⟨fieldPart⟩ : String)

/-- Nested lookup `entity_columns[e][f]`. -/
def lookup2 (d : List (String × List (String × List Cell))) (e f : String) :
    Option (List Cell) :=
  (DataProviderToolkit.lookupAssoc d e).bind
    (fun inner => DataProviderToolkit.lookupAssoc inner f)

/-- Class-name map of the split scenario. -/
def splitMap : List (String × EntityClass) :=
  [(("E"), ⟨("E"), true, [(("a"), .ty (.simple .int)), (("b"), .ty (.simple .int))]⟩),
   (("F"), ⟨("F"), true, [(("a"), .ty (.simple .int))]⟩)]

/-- Consolidated table of the split scenario. -/
def splitTable : Table :=
  ⟨[(("E.a"), [some 1, none]), (("E.b"), [some 2, some 4]), (("F.a"), [some 3, none])]⟩

/-! Embedding of `_pack_entity_hierarchy_rows`.  Entity tables here hold
Python values (`PTable`); a packed row value is either a converted scalar or
a constructed entity instance (`Packed`).  Whether `entity(**typed_row)`
raises `EntityTypeError`/`EntityValueError` depends on the entity classes of
the `entities` module, which is not part of this tree; it is therefore a
parameter `mkFails`, and every theorem below holds for all of them. -/

/-- A table of Python values (model of the per-entity pyarrow tables). -/
abbrev PTable := List (String × List PyVal)

/-- Number of rows of a `PTable`. -/
def numRowsP (t : PTable) : Nat :=
  match t with
  | [] => 0
  | c :: _ => c.2.length

/-- Row `j` as the dict produced by `table.to_pylist()[j]`, in column
order. -/
def rowAssoc (t : PTable) (j : Nat) : List (String × PyVal) :=
  t.map (fun c => (c.1, c.2.getD j .pnone))

/-- A value stored into a typed row: a converted scalar or a constructed
entity instance. -/
inductive Packed
  | pval (v : PyVal)
  | pent (entity : String) (fields : List (String × Packed))

/-- Exceptions escaping `_pack_entity_hierarchy_rows`. -/
inductive PackError
  | incorrectPackingStructure (msg : String)
  | entityPacking (entity : String) (clockVal : PyVal)
  | rowEntityErrorGroup (msg : String)
  | keyErr (msg : String)
  | indexErr
  | attributeErr
  | typeErr
deriving DecidableEq, Repr

/-- Mutable state of the packer: per-entity dependency rows, the master
rows keyed by ISO date, and whether any entity-creation exception was
collected. -/
structure PackState where
  depRows : List (String × List (Option Packed))
  masterRows : List (String × Option Packed)
  excs : Bool

/-- `value.isoformat()` (an `AttributeError` on non-date values). -/
def isoformat : PyVal → Except PackError String
  | .pdate d => .ok ⟨renderDate d⟩
  | .pdatetime dt => .ok ⟨renderDate ⟨dt.year, dt.month, dt.day⟩ ++ ('T') ::
      (padLeftZeros (renderNat dt.hour) 2 ++ (':') ::
        (padLeftZeros (renderNat dt.minute) 2 ++ (':') ::
          padLeftZeros (renderNat dt.second) 2))⟩
  | _ => .error .attributeErr

/-- The runtime type object a field annotation denotes, as passed to
`convert_value_to_type` (an entity class dispatches by its own `__name__`;
`dict`/`list` generic aliases by `'dict'`/`'list'`). -/
def hintToPyType : PyHint → PyType
  | .ty t => t
  | .ent n => .simple (.other n)
  | .entOpt n => .union (.other n) .noneType
  | .dictOf _ => .simple (.other ("dict"))
  | .listOf _ => .simple (.other ("list"))

/-- `entity.__annotations__[name]`. -/
def annotationOf (classes : List EntityClass) (entity name : String) :
    Option PyHint :=
  (classes.find? (fun c => c.clsName == entity)).bind
    (fun c => DataProviderToolkit.lookupAssoc c.efields name)

/-- The typed-row conversion loop: convert every row value to its declared
annotation, wrapping any conversion error into
`DataBlockEntityPackingError(entity, clock_column[index])`. -/
def convertRowFields (classes : List EntityClass) (entity : String)
    (clockCell : PyVal) :
    List (String × PyVal) → List (String × Packed) →
    Except PackError (List (String × Packed))
  | [], acc => .ok acc
  | (name, value) :: rest, acc =>
    match annotationOf classes entity name with
    | none => .error (.keyErr name)
    | some hint =>
      match convert_value_to_type value (hintToPyType hint) with
      | .error _ => .error (.entityPacking entity clockCell)
      | .ok v2 =>
        convertRowFields classes entity clockCell rest (setAssoc acc name (.pval v2))

/-- Attach the dependency rows of the current index to the typed row
(`typed_row[field.__name__] = dependency_rows[dependency_entity][index]`). -/
def attachDeps (depRows : List (String × List (Option Packed))) (j : Nat) :
    List (String × String) → List (String × Packed) →
    Except PackError (List (String × Packed))
  | [], acc => .ok acc
  | (fname, depEntity) :: rest, acc =>
    match DataProviderToolkit.lookupAssoc depRows depEntity with
    | none => .error (.keyErr depEntity)
    | some rows =>
      if j < rows.length then
        attachDeps depRows j rest (setAssoc acc fname
          (match rows.getD j none with
           | none => .pval .pnone
           | some inst => inst))
      else .error .indexErr

/-- `dependency_rows[entity].append(v)`. -/
def appendDepRow (d : List (String × List (Option Packed))) (entity : String)
    (v : Option Packed) : List (String × List (Option Packed)) :=
  setAssoc d entity (((DataProviderToolkit.lookupAssoc d entity).getD []) ++ [v])

/-- The declared fields neither in the table columns nor dependencies
(`missing_field_names`). -/
def missingFieldNames (cls : EntityClass) (table : PTable)
    (edeps : List (String × String)) : List String :=
  (cls.efields.map Prod.fst).filter (fun f =>
    !((table.map Prod.fst).contains f) && !((edeps.map Prod.fst).contains f))

/-- The fields whose nullness decides an empty row
(`non_key_common_field_names`): declared, present in the table, not a
dependency and not the clock-sync field name. -/
def nonKeyCommonFieldNames (cls : EntityClass) (table : PTable)
    (edeps : List (String × String)) (clockField : String) : List String :=
  (cls.efields.map Prod.fst).filter (fun f =>
    !((edeps.map Prod.fst).contains f) &&
    !((missingFieldNames cls table edeps).contains f) && !(f == clockField))

/-- The body of the per-row loop for one entity: an all-null row (over the
non-key common fields) packs `None`; otherwise the row is converted, the
dependency rows attached, the entity constructed (collecting
`EntityTypeError`/`EntityValueError` and skipping the row), and the result
stored in the master rows (keyed by the clock value's ISO form) or the
dependency rows. -/
def packEntityRow (classes : List EntityClass)
    (mkFails : String → List (String × Packed) → Bool)
    (clockEntity clockField entity : String)
    (edeps : List (String × String)) (table : PTable)
    (missing nonKeyCommon : List String) (clockCol : List PyVal)
    (st : PackState) (j : Nat) : Except PackError PackState :=
  let row := rowAssoc table j
  if nonKeyCommon.all (fun fn =>
      (DataProviderToolkit.lookupAssoc row fn).getD .pnone == PyVal.pnone) then
    if clockEntity == entity then
      match DataProviderToolkit.lookupAssoc row clockField with
      | none => .error (.keyErr clockField)
      | some cv =>
        match isoformat cv with
        | .error e => .error e
        | .ok date => .ok { st with masterRows := setAssoc st.masterRows date none }
    else
      .ok { st with depRows := appendDepRow st.depRows entity none }
  else
    match convertRowFields classes entity (clockCol.getD j .pnone) row
        (missing.map (fun n => (n, Packed.pval .pnone))) with
    | .error e => .error e
    | .ok typed1 =>
      match attachDeps st.depRows j edeps typed1 with
      | .error e => .error e
      | .ok typed2 =>
        if mkFails entity typed2 then
          .ok { st with excs := true }
        else
          if clockEntity == entity then
            match DataProviderToolkit.lookupAssoc row clockField with
            | none => .error (.keyErr clockField)
            | some cv =>
              match isoformat cv with
              | .error e => .error e
              | .ok date =>
                .ok { st with
                  masterRows := setAssoc st.masterRows date
                    (some (Packed.pent entity typed2)) }
          else
            .ok { st with
              depRows := appendDepRow st.depRows entity
                (some (Packed.pent entity typed2)) }

/-- All rows of one entity's table, in row order. -/
def packEntityAllRows (classes : List EntityClass)
    (mkFails : String → List (String × Packed) → Bool)
    (clockEntity clockField entity : String)
    (edeps : List (String × String)) (table : PTable)
    (missing nonKeyCommon : List String) (clockCol : List PyVal)
    (st : PackState) : Except PackError PackState :=
  (List.range (numRowsP table)).foldl (fun acc j =>
    match acc with
    | .error e => .error e
    | .ok st2 => packEntityRow classes mkFails clockEntity clockField entity edeps
        table missing nonKeyCommon clockCol st2 j) (.ok st)

/-- The entity loop of `_pack_entity_hierarchy_rows`, breaking after the
entity that owns the clock-sync field. -/
def packEntitiesLoop (classes : List EntityClass)
    (mkFails : String → List (String × Packed) → Bool)
    (clockEntity clockField : String)
    (entity_table_map : List (String × PTable)) (clockCol : List PyVal) :
    List (String × List (String × String)) → PackState →
    Except PackError PackState
  | [], st => .ok st
  | (entity, edeps) :: rest, st =>
    match DataProviderToolkit.lookupAssoc entity_table_map entity with
    | none => .error (.incorrectPackingStructure
        ((("Ordered entities structure contains unused entity ") ++ entity)))
    | some table =>
      match classes.find? (fun c => c.clsName == entity) with
      | none => .error .typeErr
      | some cls =>
        if !cls.isDataclass then .error .typeErr
        else
          match packEntityAllRows classes mkFails clockEntity clockField entity edeps
              table (missingFieldNames cls table edeps)
              (nonKeyCommonFieldNames cls table edeps clockField) clockCol st with
          | .error e => .error e
          | .ok st2 =>
            if st2.excs then
              .error (.rowEntityErrorGroup (("Entity creation errors occured")))
            else if clockEntity == entity then .ok st2
            else
              packEntitiesLoop classes mkFails clockEntity clockField
                entity_table_map clockCol rest st2

/-- Embedding of `BaseDataBlock._pack_entity_hierarchy_rows`. -/
def _pack_entity_hierarchy_rows (classes : List EntityClass)
    (mkFails : String → List (String × Packed) → Bool)
    (clockEntity clockField : String)
    (ordered : List (String × List (String × String)))
    (entity_table_map : List (String × PTable)) :
    Except PackError (List (String × Option Packed)) :=
  match DataProviderToolkit.lookupAssoc entity_table_map clockEntity with
  | none => .error (.keyErr clockEntity)
  | some clockTable =>
    match DataProviderToolkit.lookupAssoc clockTable clockField with
    | none => .error (.keyErr clockField)
    | some clockCol =>
      match packEntitiesLoop classes mkFails clockEntity clockField entity_table_map
          clockCol ordered ⟨ordered.map (fun p => (p.1, [])), [], false⟩ with
      | .error e => .error e
      | .ok st =>
        if st.masterRows.isEmpty then
          .error (.incorrectPackingStructure
            (("Ordered entities structure missing clock sync column")))
        else .ok st.masterRows

/-- The clock-sync entity class of the packing scenario. -/
def c7M : EntityClass :=
  ⟨("M"), true, [(("d"), .ty (.simple .date)), (("x"), .ty (.union .int .noneType))]⟩

/-- A dependency entity class of the packing scenario. -/
def c7A : EntityClass :=
  ⟨("A"), true, [(("y"), .ty (.union .int .noneType))]⟩

/-- The clock-sync entity's table: a date key with a null data field. -/
def c7MTable : PTable := [(("d"), [.pdate ⟨2024, 1, 2⟩]), (("x"), [.pnone])]

/-- The dependency entity's all-null table. -/
def c7ATable : PTable := [(("y"), [.pnone])]

/-- The packer state before the scenario rows. -/
def c7State : PackState := ⟨[(("A"), []), (("M"), [])], [], false⟩

end BaseDataBlock

namespace DataProviderToolkit

/-! Embedding of `DataProviderToolkit.process_endpoint_tables` and its
class-level caches.  Data-block classes are identified by name; the
`DataColumn` preprocessors of `DataProviderFieldPreprocessors` are an opaque
parameter `applyPre` (their numeric semantics are irrelevant to the caching
behaviour being verified); the class-level cache dicts are threaded as
explicit state `ToolkitCaches`. -/

/-- A field mapping value: a plain tag name or a preprocessed mapping
carrying tags and preprocessor names. -/
inductive FieldMappingValue
  | tagName (t : String)
  | preprocessed (tags : List String) (preprocessors : List String)
deriving DecidableEq, Repr

/-- An endpoint field map: endpoint name to its field mappings. -/
abbrev EndpointFieldMapT := List (String × List (EntityFieldRef × FieldMappingValue))

/-- Endpoint column remaps: endpoint name to a tag-to-remapped-column-names
dict. -/
abbrev EndpointColumnRemapsT := List (String × List (String × List String))

/-- The class-level caches of `DataProviderToolkit`, keyed by data-block
class. -/
structure ToolkitCaches where
  remapsCache : List (String × EndpointColumnRemapsT)
  presCache : List (String × EndpointFieldMapT)
deriving DecidableEq, Repr

/-- The `(tag, column_remap)` pairs one endpoint's field mappings generate,
in iteration order: one `entity.field` remap per plain tag, one
`entity.field$tag` remap per preprocessed tag.  (The invalid-mapping-type
error branch is unreachable in the model, whose mapping values are exactly
the two valid shapes.) -/
def endpointRemapEntries (ms : List (EntityFieldRef × FieldMappingValue)) :
    List (String × String) :=
  ms.flatMap (fun m =>
    match m.2 with
    | .tagName t => [(t, qualifiedFieldName m.1)]
    | .preprocessed tags _ =>
      tags.map (fun t => (t, ((qualifiedFieldName m.1) ++ ("$")) ++ t)))

/-- Embedding of `DataProviderToolkit._calculate_endpoint_column_remaps`. -/
def _calculate_endpoint_column_remaps (endpoint_field_map : EndpointFieldMapT) :
    EndpointColumnRemapsT :=
  endpoint_field_map.map (fun ep =>
    (ep.1, (endpointRemapEntries ep.2).foldl
      (fun acc p => upsertAppend acc p.1 p.2) []))

/-- Embedding of `DataProviderToolkit._calculate_endpoint_field_preprocessors`:
keep only the preprocessed field mappings of every endpoint. -/
def _calculate_endpoint_field_preprocessors (endpoint_field_map : EndpointFieldMapT) :
    EndpointFieldMapT :=
  endpoint_field_map.map (fun ep =>
    (ep.1, ep.2.filter (fun m =>
      match m.2 with
      | .preprocessed _ _ => true
      | _ => false)))

/-- Embedding of `DataProviderToolkit._remap_endpoint_table_columns`: per
endpoint, drop columns without a remap and emit one copy of the column per
remap target (later assignments to the same target overwrite). -/
def _remap_endpoint_table_columns (endpoint_column_remaps : EndpointColumnRemapsT)
    (endpoint_tables : List (String × Table)) : List (String × Table) :=
  endpoint_tables.map (fun et =>
    match lookupAssoc endpoint_column_remaps et.1 with
    | none => et
    | some column_remaps =>
      (et.1, ⟨et.2.cols.foldl (fun acc c =>
        match lookupAssoc column_remaps c.1 with
        | none => acc
        | some newNames =>
          newNames.foldl (fun acc2 nn => BaseDataBlock.setAssoc acc2 nn c.2) acc) []⟩))

/-- The preprocessor chain: the first preprocessor receives all input
columns, each later one the previous single result. -/
def runPreChain (applyPre : String → List (List Cell) → List Cell)
    (pres : List String) (inputs : List (List Cell)) :
    Sum (List (List Cell)) (List Cell) :=
  pres.foldl (fun res p =>
    match res with
    | .inl cols => .inr (applyPre p cols)
    | .inr col => .inr (applyPre p [col])) (.inl inputs)

/-- Load the input columns of a preprocessed field (`table[col_name]`
raising `KeyError` on a missing column). -/
def collectInputCols (table : Table) : List String → Except ToolkitError (List (List Cell))
  | [] => .ok []
  | cn :: rest =>
    match table.lookupCol cn with
    | none => .error (.keyError ((("Column ") ++ cn) ++ (" not found")))
    | some col =>
      match collectInputCols table rest with
      | .error e => .error e
      | .ok cols => .ok (col :: cols)

/-- The input column names of the preprocessed fields (`columns_to_remove`). -/
def columnsToRemove (fps : List (EntityFieldRef × FieldMappingValue)) : List String :=
  fps.flatMap (fun m =>
    match m.2 with
    | .preprocessed tags _ =>
      tags.map (fun t => ((qualifiedFieldName m.1) ++ ("$")) ++ t)
    | _ => [])

/-- The `new_columns` dict of one endpoint: run every preprocessed field's
chain over its `entity.field$tag` input columns and store the result under
`entity.field`. -/
def processEntries (applyPre : String → List (List Cell) → List Cell) (table : Table) :
    List (EntityFieldRef × FieldMappingValue) → List (String × List Cell) →
    Except ToolkitError (List (String × List Cell))
  | [], acc => .ok acc
  | (fld, mv) :: rest, acc =>
    match mv with
    | .tagName _ => processEntries applyPre table rest acc
    | .preprocessed tags pres =>
      match collectInputCols table (tags.map (fun t =>
          ((qualifiedFieldName fld) ++ ("$")) ++ t)) with
      | .error e => .error e
      | .ok inputs =>
        match runPreChain applyPre pres inputs with
        | .inl _ => .error (.runtimeError
            ((("no preprocessors for field ") ++ qualifiedFieldName fld)))
        | .inr col =>
          processEntries applyPre table rest
            (BaseDataBlock.setAssoc acc (qualifiedFieldName fld) col)

/-- Embedding of `DataProviderToolkit._process_remapped_endpoint_tables`. -/
def _process_remapped_endpoint_tables (applyPre : String → List (List Cell) → List Cell)
    (endpoint_field_preprocessors : EndpointFieldMapT) :
    List (String × Table) → Except ToolkitError (List (String × Table))
  | [] => .ok []
  | et :: rest =>
    let fps := (lookupAssoc endpoint_field_preprocessors et.1).getD []
    if fps.isEmpty then
      match _process_remapped_endpoint_tables applyPre endpoint_field_preprocessors rest with
      | .error e => .error e
      | .ok rs => .ok (et :: rs)
    else
      match processEntries applyPre et.2 fps [] with
      | .error e => .error e
      | .ok newEntries =>
        match _process_remapped_endpoint_tables applyPre endpoint_field_preprocessors rest with
        | .error e => .error e
        | .ok rs =>
          .ok ((et.1, (⟨newEntries.foldl (fun acc p => BaseDataBlock.setAssoc acc p.1 p.2)
            (et.2.cols.filter (fun c => !((columnsToRemove fps).contains c.1)))⟩ : Table))
            :: rs)

/-- Embedding of `DataProviderToolkit.process_endpoint_tables` with the
class-level caches as explicit state: validate the endpoint tables, then
compute or reuse the cached column remaps and field preprocessors for the
data block (the caches are keyed ONLY by the data-block class), remap and
preprocess. -/
def process_endpoint_tables (applyPre : String → List (List Cell) → List Cell)
    (caches : ToolkitCaches) (data_block : String)
    (endpoint_field_map : EndpointFieldMapT)
    (endpoint_tables : List (String × Table)) :
    Except ToolkitError (List (String × Table)) × ToolkitCaches :=
  match endpoint_tables with
  | [] => (.error (.valueError (("max() arg is an empty sequence"))), caches)
  | _ :: _ =>
    if endpoint_tables.foldl (fun a et => Nat.max a et.2.numRows) 0 = 0 then
      (.error (.noDataError (("All provided endpoint tables are empty."))), caches)
    else
      match lookupAssoc caches.remapsCache data_block with
      | some remaps =>
        match lookupAssoc caches.presCache data_block with
        | some pres =>
          (_process_remapped_endpoint_tables applyPre pres
            (_remap_endpoint_table_columns remaps endpoint_tables), caches)
        | none =>
          let pres := _calculate_endpoint_field_preprocessors endpoint_field_map
          (_process_remapped_endpoint_tables applyPre pres
            (_remap_endpoint_table_columns remaps endpoint_tables),
           { caches with presCache := caches.presCache ++ [(data_block, pres)] })
      | none =>
        let remaps := _calculate_endpoint_column_remaps endpoint_field_map
        let caches1 : ToolkitCaches :=
          { caches with remapsCache := caches.remapsCache ++ [(data_block, remaps)] }
        match lookupAssoc caches1.presCache data_block with
        | some pres =>
          (_process_remapped_endpoint_tables applyPre pres
            (_remap_endpoint_table_columns remaps endpoint_tables), caches1)
        | none =>
          let pres := _calculate_endpoint_field_preprocessors endpoint_field_map
          (_process_remapped_endpoint_tables applyPre pres
            (_remap_endpoint_table_columns remaps endpoint_tables),
           { caches1 with presCache := caches1.presCache ++ [(data_block, pres)] })

/-- C10 witness scenario: a preprocessor-free toolkit `applyPre` stand-in. -/
def c10applyPre : String → List (List Cell) → List Cell :=
  fun _ cols => cols.getD 0 []

/-- C10 witness scenario: first call's endpoint field map (tag t1 → E.x). -/
def c10efm1 : EndpointFieldMapT :=
  [(("ep1"), [(⟨("E"), ("x")⟩, FieldMappingValue.tagName ("t1"))])]

/-- C10 witness scenario: second call's endpoint field map (tag t1 → E.y). -/
def c10efm2 : EndpointFieldMapT :=
  [(("ep1"), [(⟨("E"), ("y")⟩, FieldMappingValue.tagName ("t1"))])]

/-- C10 witness scenario: the endpoint table passed to both calls. -/
def c10table : String × Table :=
  (("ep1"), ⟨[(("t1"), [some 7])]⟩)

end DataProviderToolkit

end DataCurator

namespace DataCurator

namespace DataProviderToolkit

/-! Basic lemmas about the merge building blocks. -/

theorem dupFree_iff (l : List Key) : dupFree l = true ↔ l.Nodup := by
  induction l with
  | nil => simp [dupFree]
  | cons r rest ih =>
    simp only [dupFree, Bool.and_eq_true, Bool.not_eq_true', List.nodup_cons, ih]
    constructor
    · rintro ⟨h1, h2⟩
      exact ⟨by simpa using h1, h2⟩
    · rintro ⟨h1, h2⟩
      exact ⟨by simpa using h1, h2⟩

theorem numRows_zero_keyRows {t : Table} (h : t.numRows = 0) (names : List String) :
    keyRows t names = [] := by
  simp [keyRows, h]

theorem mem_addPathNodes {x : Key} {nodes rows : List Key} :
    x ∈ addPathNodes nodes rows ↔ x ∈ nodes ∨ x ∈ rows := by
  induction rows generalizing nodes with
  | nil => simp [addPathNodes]
  | cons r rest ih =>
    simp only [addPathNodes, List.foldl_cons] at *
    by_cases hc : nodes.contains r
    · rw [if_pos hc]
      rw [ih]
      constructor
      · rintro (h | h)
        · exact Or.inl h
        · exact Or.inr (List.mem_cons_of_mem _ h)
      · rintro (h | h)
        · exact Or.inl h
        · rcases List.mem_cons.mp h with h | h
          · subst h
            exact Or.inl (by simpa using hc)
          · exact Or.inr h
    · rw [if_neg hc]
      rw [ih]
      simp only [List.mem_append, List.mem_singleton, List.mem_cons]
      tauto

theorem addPathNodes_nodup {nodes rows : List Key} (h : nodes.Nodup) :
    (addPathNodes nodes rows).Nodup := by
  induction rows generalizing nodes with
  | nil => simpa [addPathNodes]
  | cons r rest ih =>
    simp only [addPathNodes, List.foldl_cons]
    by_cases hc : nodes.contains r
    · rw [if_pos hc]
      exact ih h
    · rw [if_neg hc]
      refine ih ?_
      refine List.Nodup.append h (by simp) ?_
      intro a ha hb
      simp only [List.mem_singleton] at hb
      subst hb
      have : a ∉ nodes := by simpa using hc
      exact this ha

/-! Lemmas about `foldKeyTables`. -/

theorem foldKeyTables_ok_props {names : List String} :
    ∀ (ts : List Table) (acc : List Key × List (Key × Key))
      (nodes : List Key) (edges : List (Key × Key)),
    foldKeyTables names ts acc = .ok (nodes, edges) →
    (∀ t ∈ ts, t.columnNames = names ∧ dupFree (filteredKeyRows t) = true) ∧
    edges = acc.2 ++ (ts.map (fun t => pathEdges (filteredKeyRows t))).flatten ∧
    (∀ k, k ∈ nodes ↔ k ∈ acc.1 ∨ ∃ t ∈ ts, k ∈ filteredKeyRows t) ∧
    (acc.1.Nodup → nodes.Nodup) := by
  intro ts
  induction ts with
  | nil =>
    intro acc nodes edges h
    simp only [foldKeyTables] at h
    cases h
    simp
  | cons t rest ih =>
    intro acc nodes edges h
    simp only [foldKeyTables] at h
    by_cases hschema : t.columnNames ≠ names
    · rw [if_pos hschema] at h
      exact absurd h (by simp)
    · rw [if_neg hschema] at h
      push_neg at hschema
      by_cases hzero : t.numRows = 0
      · rw [if_pos hzero] at h
        obtain ⟨h1, h2, h3, h4⟩ := ih acc nodes edges h
        have hrows : filteredKeyRows t = [] := by
          simp [filteredKeyRows, numRows_zero_keyRows hzero]
        refine ⟨?_, ?_, ?_, h4⟩
        · intro u hu
          rcases List.mem_cons.mp hu with h | h
          · subst h
            exact ⟨hschema, by simp [hrows, dupFree]⟩
          · exact h1 u h
        · simpa [hrows] using h2
        · intro k
          rw [h3]
          simp [hrows]
      · rw [if_neg hzero] at h
        by_cases hempty : (filteredKeyRows t).isEmpty
        · rw [if_pos hempty] at h
          obtain ⟨h1, h2, h3, h4⟩ := ih acc nodes edges h
          have hrows : filteredKeyRows t = [] := List.isEmpty_iff.mp hempty
          refine ⟨?_, ?_, ?_, h4⟩
          · intro u hu
            rcases List.mem_cons.mp hu with h | h
            · subst h
              exact ⟨hschema, by simp [hrows, dupFree]⟩
            · exact h1 u h
          · simpa [hrows] using h2
          · intro k
            rw [h3]
            simp [hrows]
        · rw [if_neg hempty] at h
          by_cases hdup : !(dupFree (filteredKeyRows t))
          · rw [if_pos hdup] at h
            exact absurd h (by simp)
          · rw [if_neg hdup] at h
            obtain ⟨h1, h2, h3, h4⟩ := ih _ nodes edges h
            refine ⟨?_, ?_, ?_, ?_⟩
            · intro u hu
              rcases List.mem_cons.mp hu with h | h
              · subst h
                exact ⟨hschema, by simpa using hdup⟩
              · exact h1 u h
            · simpa using h2
            · intro k
              rw [h3]
              simp only [List.mem_cons]
              rw [mem_addPathNodes]
              constructor
              · rintro ((h | h) | ⟨u, hu, hk⟩)
                · exact Or.inl h
                · exact Or.inr ⟨t, Or.inl rfl, h⟩
                · exact Or.inr ⟨u, Or.inr hu, hk⟩
              · rintro (h | ⟨u, hu | hu, hk⟩)
                · exact Or.inl (Or.inl h)
                · subst hu
                  exact Or.inl (Or.inr hk)
                · exact Or.inr ⟨u, hu, hk⟩
            · intro hnd
              exact h4 (addPathNodes_nodup hnd)

theorem foldKeyTables_ok_of {names : List String} :
    ∀ (ts : List Table) (acc : List Key × List (Key × Key)),
    (∀ t ∈ ts, t.columnNames = names ∧ dupFree (filteredKeyRows t) = true) →
    ∃ nodes edges, foldKeyTables names ts acc = .ok (nodes, edges) := by
  intro ts
  induction ts with
  | nil =>
    intro acc _
    exact ⟨acc.1, acc.2, rfl⟩
  | cons t rest ih =>
    intro acc hts
    obtain ⟨hschema, hdup⟩ := hts t (List.mem_cons_self t rest)
    have hrest : ∀ u ∈ rest, u.columnNames = names ∧ dupFree (filteredKeyRows u) = true :=
      fun u hu => hts u (List.mem_cons_of_mem _ hu)
    simp only [foldKeyTables]
    rw [if_neg (by simp [hschema])]
    by_cases hzero : t.numRows = 0
    · rw [if_pos hzero]
      exact ih acc hrest
    · rw [if_neg hzero]
      by_cases hempty : (filteredKeyRows t).isEmpty
      · rw [if_pos hempty]
        exact ih acc hrest
      · rw [if_neg hempty]
        rw [if_neg (by simp [hdup])]
        exact ih _ hrest

/-! Lemmas about the lexicographic topological sort. -/

theorem minReady_mem (r : Key) (rs : List Key) : minReady r rs ∈ r :: rs := by
  induction rs generalizing r with
  | nil => simp [minReady]
  | cons k ks ih =>
    simp only [minReady, List.foldl_cons]
    by_cases hk : keyLt k r
    · rw [if_pos hk]
      have := ih k
      simp only [minReady] at this
      rcases List.mem_cons.mp this with h | h
      · exact List.mem_cons.mpr (Or.inr (List.mem_cons.mpr (Or.inl h)))
      · exact List.mem_cons.mpr (Or.inr (List.mem_cons.mpr (Or.inr h)))
    · rw [if_neg hk]
      have := ih r
      simp only [minReady] at this
      rcases List.mem_cons.mp this with h | h
      · exact List.mem_cons.mpr (Or.inl h)
      · exact List.mem_cons.mpr (Or.inr (List.mem_cons.mpr (Or.inr h)))

theorem mem_readyNodes {v : Key} {remaining : List Key} {edges : List (Key × Key)} :
    v ∈ readyNodes remaining edges ↔
      v ∈ remaining ∧ ∀ u ∈ remaining, (u, v) ∉ edges := by
  constructor
  · intro h
    obtain ⟨hv, hb⟩ := List.mem_filter.mp h
    refine ⟨hv, ?_⟩
    intro u hu huv
    have hany : edges.any (fun e => e.2 == v && remaining.contains e.1) = true :=
      List.any_eq_true.mpr ⟨(u, v), huv, by simp [hu]⟩
    rw [hany] at hb
    simp at hb
  · rintro ⟨hv, hcond⟩
    refine List.mem_filter.mpr ⟨hv, ?_⟩
    by_contra hb
    have hany : edges.any (fun e => e.2 == v && remaining.contains e.1) = true := by
      simpa using hb
    obtain ⟨e, he, hcondE⟩ := List.any_eq_true.mp hany
    obtain ⟨e1, e2⟩ := e
    simp only [Bool.and_eq_true, beq_iff_eq] at hcondE
    obtain ⟨h2, h1⟩ := hcondE
    subst h2
    exact hcond e1 (by simpa using h1) he

theorem perm_cons_erase_key {a : Key} :
    ∀ {l : List Key}, a ∈ l → l.Perm (a :: l.erase a) := by
  intro l h
  induction l with
  | nil => cases h
  | cons b t ih =>
    rw [List.erase_cons]
    by_cases hba : b = a
    · subst hba
      simp
    · rw [if_neg (by simpa using hba)]
      have hat : a ∈ t := by
        rcases List.mem_cons.mp h with h | h
        · exact absurd h.symm hba
        · exact h
      exact ((ih hat).cons b).trans (List.Perm.swap a b _)

theorem lexTopoGo_perm {edges : List (Key × Key)} :
    ∀ (fuel : Nat) (remaining out : List Key),
    lexTopoGo edges fuel remaining = some out → out.Perm remaining := by
  intro fuel
  induction fuel with
  | zero =>
    intro remaining out h
    simp only [lexTopoGo] at h
    by_cases he : remaining.isEmpty
    · rw [if_pos he] at h
      cases h
      simp [List.isEmpty_iff.mp he]
    · rw [if_neg he] at h
      cases h
  | succ fuel ih =>
    intro remaining out h
    simp only [lexTopoGo] at h
    by_cases he : remaining.isEmpty
    · rw [if_pos he] at h
      cases h
      simp [List.isEmpty_iff.mp he]
    · rw [if_neg he] at h
      cases hready : readyNodes remaining edges with
      | nil => rw [hready] at h; cases h
      | cons r rs =>
        rw [hready] at h
        have h2 : Option.map (fun out => minReady r rs :: out)
            (lexTopoGo edges fuel (remaining.erase (minReady r rs))) = some out := h
        obtain ⟨out2, hrec, hout⟩ := Option.map_eq_some'.mp h2
        subst hout
        have hm : minReady r rs ∈ remaining := by
          have h1 : minReady r rs ∈ r :: rs := minReady_mem r rs
          rw [← hready] at h1
          exact (mem_readyNodes.mp h1).1
        have := ih _ _ hrec
        exact (List.Perm.cons _ this).trans (perm_cons_erase_key hm).symm

/-- Along a chain, every non-head member has an in-chain predecessor. -/
theorem chain_exists_pred {R : Key → Key → Prop} :
    ∀ (k0 : Key) (kt : List Key) (m : Key),
    List.Chain' R (k0 :: kt) → m ∈ kt → ∃ a ∈ k0 :: kt, R a m := by
  intro k0 kt
  induction kt generalizing k0 with
  | nil => intro m _ hm; cases hm
  | cons k ks ih =>
    intro m hchain hm
    rcases List.mem_cons.mp hm with h | h
    · subst h
      exact ⟨k0, List.mem_cons_self _ _, List.chain'_cons.mp hchain |>.1⟩
    · obtain ⟨a, ha, har⟩ := ih k m (List.chain'_cons.mp hchain).2 h
      exact ⟨a, List.mem_cons_of_mem _ ha, har⟩

theorem lexTopoGo_sublist {edges : List (Key × Key)} :
    ∀ (fuel : Nat) (remaining out ks : List Key),
    ks.Nodup → (∀ k ∈ ks, k ∈ remaining) →
    List.Chain' (fun a b => (a, b) ∈ edges) ks →
    lexTopoGo edges fuel remaining = some out →
    List.Sublist ks out := by
  intro fuel
  induction fuel with
  | zero =>
    intro remaining out ks hnd hmem hchain h
    simp only [lexTopoGo] at h
    by_cases he : remaining.isEmpty
    · rw [if_pos he] at h
      cases h
      have : ks = [] := by
        cases ks with
        | nil => rfl
        | cons a as =>
          have := hmem a (List.mem_cons_self _ _)
          rw [List.isEmpty_iff.mp he] at this
          cases this
      subst this
      exact List.nil_sublist _
    · rw [if_neg he] at h
      cases h
  | succ fuel ih =>
    intro remaining out ks hnd hmem hchain h
    simp only [lexTopoGo] at h
    by_cases he : remaining.isEmpty
    · rw [if_pos he] at h
      cases h
      have : ks = [] := by
        cases ks with
        | nil => rfl
        | cons a as =>
          have := hmem a (List.mem_cons_self _ _)
          rw [List.isEmpty_iff.mp he] at this
          cases this
      subst this
      exact List.nil_sublist _
    · rw [if_neg he] at h
      cases hready : readyNodes remaining edges with
      | nil => rw [hready] at h; cases h
      | cons r rs =>
        rw [hready] at h
        have h3 : Option.map (fun out => minReady r rs :: out)
            (lexTopoGo edges fuel (remaining.erase (minReady r rs))) = some out := h
        obtain ⟨out2, hrec, hout⟩ := Option.map_eq_some'.mp h3
        subst hout
        set m := minReady r rs with hm_def
        have hmready : m ∈ readyNodes remaining edges := by
          rw [hready]; exact minReady_mem r rs
        have hmrem : m ∈ remaining := (mem_readyNodes.mp hmready).1
        have hnoinc : ∀ u ∈ remaining, (u, m) ∉ edges := (mem_readyNodes.mp hmready).2
        cases ks with
        | nil => exact List.nil_sublist _
        | cons k0 kt =>
          by_cases hk0 : m = k0
          · subst hk0
            have hkt : List.Sublist kt out2 := by
              refine ih _ _ _ (List.nodup_cons.mp hnd).2 ?_
                (List.Chain'.tail hchain) hrec
              intro x hx
              have hxne : x ≠ m := by
                intro hxe
                subst hxe
                exact (List.nodup_cons.mp hnd).1 hx
              exact List.mem_erase_of_ne hxne |>.mpr (hmem x (List.mem_cons_of_mem _ hx))
            exact List.Sublist.cons₂ _ hkt
          · by_cases hmk : m ∈ k0 :: kt
            · exfalso
              have hmkt : m ∈ kt := by
                rcases List.mem_cons.mp hmk with h | h
                · exact absurd h hk0
                · exact h
              obtain ⟨a, ha, har⟩ := chain_exists_pred k0 kt m hchain hmkt
              exact hnoinc a (hmem a ha) har
            · have hks : List.Sublist (k0 :: kt) out2 := by
                refine ih _ _ _ hnd ?_ hchain hrec
                intro x hx
                have hxne : x ≠ m := by
                  intro hxe
                  subst hxe
                  exact hmk hx
                exact List.mem_erase_of_ne hxne |>.mpr (hmem x hx)
              exact List.Sublist.cons _ hks

/-- Every nonempty list has a member minimizing a measure. -/
theorem exists_argmin {α : Type} (f : α → Nat) :
    ∀ (l : List α), l ≠ [] → ∃ m ∈ l, ∀ x ∈ l, f m ≤ f x := by
  intro l
  induction l with
  | nil => intro h; exact absurd rfl h
  | cons a as ih =>
    intro _
    cases as with
    | nil => exact ⟨a, List.mem_cons_self _ _, by simp⟩
    | cons b bs =>
      obtain ⟨m, hm, hmin⟩ := ih (by simp)
      by_cases hab : f a ≤ f m
      · refine ⟨a, List.mem_cons_self _ _, ?_⟩
        intro x hx
        rcases List.mem_cons.mp hx with h | h
        · subst h; exact le_refl _
        · exact le_trans hab (hmin x h)
      · refine ⟨m, List.mem_cons_of_mem _ hm, ?_⟩
        intro x hx
        rcases List.mem_cons.mp hx with h | h
        · subst h; exact le_of_lt (lt_of_not_le hab)
        · exact hmin x h

theorem lexTopoGo_isSome {edges : List (Key × Key)} (rank : Key → Nat)
    (hrank : ∀ e ∈ edges, rank e.1 < rank e.2) :
    ∀ (fuel : Nat) (remaining : List Key), remaining.length ≤ fuel →
    ∃ out, lexTopoGo edges fuel remaining = some out := by
  intro fuel
  induction fuel with
  | zero =>
    intro remaining hlen
    have : remaining = [] := List.length_eq_zero.mp (Nat.le_zero.mp hlen)
    subst this
    exact ⟨[], rfl⟩
  | succ fuel ih =>
    intro remaining hlen
    simp only [lexTopoGo]
    by_cases he : remaining.isEmpty
    · rw [if_pos he]
      exact ⟨[], rfl⟩
    · rw [if_neg he]
      have hne : remaining ≠ [] := by simpa [List.isEmpty_iff] using he
      obtain ⟨m0, hm0, hmin⟩ := exists_argmin rank remaining hne
      have hm0ready : m0 ∈ readyNodes remaining edges := by
        rw [mem_readyNodes]
        refine ⟨hm0, ?_⟩
        intro u hu huv
        have h1 : rank u < rank m0 := hrank (u, m0) huv
        have h2 : rank m0 ≤ rank u := hmin u hu
        omega
      cases hready : readyNodes remaining edges with
      | nil => rw [hready] at hm0ready; cases hm0ready
      | cons r rs =>
        have hm : minReady r rs ∈ remaining := by
          have h1 : minReady r rs ∈ r :: rs := minReady_mem r rs
          rw [← hready] at h1
          exact (mem_readyNodes.mp h1).1
        have hlen2 : (remaining.erase (minReady r rs)).length ≤ fuel := by
          rw [List.length_erase_of_mem hm]
          omega
        obtain ⟨out2, hout2⟩ := ih _ hlen2
        refine ⟨minReady r rs :: out2, ?_⟩
        show Option.map (fun out => minReady r rs :: out)
            (lexTopoGo edges fuel (remaining.erase (minReady r rs))) =
          some (minReady r rs :: out2)
        rw [hout2]
        rfl

/-- A nodup list cannot contain the pair `A, B` as a sublist in both orders. -/
theorem sublist_pair_asymm {A B : Key} :
    ∀ (out : List Key), out.Nodup → A ≠ B →
    List.Sublist [A, B] out → List.Sublist [B, A] out → False := by
  intro out
  induction out with
  | nil =>
    intro _ _ h1 _
    cases h1
  | cons h t ih =>
    intro hnd hne h1 h2
    cases h1 with
    | cons _ h1t =>
      cases h2 with
      | cons _ h2t => exact ih (List.nodup_cons.mp hnd).2 hne h1t h2t
      | cons₂ _ h2t =>
        -- h = B and [A] <+ t, while [A, B] <+ t
        have hA : A ∈ t := (List.Sublist.subset h1t) (List.mem_cons_self _ _)
        have hB : B ∈ t := (List.Sublist.subset h1t) (by simp)
        exact (List.nodup_cons.mp hnd).1 hB
    | cons₂ _ h1t =>
      -- h = A and [B] <+ t
      cases h2 with
      | cons _ h2t =>
        have hA : A ∈ t := (List.Sublist.subset h2t) (by simp)
        exact (List.nodup_cons.mp hnd).1 hA
      | cons₂ _ h2t => exact hne rfl

/-! Round trip between `rowsToTable` and `keyRows`. -/

theorem lookup_rowsToTable_aux (rows : List Key) :
    ∀ (names : List String) (s i : Nat) (h : i < names.length), names.Nodup →
    List.find? (fun c => c.1 == names.get ⟨i, h⟩)
      ((List.enumFrom s names).map (fun p => (p.2, rows.map (fun r => r.getD p.1 none)))) =
      some (names.get ⟨i, h⟩, rows.map (fun r => r.getD (s + i) none)) := by
  intro names
  induction names with
  | nil => intro s i h; cases h
  | cons n nt ih =>
    intro s i h hnd
    cases i with
    | zero =>
      simp only [List.enumFrom, List.map_cons]
      rw [List.find?_cons_of_pos _ (by simp)]
      simp
    | succ i =>
      simp only [List.enumFrom, List.map_cons]
      have hi : i < nt.length := Nat.lt_of_succ_lt_succ h
      have hget : (n :: nt).get ⟨i + 1, h⟩ = nt.get ⟨i, hi⟩ := rfl
      rw [List.find?_cons_of_neg]
      · rw [hget]
        rw [ih (s + 1) i hi (List.nodup_cons.mp hnd).2]
        have : s + 1 + i = s + (i + 1) := by omega
        rw [this]
      · rw [hget]
        simp only [beq_iff_eq]
        intro hne
        exact (List.nodup_cons.mp hnd).1 (hne ▸ List.get_mem nt i hi)

theorem numRows_rowsToTable (names : List String) (rows : List Key)
    (hne : names ≠ []) :
    (rowsToTable names rows).numRows = rows.length := by
  cases names with
  | nil => exact absurd rfl hne
  | cons n nt =>
    simp [rowsToTable, Table.numRows, List.enum_eq_enumFrom, List.enumFrom]

theorem keyRows_rowsToTable (names : List String) (rows : List Key)
    (hne : names ≠ []) (hnd : names.Nodup)
    (hlen : ∀ r ∈ rows, r.length = names.length) :
    keyRows (rowsToTable names rows) names = rows := by
  have hnum := numRows_rowsToTable names rows hne
  refine List.ext_get ?_ ?_
  · simp [keyRows, hnum]
  · intro j h1 h2
    have hj : j < rows.length := h2
    have hrange : (List.range (rowsToTable names rows).numRows).get
        ⟨j, by simpa [keyRows] using h1⟩ = j := by
      simp
    simp only [keyRows, List.get_eq_getElem, List.getElem_map, List.getElem_range]
    refine List.ext_get ?_ ?_
    · simp only [rowKey, List.length_map]
      exact (hlen _ (List.getElem_mem h2)).symm
    · intro i hi1 hi2
      have hi : i < names.length := by simpa [rowKey] using hi1
      simp only [rowKey, List.get_eq_getElem, List.getElem_map]
      simp only [Table.cellAt, Table.lookupCol, rowsToTable, List.enum_eq_enumFrom]
      have hfind := lookup_rowsToTable_aux rows names 0 i hi hnd
      simp only [List.get_eq_getElem] at hfind
      rw [hfind]
      simp only [Option.map_some', Option.getD_some, Nat.zero_add]
      rw [List.getD_eq_getElem _ _ (by simpa using h2)]
      simp only [List.getElem_map]
      rw [List.getD_eq_getElem _ _ (by
        rw [hlen _ (List.getElem_mem h2)]
        exact hi)]

/-! Chains along path edges. -/

theorem pathEdges_chain (E : List (Key × Key)) :
    ∀ (ks : List Key), (∀ e ∈ pathEdges ks, e ∈ E) →
    List.Chain' (fun a b => (a, b) ∈ E) ks := by
  intro ks
  induction ks with
  | nil => intro _; exact List.chain'_nil
  | cons a t ih =>
    intro h
    cases t with
    | nil => exact List.chain'_singleton a
    | cons b t2 =>
      refine List.chain'_cons.mpr ⟨?_, ?_⟩
      · exact h (a, b) (by simp [pathEdges])
      · refine ih ?_
        intro e he
        refine h e ?_
        simp only [pathEdges, List.zip, List.tail] at he ⊢
        exact List.mem_cons_of_mem _ he

theorem mem_keyGraphEdges {tables : List Table} {t : Table} {e : Key × Key}
    (ht : t ∈ tables) (he : e ∈ pathEdges (filteredKeyRows t)) :
    e ∈ keyGraphEdges tables := by
  simp only [keyGraphEdges, List.mem_flatten]
  exact ⟨pathEdges (filteredKeyRows t), List.mem_map.mpr ⟨t, ht, rfl⟩, he⟩

theorem nodup_of_rank {ks : List Key} {E : List (Key × Key)} (rank : Key → Nat)
    (hrank : ∀ e ∈ E, rank e.1 < rank e.2)
    (hsub : ∀ e ∈ pathEdges ks, e ∈ E) : ks.Nodup := by
  have hchain : List.Chain' (fun a b => rank a < rank b) ks := by
    refine List.Chain'.imp ?_ (pathEdges_chain E ks hsub)
    intro a b hab
    exact hrank (a, b) hab
  haveI : IsTrans Key (fun a b => rank a < rank b) := ⟨fun _ _ _ => Nat.lt_trans⟩
  have hpw : List.Pairwise (fun a b => rank a < rank b) ks := by
    rw [← List.chain'_iff_pairwise]
    exact hchain
  refine List.Pairwise.imp ?_ hpw
  intro a b hab
  intro hEq
  subst hEq
  omega

theorem mem_filteredKeyRows_length {k : Key} {t : Table}
    (h : k ∈ filteredKeyRows t) : k.length = t.columnNames.length := by
  have h1 : k ∈ keyRows t t.columnNames := List.mem_of_mem_filter h
  simp only [keyRows, List.mem_map] at h1
  obtain ⟨j, _, hk⟩ := h1
  subst hk
  simp [rowKey]

theorem mem_reverseEdges {E : List (Key × Key)} {x y : Key} :
    (x, y) ∈ reverseEdges E ↔ (y, x) ∈ E := by
  simp only [reverseEdges, List.mem_map, Prod.mk.injEq]
  constructor
  · rintro ⟨e, he, h2, h1⟩
    subst h2
    subst h1
    exact he
  · intro h
    exact ⟨(y, x), h, rfl, rfl⟩

/-- The claim `C2`'s hypotheses and conclusions, proved about the ascending
(default) mode of the merge. -/
theorem merge_order_consistent_core
    (first : Table) (rest : List Table) (rank : Key → Nat)
    (hcols : first.columnNames ≠ [])
    (hnodupNames : first.columnNames.Nodup)
    (hschema : ∀ t ∈ first :: rest, t.columnNames = first.columnNames)
    (hrank : ∀ e ∈ keyGraphEdges (first :: rest), rank e.1 < rank e.2) :
    ∃ out : List Key,
      merge_primary_key_subsets_preserving_order (first :: rest) false =
        .ok (rowsToTable first.columnNames out) ∧
      keyRows (rowsToTable first.columnNames out) first.columnNames = out ∧
      out.Nodup ∧
      (∀ k, k ∈ out ↔ ∃ t ∈ first :: rest, k ∈ filteredKeyRows t) ∧
      (∀ t ∈ first :: rest, List.Sublist (filteredKeyRows t) out) := by
  have hdup : ∀ t ∈ first :: rest, dupFree (filteredKeyRows t) = true := by
    intro t ht
    rw [dupFree_iff]
    refine nodup_of_rank rank hrank ?_
    intro e he
    exact mem_keyGraphEdges ht he
  obtain ⟨nodes, edges, hfold⟩ :=
    foldKeyTables_ok_of (first :: rest) ([], [])
      (fun t ht => ⟨hschema t ht, hdup t ht⟩)
  obtain ⟨hprops, hedges, hnodesMem, hnodesNodup⟩ :=
    foldKeyTables_ok_props (first :: rest) ([], []) nodes edges hfold
  simp only at hedges
  have hedges2 : edges = keyGraphEdges (first :: rest) := by
    simpa [keyGraphEdges] using hedges
  have hnodesMem2 : ∀ k, k ∈ nodes ↔ ∃ t ∈ first :: rest, k ∈ filteredKeyRows t := by
    intro k
    rw [hnodesMem k]
    simp
  have hnd : nodes.Nodup := hnodesNodup (by simp)
  have hlenRows : ∀ k ∈ nodes, k.length = first.columnNames.length := by
    intro k hk
    obtain ⟨t, ht, hkt⟩ := (hnodesMem2 k).mp hk
    rw [mem_filteredKeyRows_length hkt, hschema t ht]
  -- unfold the merge
  have hred : merge_primary_key_subsets_preserving_order (first :: rest) false =
      (if nodes.isEmpty then Except.ok (rowsToTable first.columnNames [])
       else
         match lexTopoSort nodes edges with
         | none => Except.error (ToolkitError.orderError
             ("Inconsistent key order between tables results in a circular dependency."))
         | some sorted_rows =>
           if sorted_rows.isEmpty then Except.ok (rowsToTable first.columnNames [])
           else Except.ok (rowsToTable first.columnNames sorted_rows)) := by
    simp only [merge_primary_key_subsets_preserving_order]
    rw [if_neg (by simpa [List.isEmpty_iff] using hcols)]
    rw [hfold]
    rfl
  rw [hred]
  by_cases hempty : nodes.isEmpty
  · rw [if_pos hempty]
    have hnodesNil : nodes = [] := List.isEmpty_iff.mp hempty
    refine ⟨[], rfl, ?_, by simp, ?_, ?_⟩
    · exact keyRows_rowsToTable _ _ hcols hnodupNames (by simp)
    · intro k
      simp only [List.not_mem_nil, false_iff]
      rintro ⟨t, ht, hk⟩
      have : k ∈ nodes := (hnodesMem2 k).mpr ⟨t, ht, hk⟩
      rw [hnodesNil] at this
      cases this
    · intro t ht
      have : filteredKeyRows t = [] := by
        rw [List.eq_nil_iff_forall_not_mem]
        intro k hk
        have : k ∈ nodes := (hnodesMem2 k).mpr ⟨t, ht, hk⟩
        rw [hnodesNil] at this
        cases this
      rw [this]
  · rw [if_neg hempty]
    have hrankE : ∀ e ∈ edges, rank e.1 < rank e.2 := by
      rw [hedges2]
      exact hrank
    obtain ⟨out, hout⟩ := lexTopoGo_isSome rank hrankE nodes.length nodes (le_refl _)
    have hperm : out.Perm nodes := lexTopoGo_perm nodes.length nodes out hout
    have houtNodup : out.Nodup := hperm.nodup_iff.mpr hnd
    have houtNe : ¬out.isEmpty = true := by
      intro hoe
      have hnil := List.isEmpty_iff.mp hoe
      subst hnil
      exact hempty (by simp [List.isEmpty_iff, hperm.symm.eq_nil])
    have hstep : (match lexTopoSort nodes edges with
         | none => Except.error (ToolkitError.orderError
             ("Inconsistent key order between tables results in a circular dependency."))
         | some sorted_rows =>
           if sorted_rows.isEmpty then Except.ok (rowsToTable first.columnNames [])
           else Except.ok (rowsToTable first.columnNames sorted_rows)) =
        Except.ok (rowsToTable first.columnNames out) := by
      simp only [lexTopoSort]
      rw [hout]
      show (if out.isEmpty then Except.ok (rowsToTable first.columnNames [])
        else Except.ok (rowsToTable first.columnNames out)) =
        Except.ok (rowsToTable first.columnNames out)
      rw [if_neg houtNe]
    rw [hstep]
    refine ⟨out, rfl, ?_, houtNodup, ?_, ?_⟩
    · refine keyRows_rowsToTable _ _ hcols hnodupNames ?_
      intro r hr
      exact hlenRows r (hperm.subset hr)
    · intro k
      rw [← hnodesMem2 k]
      exact hperm.mem_iff
    · intro t ht
      refine lexTopoGo_sublist nodes.length nodes out (filteredKeyRows t) ?_ ?_ ?_ hout
      · rw [← dupFree_iff]
        exact hdup t ht
      · intro k hk
        exact (hnodesMem2 k).mpr ⟨t, ht, hk⟩
      · refine pathEdges_chain edges _ ?_
        intro e he
        rw [hedges2]
        exact mem_keyGraphEdges ht he

theorem chain_reverse_edges {E : List (Key × Key)} {ks : List Key}
    (h : List.Chain' (fun a b => (a, b) ∈ E) ks) :
    List.Chain' (fun a b => (a, b) ∈ reverseEdges E) ks.reverse := by
  rw [List.chain'_reverse]
  refine List.Chain'.imp ?_ h
  intro a b hab
  exact mem_reverseEdges.mpr hab

/-- Core of claim `C3`: a contradictory pair ordering between two input key
tables forces the merge to raise the order error, in both sort modes. -/
theorem merge_contradictory_order_core
    (first : Table) (rest : List Table) (t1 t2 : Table) (A B : Key) (desc : Bool)
    (hcols : first.columnNames ≠ [])
    (hschema : ∀ t ∈ first :: rest, t.columnNames = first.columnNames)
    (hdup : ∀ t ∈ first :: rest, (filteredKeyRows t).Nodup)
    (ht1 : t1 ∈ first :: rest) (ht2 : t2 ∈ first :: rest) (hAB : A ≠ B)
    (h12 : List.Sublist [A, B] (filteredKeyRows t1))
    (h21 : List.Sublist [B, A] (filteredKeyRows t2)) :
    merge_primary_key_subsets_preserving_order (first :: rest) desc =
      .error (.orderError
        ("Inconsistent key order between tables results in a circular dependency.")) := by
  have hdupF : ∀ t ∈ first :: rest, dupFree (filteredKeyRows t) = true := by
    intro t ht
    rw [dupFree_iff]
    exact hdup t ht
  obtain ⟨nodes, edges, hfold⟩ :=
    foldKeyTables_ok_of (first :: rest) ([], [])
      (fun t ht => ⟨hschema t ht, hdupF t ht⟩)
  obtain ⟨hprops, hedges, hnodesMem, hnodesNodup⟩ :=
    foldKeyTables_ok_props (first :: rest) ([], []) nodes edges hfold
  have hnodesMem2 : ∀ k, k ∈ nodes ↔ ∃ t ∈ first :: rest, k ∈ filteredKeyRows t := by
    intro k
    rw [hnodesMem k]
    simp
  have hnd : nodes.Nodup := hnodesNodup (by simp)
  have hedges2 : edges = keyGraphEdges (first :: rest) := by
    simpa [keyGraphEdges] using hedges
  have hAnode : A ∈ nodes :=
    (hnodesMem2 A).mpr ⟨t1, ht1, h12.subset (List.mem_cons_self _ _)⟩
  have hnodesNe : ¬nodes.isEmpty = true := by
    intro h
    rw [List.isEmpty_iff.mp h] at hAnode
    cases hAnode
  -- any successful topological order yields a contradiction
  have hmemKs : ∀ t ∈ first :: rest, ∀ k ∈ filteredKeyRows t, k ∈ nodes := by
    intro t ht k hk
    exact (hnodesMem2 k).mpr ⟨t, ht, hk⟩
  have hchainKs : ∀ t ∈ first :: rest,
      List.Chain' (fun a b => (a, b) ∈ edges) (filteredKeyRows t) := by
    intro t ht
    refine pathEdges_chain edges _ ?_
    intro e he
    rw [hedges2]
    exact mem_keyGraphEdges ht he
  have hasc : lexTopoSort nodes edges = none := by
    cases hres : lexTopoSort nodes edges with
    | none => rfl
    | some out =>
      exfalso
      have hperm : out.Perm nodes := lexTopoGo_perm nodes.length nodes out hres
      have houtNodup : out.Nodup := hperm.nodup_iff.mpr hnd
      have hsub1 : List.Sublist (filteredKeyRows t1) out :=
        lexTopoGo_sublist nodes.length nodes out _ (hdup t1 ht1)
          (hmemKs t1 ht1) (hchainKs t1 ht1) hres
      have hsub2 : List.Sublist (filteredKeyRows t2) out :=
        lexTopoGo_sublist nodes.length nodes out _ (hdup t2 ht2)
          (hmemKs t2 ht2) (hchainKs t2 ht2) hres
      exact sublist_pair_asymm out houtNodup hAB (h12.trans hsub1) (h21.trans hsub2)
  have hdesc : lexTopoSort nodes (reverseEdges edges) = none := by
    cases hres : lexTopoSort nodes (reverseEdges edges) with
    | none => rfl
    | some out =>
      exfalso
      have hperm : out.Perm nodes := lexTopoGo_perm nodes.length nodes out hres
      have houtNodup : out.Nodup := hperm.nodup_iff.mpr hnd
      have hsub1 : List.Sublist (filteredKeyRows t1).reverse out :=
        lexTopoGo_sublist nodes.length nodes out _ (List.nodup_reverse.mpr (hdup t1 ht1))
          (fun k hk => hmemKs t1 ht1 k (List.mem_reverse.mp hk))
          (chain_reverse_edges (hchainKs t1 ht1)) hres
      have hsub2 : List.Sublist (filteredKeyRows t2).reverse out :=
        lexTopoGo_sublist nodes.length nodes out _ (List.nodup_reverse.mpr (hdup t2 ht2))
          (fun k hk => hmemKs t2 ht2 k (List.mem_reverse.mp hk))
          (chain_reverse_edges (hchainKs t2 ht2)) hres
      have h12r : List.Sublist [B, A] out := by
        have := h12.reverse
        simp only [List.reverse_cons, List.reverse_nil, List.nil_append,
          List.cons_append, List.singleton_append] at this
        exact this.trans hsub1
      have h21r : List.Sublist [A, B] out := by
        have := h21.reverse
        simp only [List.reverse_cons, List.reverse_nil, List.nil_append,
          List.cons_append, List.singleton_append] at this
        exact this.trans hsub2
      exact sublist_pair_asymm out houtNodup hAB h21r h12r
  have hred : merge_primary_key_subsets_preserving_order (first :: rest) desc =
      (if nodes.isEmpty then Except.ok (rowsToTable first.columnNames [])
       else
         match (if desc then (lexTopoSort nodes (reverseEdges edges)).map List.reverse
                else lexTopoSort nodes edges) with
         | none => Except.error (ToolkitError.orderError
             ("Inconsistent key order between tables results in a circular dependency."))
         | some sorted_rows =>
           if sorted_rows.isEmpty then Except.ok (rowsToTable first.columnNames [])
           else Except.ok (rowsToTable first.columnNames sorted_rows)) := by
    simp only [merge_primary_key_subsets_preserving_order]
    rw [if_neg (by simpa [List.isEmpty_iff] using hcols)]
    rw [hfold]
  rw [hred]
  rw [if_neg hnodesNe]
  cases desc with
  | false =>
    rw [if_neg (by simp)]
    rw [hasc]
  | true =>
    rw [if_pos (by simp)]
    rw [hdesc]
    rfl

/-- Claim C2: for every non-empty list of primary-key tables sharing one
schema whose row sequences (after dropping all-null-key rows) are pairwise
order-consistent — expressed by a rank function that is strictly monotone
along every consecutive-row edge of every table, i.e. no contradictory
relative ordering of any two key tuples, directly or transitively —
`_merge_primary_key_subsets_preserving_order` returns a table whose rows are
exactly the union of the input key tuples, each exactly once, and every
input table's key sequence occurs as a subsequence of the output in that
input's original relative order. -/
theorem claim_C2_merge_preserves_every_endpoint_order
    (first : Table) (rest : List Table) (rank : Key → Nat)
    (hcols : first.columnNames ≠ [])
    (hnodupNames : first.columnNames.Nodup)
    (hschema : ∀ t ∈ first :: rest, t.columnNames = first.columnNames)
    (hrank : ∀ e ∈ keyGraphEdges (first :: rest), rank e.1 < rank e.2) :
    ∃ out : List Key,
      merge_primary_key_subsets_preserving_order (first :: rest) false =
        .ok (rowsToTable first.columnNames out) ∧
      keyRows (rowsToTable first.columnNames out) first.columnNames = out ∧
      out.Nodup ∧
      (∀ k, k ∈ out ↔ ∃ t ∈ first :: rest, k ∈ filteredKeyRows t) ∧
      (∀ t ∈ first :: rest, List.Sublist (filteredKeyRows t) out) :=
  merge_order_consistent_core first rest rank hcols hnodupNames hschema hrank

/-- Witness for claim C2 at the spec's own scenario (`[d1,d2,d3]` merged with
`[d2,d3,d4]`). -/
theorem claim_C2_witness :
    (mergeOkTableA.columnNames ≠ [] ∧
     mergeOkTableA.columnNames.Nodup ∧
     (∀ t ∈ mergeOkTableA :: [mergeOkTableB], t.columnNames = mergeOkTableA.columnNames) ∧
     (∀ e ∈ keyGraphEdges (mergeOkTableA :: [mergeOkTableB]),
        mergeOkRank e.1 < mergeOkRank e.2)) ∧
    (∃ out : List Key,
      merge_primary_key_subsets_preserving_order (mergeOkTableA :: [mergeOkTableB]) false =
        .ok (rowsToTable mergeOkTableA.columnNames out) ∧
      keyRows (rowsToTable mergeOkTableA.columnNames out) mergeOkTableA.columnNames = out ∧
      out.Nodup ∧
      (∀ k, k ∈ out ↔ ∃ t ∈ mergeOkTableA :: [mergeOkTableB], k ∈ filteredKeyRows t) ∧
      (∀ t ∈ mergeOkTableA :: [mergeOkTableB], List.Sublist (filteredKeyRows t) out)) :=
  ⟨⟨by decide, by decide, by decide, by decide⟩,
   claim_C2_merge_preserves_every_endpoint_order mergeOkTableA [mergeOkTableB] mergeOkRank
     (by decide) (by decide) (by decide) (by decide)⟩

/-- Claim C3: if two input key tables order the same pair of key tuples
contradictorily (one places A before B, the other B before A, so the
combined key graph contains a cycle), then
`_merge_primary_key_subsets_preserving_order` raises
`DataProviderMultiEndpointCommonDataOrderError` instead of returning any
order, in both the ascending and descending modes. -/
theorem claim_C3_merge_contradictory_order_raises
    (first : Table) (rest : List Table) (t1 t2 : Table) (A B : Key) (desc : Bool)
    (hcols : first.columnNames ≠ [])
    (hschema : ∀ t ∈ first :: rest, t.columnNames = first.columnNames)
    (hdup : ∀ t ∈ first :: rest, (filteredKeyRows t).Nodup)
    (ht1 : t1 ∈ first :: rest) (ht2 : t2 ∈ first :: rest) (hAB : A ≠ B)
    (h12 : List.Sublist [A, B] (filteredKeyRows t1))
    (h21 : List.Sublist [B, A] (filteredKeyRows t2)) :
    merge_primary_key_subsets_preserving_order (first :: rest) desc =
      .error (.orderError
        ("Inconsistent key order between tables results in a circular dependency.")) :=
  merge_contradictory_order_core first rest t1 t2 A B desc hcols hschema hdup
    ht1 ht2 hAB h12 h21

/-- Witness for claim C3 at the spec's own scenario: merging `[d1,d2]` with
`[d2,d1]` raises the ordering error. -/
theorem claim_C3_witness :
    (mergeCycleTableA.columnNames ≠ [] ∧
     (∀ t ∈ mergeCycleTableA :: [mergeCycleTableB],
        t.columnNames = mergeCycleTableA.columnNames) ∧
     (∀ t ∈ mergeCycleTableA :: [mergeCycleTableB], (filteredKeyRows t).Nodup) ∧
     ([some (1 : Int)] : Key) ≠ [some 2] ∧
     List.Sublist [[some (1 : Int)], [some 2]] (filteredKeyRows mergeCycleTableA) ∧
     List.Sublist [[some (2 : Int)], [some 1]] (filteredKeyRows mergeCycleTableB)) ∧
    merge_primary_key_subsets_preserving_order (mergeCycleTableA :: [mergeCycleTableB]) false =
      .error (.orderError
        ("Inconsistent key order between tables results in a circular dependency.")) :=
  ⟨⟨by decide, by decide, by decide, by decide, by decide, by decide⟩,
   claim_C3_merge_contradictory_order_raises mergeCycleTableA [mergeCycleTableB]
     mergeCycleTableA mergeCycleTableB [some 1] [some 2] false
     (by decide) (by decide) (by decide) (by decide) (by decide) (by decide)
     (by decide) (by decide)⟩

/-! Proof layer for the consolidation. -/

theorem getD_true_lt_length {l : List Bool} {j : Nat}
    (h : l.getD j false = true) : j < l.length := by
  by_contra hge
  rw [List.getD_eq_default _ _ (Nat.le_of_not_lt hge)] at h
  cases h

theorem andMask_getD {a b : List Bool} {j : Nat}
    (ha : j < a.length) (hb : j < b.length) :
    (andMask a b).getD j false = (a.getD j false && b.getD j false) := by
  have hz : j < (a.zip b).length := by
    rw [List.length_zip]
    omega
  simp only [andMask]
  rw [List.getD_eq_getElem _ _ (by simpa using hz), List.getD_eq_getElem _ _ ha,
    List.getD_eq_getElem _ _ hb]
  simp [List.getElem_zip]

theorem andMask_length {a b : List Bool} :
    (andMask a b).length = min a.length b.length := by
  simp [andMask]

theorem andMask_any {a b : List Bool} (hlen : a.length = b.length) :
    (andMask a b).any id = true ↔
      ∃ j, a.getD j false = true ∧ b.getD j false = true := by
  constructor
  · intro h
    obtain ⟨x, hx, hid⟩ := List.any_eq_true.mp h
    simp only [andMask, List.mem_map] at hx
    obtain ⟨p, hp, hpx⟩ := hx
    obtain ⟨j, hj, hpj⟩ := List.mem_iff_getElem.mp hp
    have hja : j < a.length := by
      rw [List.length_zip] at hj
      omega
    have hjb : j < b.length := by
      rw [List.length_zip] at hj
      omega
    refine ⟨j, ?_, ?_⟩
    · rw [List.getD_eq_getElem _ _ hja]
      have hze : (a.zip b)[j] = (a[j], b[j]) := List.getElem_zip
      rw [hze] at hpj
      subst hpx
      rw [← hpj] at hid
      simp only [id] at hid
      exact ((Bool.and_eq_true _ _).mp hid).1
    · rw [List.getD_eq_getElem _ _ hjb]
      have hze : (a.zip b)[j] = (a[j], b[j]) := List.getElem_zip
      rw [hze] at hpj
      subst hpx
      rw [← hpj] at hid
      simp only [id] at hid
      exact ((Bool.and_eq_true _ _).mp hid).2
  · rintro ⟨j, hja, hjb⟩
    have hja2 : j < a.length := getD_true_lt_length hja
    have hjb2 : j < b.length := getD_true_lt_length hjb
    refine List.any_eq_true.mpr ⟨true, ?_, rfl⟩
    have hz : j < (a.zip b).length := by
      rw [List.length_zip]
      omega
    have : (andMask a b).getD j false = true := by
      rw [andMask_getD hja2 hjb2, hja, hjb]
      rfl
    have hlt : j < (andMask a b).length := by
      rw [andMask_length]
      omega
    rw [List.getD_eq_getElem _ _ hlt] at this
    rw [← this]
    exact List.getElem_mem hlt

theorem filterByMask_cons_true {α : Type} (x : α) (xs : List α) (ms : List Bool) :
    filterByMask (x :: xs) (true :: ms) = x :: filterByMask xs ms := by
  simp [filterByMask]

theorem filterByMask_cons_false {α : Type} (x : α) (xs : List α) (ms : List Bool) :
    filterByMask (x :: xs) (false :: ms) = filterByMask xs ms := by
  simp [filterByMask]

/-- The common-row agreement check over the filtered columns, expressed per
original row index. -/
theorem noDiscAll_iff :
    ∀ (xs ys : List Cell) (common : List Bool),
    xs.length = common.length → ys.length = common.length →
    ((((filterByMask xs common).zip (filterByMask ys common)).map
        (fun p => noDiscrepancyCell p.1 p.2)).all id = true ↔
      ∀ j, common.getD j false = true →
        noDiscrepancyCell (xs.getD j none) (ys.getD j none) = true) := by
  intro xs
  induction xs with
  | nil =>
    intro ys common hx hy
    have hc : common = [] := by
      have := hx.symm
      simpa [List.length_eq_zero] using this
    subst hc
    have hys : ys = [] := by simpa [List.length_eq_zero] using hy
    subst hys
    simp [filterByMask]
  | cons x xt ih =>
    intro ys common hx hy
    cases common with
    | nil => simp at hx
    | cons c ct =>
      cases ys with
      | nil => simp at hy
      | cons y yt =>
        have hx2 : xt.length = ct.length := by simpa using hx
        have hy2 : yt.length = ct.length := by simpa using hy
        cases c with
        | true =>
          rw [filterByMask_cons_true, filterByMask_cons_true]
          simp only [List.zip_cons_cons, List.map_cons, List.all_cons,
            Bool.and_eq_true, id]
          rw [ih yt ct hx2 hy2]
          constructor
          · rintro ⟨h0, hrest⟩
            intro j hj
            cases j with
            | zero => simpa using h0
            | succ j => exact hrest j (by simpa using hj)
          · intro h
            refine ⟨by simpa using h 0 rfl, ?_⟩
            intro j hj
            exact h (j + 1) (by simpa using hj)
        | false =>
          rw [filterByMask_cons_false, filterByMask_cons_false]
          rw [ih yt ct hx2 hy2]
          constructor
          · intro h j hj
            cases j with
            | zero => simp at hj
            | succ j => exact h j (by simpa using hj)
          · intro h j hj
            exact h (j + 1) (by simpa using hj)

/-- Symmetry of the per-cell agreement check. -/
theorem noDiscrepancyCell_symm (a b : Cell) :
    noDiscrepancyCell a b = noDiscrepancyCell b a := by
  cases a <;> cases b <;> simp [noDiscrepancyCell, BEq.comm]

theorem noDiscrepancyCell_refl (a : Cell) : noDiscrepancyCell a a = true := by
  cases a <;> simp [noDiscrepancyCell]

theorem cellAt_eq_colOf (t : Table) (col : String) (j : Nat) :
    Table.cellAt t col j = (colOf t col).getD j none := rfl

theorem badPair_symm {aligned masks col i1 i2}
    (h : BadPair aligned masks col i1 i2) : BadPair aligned masks col i2 i1 := by
  obtain ⟨j, h1, h2, h3⟩ := h
  exact ⟨j, h2, h1, by rw [noDiscrepancyCell_symm]; exact h3⟩

theorem scanPair_eq_self {aligned : List Table} {masks : List (List Bool)}
    {n : Nat} {col : String} {st : List String × Option (List Bool)}
    {pr : Nat × Nat}
    (hm1 : (masks.getD pr.1 []).length = n)
    (hm2 : (masks.getD pr.2 []).length = n)
    (hc1 : (colOf (aligned.getD pr.1 ⟨[]⟩) col).length = n)
    (hc2 : (colOf (aligned.getD pr.2 ⟨[]⟩) col).length = n)
    (hgood : ¬ BadPair aligned masks col pr.1 pr.2) :
    scanPair aligned masks n col st pr = st := by
  simp only [scanPair]
  by_cases hany : (andMask (masks.getD pr.1 []) (masks.getD pr.2 [])).any id = true
  · rw [if_neg (by simpa using hany)]
    have hcommonLen : (andMask (masks.getD pr.1 []) (masks.getD pr.2 [])).length = n := by
      rw [andMask_length, hm1, hm2]
      omega
    have hall : (((filterByMask (colOf (aligned.getD pr.1 ⟨[]⟩) col)
          (andMask (masks.getD pr.1 []) (masks.getD pr.2 []))).zip
        (filterByMask (colOf (aligned.getD pr.2 ⟨[]⟩) col)
          (andMask (masks.getD pr.1 []) (masks.getD pr.2 [])))).map
        (fun p => noDiscrepancyCell p.1 p.2)).all id = true := by
      rw [noDiscAll_iff _ _ _ (by rw [hc1, hcommonLen]) (by rw [hc2, hcommonLen])]
      intro j hj
      by_contra hbad
      refine hgood ⟨j, ?_, ?_, ?_⟩
      · have hjn : j < n := by
          have := getD_true_lt_length hj
          omega
        rw [andMask_getD (by omega) (by omega)] at hj
        exact ((Bool.and_eq_true _ _).mp hj).1
      · have hjn : j < n := by
          have := getD_true_lt_length hj
          omega
        rw [andMask_getD (by omega) (by omega)] at hj
        exact ((Bool.and_eq_true _ _).mp hj).2
      · rw [cellAt_eq_colOf, cellAt_eq_colOf]
        exact Bool.not_eq_true _ ▸ (by simpa using hbad)
    rw [if_pos hall]
  · rw [if_pos (by simpa using hany)]

theorem scanPair_fst_of_bad {aligned : List Table} {masks : List (List Bool)}
    {n : Nat} {col : String} {st : List String × Option (List Bool)}
    {pr : Nat × Nat}
    (hm1 : (masks.getD pr.1 []).length = n)
    (hm2 : (masks.getD pr.2 []).length = n)
    (hc1 : (colOf (aligned.getD pr.1 ⟨[]⟩) col).length = n)
    (hc2 : (colOf (aligned.getD pr.2 ⟨[]⟩) col).length = n)
    (hbad : BadPair aligned masks col pr.1 pr.2) :
    (scanPair aligned masks n col st pr).1 = addDiscrepantColumn st.1 col := by
  obtain ⟨j, hj1, hj2, hj3⟩ := hbad
  simp only [scanPair]
  have hany : (andMask (masks.getD pr.1 []) (masks.getD pr.2 [])).any id = true := by
    rw [andMask_any (by rw [hm1, hm2])]
    exact ⟨j, hj1, hj2⟩
  rw [if_neg (by simpa using hany)]
  have hcommonLen : (andMask (masks.getD pr.1 []) (masks.getD pr.2 [])).length = n := by
    rw [andMask_length, hm1, hm2]
    omega
  have hjn : j < n := by
    have := getD_true_lt_length hj1
    omega
  have hcommonj : (andMask (masks.getD pr.1 []) (masks.getD pr.2 [])).getD j false = true := by
    rw [andMask_getD (by omega) (by omega), hj1, hj2]
    rfl
  have hnall : ¬((((filterByMask (colOf (aligned.getD pr.1 ⟨[]⟩) col)
        (andMask (masks.getD pr.1 []) (masks.getD pr.2 []))).zip
      (filterByMask (colOf (aligned.getD pr.2 ⟨[]⟩) col)
        (andMask (masks.getD pr.1 []) (masks.getD pr.2 [])))).map
      (fun p => noDiscrepancyCell p.1 p.2)).all id = true) := by
    rw [noDiscAll_iff _ _ _ (by rw [hc1, hcommonLen]) (by rw [hc2, hcommonLen])]
    intro hall
    have := hall j hcommonj
    rw [cellAt_eq_colOf, cellAt_eq_colOf] at hj3
    rw [this] at hj3
    cases hj3
  rw [if_neg hnall]

theorem mem_addDiscrepantColumn_of {cols : List String} {c c2 : String}
    (h : c ∈ cols) : c ∈ addDiscrepantColumn cols c2 := by
  simp only [addDiscrepantColumn]
  by_cases hc : cols.contains c2
  · rw [if_pos hc]
    exact h
  · rw [if_neg hc]
    exact List.mem_append_left _ h

theorem mem_addDiscrepantColumn_self (cols : List String) (c : String) :
    c ∈ addDiscrepantColumn cols c := by
  simp only [addDiscrepantColumn]
  by_cases hc : cols.contains c
  · rw [if_pos hc]
    simpa using hc
  · rw [if_neg hc]
    simp

theorem scanPair_fst_mono {aligned masks n col st pr} {c : String}
    (h : c ∈ st.1) : c ∈ (scanPair aligned masks n col st pr).1 := by
  simp only [scanPair]
  by_cases h1 : (andMask (masks.getD pr.1 []) (masks.getD pr.2 [])).any id = true
  · rw [if_neg (by simpa using h1)]
    by_cases h2 : ((((filterByMask (colOf (aligned.getD pr.1 ⟨[]⟩) col)
          (andMask (masks.getD pr.1 []) (masks.getD pr.2 []))).zip
        (filterByMask (colOf (aligned.getD pr.2 ⟨[]⟩) col)
          (andMask (masks.getD pr.1 []) (masks.getD pr.2 [])))).map
        (fun p => noDiscrepancyCell p.1 p.2)).all id = true)
    · rw [if_pos h2]
      exact h
    · rw [if_neg h2]
      exact mem_addDiscrepantColumn_of h
  · rw [if_pos (by simpa using h1)]
    exact h

theorem foldl_scanPair_mono {aligned masks n col} {c : String} :
    ∀ (prs : List (Nat × Nat)) (st : List String × Option (List Bool)),
    c ∈ st.1 → c ∈ (prs.foldl (scanPair aligned masks n col) st).1 := by
  intro prs
  induction prs with
  | nil => exact fun st h => h
  | cons q rest ih =>
    intro st h
    exact ih _ (scanPair_fst_mono h)

theorem foldl_scanPair_mem_of_bad {aligned : List Table} {masks : List (List Bool)}
    {n : Nat} {col : String} :
    ∀ (prs : List (Nat × Nat)) (st : List String × Option (List Bool))
      (pr : Nat × Nat), pr ∈ prs →
    (masks.getD pr.1 []).length = n →
    (masks.getD pr.2 []).length = n →
    (colOf (aligned.getD pr.1 ⟨[]⟩) col).length = n →
    (colOf (aligned.getD pr.2 ⟨[]⟩) col).length = n →
    BadPair aligned masks col pr.1 pr.2 →
    col ∈ (prs.foldl (scanPair aligned masks n col) st).1 := by
  intro prs
  induction prs with
  | nil =>
    intro st pr hpr
    cases hpr
  | cons q rest ih =>
    intro st pr hpr hm1 hm2 hc1 hc2 hbad
    rcases List.mem_cons.mp hpr with h | h
    · subst h
      simp only [List.foldl_cons]
      refine foldl_scanPair_mono rest _ ?_
      rw [scanPair_fst_of_bad hm1 hm2 hc1 hc2 hbad]
      exact mem_addDiscrepantColumn_self _ _
    · simp only [List.foldl_cons]
      exact ih _ pr h hm1 hm2 hc1 hc2 hbad

theorem discrepancyScan_fold_mono {aligned masks n} {c : String} :
    ∀ (entries : List (String × List Nat)) (st : List String × Option (List Bool)),
    c ∈ st.1 →
    c ∈ (entries.foldl (fun st entry =>
      if entry.2.length < 2 then st
      else (indexPairs entry.2).foldl (scanPair aligned masks n entry.1) st) st).1 := by
  intro entries
  induction entries with
  | nil => exact fun st h => h
  | cons e rest ih =>
    intro st h
    simp only [List.foldl_cons]
    by_cases hlen : e.2.length < 2
    · rw [if_pos hlen]
      exact ih _ h
    · rw [if_neg hlen]
      exact ih _ (foldl_scanPair_mono _ _ h)

theorem indexPairs_subset {pr : Nat × Nat} :
    ∀ {l : List Nat}, pr ∈ indexPairs l → pr.1 ∈ l ∧ pr.2 ∈ l := by
  intro l
  induction l with
  | nil => intro h; cases h
  | cons i rest ih =>
    intro h
    simp only [indexPairs, List.mem_append, List.mem_map] at h
    rcases h with ⟨j, hj, hpr⟩ | h
    · subst hpr
      exact ⟨List.mem_cons_self _ _, List.mem_cons_of_mem _ hj⟩
    · obtain ⟨h1, h2⟩ := ih h
      exact ⟨List.mem_cons_of_mem _ h1, List.mem_cons_of_mem _ h2⟩

theorem indexPairs_two_le {pr : Nat × Nat} :
    ∀ {l : List Nat}, pr ∈ indexPairs l → 2 ≤ l.length := by
  intro l
  induction l with
  | nil => intro h; cases h
  | cons i rest ih =>
    intro h
    simp only [indexPairs, List.mem_append, List.mem_map] at h
    rcases h with ⟨j, hj, _⟩ | h
    · cases rest with
      | nil => cases hj
      | cons a b => simp
    · have := ih h
      simp only [List.length_cons]
      omega

theorem indexPairs_cover {a b : Nat} :
    ∀ {l : List Nat}, a ∈ l → b ∈ l → a ≠ b →
    (a, b) ∈ indexPairs l ∨ (b, a) ∈ indexPairs l := by
  intro l
  induction l with
  | nil => intro ha; cases ha
  | cons i rest ih =>
    intro ha hb hab
    rcases List.mem_cons.mp ha with ha1 | ha1
    · subst ha1
      have hbr : b ∈ rest := by
        rcases List.mem_cons.mp hb with h | h
        · exact absurd h.symm hab
        · exact h
      exact Or.inl (by
        simp only [indexPairs, List.mem_append, List.mem_map]
        exact Or.inl ⟨b, hbr, rfl⟩)
    · rcases List.mem_cons.mp hb with hb1 | hb1
      · subst hb1
        exact Or.inr (by
          simp only [indexPairs, List.mem_append, List.mem_map]
          exact Or.inl ⟨a, ha1, rfl⟩)
      · rcases ih ha1 hb1 hab with h | h
        · exact Or.inl (by
            simp only [indexPairs, List.mem_append]
            exact Or.inr h)
        · exact Or.inr (by
            simp only [indexPairs, List.mem_append]
            exact Or.inr h)

theorem discrepancyScan_mem_of_bad {aligned : List Table} {masks : List (List Bool)}
    {n : Nat} {c2t : List (String × List Nat)}
    {entry : String × List Nat} {pr : Nat × Nat}
    (hentry : entry ∈ c2t) (hpr : pr ∈ indexPairs entry.2)
    (hm1 : (masks.getD pr.1 []).length = n)
    (hm2 : (masks.getD pr.2 []).length = n)
    (hc1 : (colOf (aligned.getD pr.1 ⟨[]⟩) entry.1).length = n)
    (hc2 : (colOf (aligned.getD pr.2 ⟨[]⟩) entry.1).length = n)
    (hbad : BadPair aligned masks entry.1 pr.1 pr.2) :
    entry.1 ∈ (discrepancyScan aligned masks n c2t).1 := by
  have hgen : ∀ (entries : List (String × List Nat))
      (st : List String × Option (List Bool)), entry ∈ entries →
      entry.1 ∈ (entries.foldl (fun st e =>
        if e.2.length < 2 then st
        else (indexPairs e.2).foldl (scanPair aligned masks n e.1) st) st).1 := by
    intro entries
    induction entries with
    | nil => intro st h; cases h
    | cons e rest ih =>
      intro st hmem
      simp only [List.foldl_cons]
      rcases List.mem_cons.mp hmem with h | h
      · subst h
        rw [if_neg (by
          have := indexPairs_two_le hpr
          omega)]
        refine discrepancyScan_fold_mono rest _ ?_
        exact foldl_scanPair_mem_of_bad _ _ pr hpr hm1 hm2 hc1 hc2 hbad
      · by_cases hlen : e.2.length < 2
        · rw [if_pos hlen]
          exact ih _ h
        · rw [if_neg hlen]
          exact ih _ h
  exact hgen c2t ([], none) hentry

theorem discrepancyScan_eq_of_good {aligned : List Table} {masks : List (List Bool)}
    {n : Nat} {c2t : List (String × List Nat)}
    (hgood : ∀ entry ∈ c2t, ∀ pr ∈ indexPairs entry.2,
      ∀ st, scanPair aligned masks n entry.1 st pr = st) :
    discrepancyScan aligned masks n c2t = ([], none) := by
  have hgen : ∀ (entries : List (String × List Nat))
      (st : List String × Option (List Bool)),
      (∀ entry ∈ entries, ∀ pr ∈ indexPairs entry.2,
        ∀ st2, scanPair aligned masks n entry.1 st2 pr = st2) →
      (entries.foldl (fun st e =>
        if e.2.length < 2 then st
        else (indexPairs e.2).foldl (scanPair aligned masks n e.1) st) st) = st := by
    intro entries
    induction entries with
    | nil => intro st _; rfl
    | cons e rest ih =>
      intro st h
      simp only [List.foldl_cons]
      have hinner : ∀ (prs : List (Nat × Nat)), (∀ pr ∈ prs,
          ∀ st2, scanPair aligned masks n e.1 st2 pr = st2) →
          prs.foldl (scanPair aligned masks n e.1) st = st := by
        intro prs
        induction prs with
        | nil => intro _; rfl
        | cons q qrest ihq =>
          intro hq
          simp only [List.foldl_cons]
          rw [hq q (List.mem_cons_self _ _) st]
          exact ihq (fun pr hpr st2 => hq pr (List.mem_cons_of_mem _ hpr) st2)
      by_cases hlen : e.2.length < 2
      · rw [if_pos hlen]
        exact ih _ (fun en hen => h en (List.mem_cons_of_mem _ hen))
      · rw [if_neg hlen]
        rw [hinner _ (fun pr hpr st2 => h e (List.mem_cons_self _ _) pr hpr st2)]
        exact ih _ (fun en hen => h en (List.mem_cons_of_mem _ hen))
  exact hgen c2t ([], none) hgood

/-! Association-upsert characterization. -/

theorem lookupAssoc_upsertAppend {α : Type} :
    ∀ (acc : List (String × List α)) (k : String) (v : α) (c : String),
    lookupAssoc (upsertAppend acc k v) c =
      if c = k then some (((lookupAssoc acc k).getD []) ++ [v])
      else lookupAssoc acc c := by
  intro acc
  induction acc with
  | nil =>
    intro k v c
    by_cases hck : c = k
    · subst hck
      simp [upsertAppend, lookupAssoc]
    · rw [if_neg hck]
      show lookupAssoc [(k, [v])] c = lookupAssoc ([] : List (String × List α)) c
      simp only [lookupAssoc, List.find?_nil]
      rw [List.find?_cons_of_neg _ (by
        simp only [beq_iff_eq]
        exact fun h => hck h.symm)]
      simp
  | cons p rest ih =>
    intro k v c
    obtain ⟨c0, vs⟩ := p
    show lookupAssoc
        (if c0 == k then (c0, vs ++ [v]) :: rest else (c0, vs) :: upsertAppend rest k v) c = _
    by_cases h0k : c0 = k
    · rw [if_pos (by simpa using h0k)]
      subst h0k
      by_cases hcc0 : c = c0
      · subst hcc0
        rw [if_pos rfl]
        simp [lookupAssoc]
      · rw [if_neg hcc0]
        simp only [lookupAssoc]
        rw [List.find?_cons_of_neg _ (by
            simp only [beq_iff_eq]
            exact fun h => hcc0 h.symm),
          List.find?_cons_of_neg _ (by
            simp only [beq_iff_eq]
            exact fun h => hcc0 h.symm)]
    · rw [if_neg (by simpa using h0k)]
      by_cases hcc0 : c = c0
      · have hck : ¬ c = k := fun h => h0k (hcc0.symm.trans h)
        rw [if_neg hck]
        simp only [lookupAssoc]
        rw [List.find?_cons_of_pos _ (by simp [hcc0.symm]),
          List.find?_cons_of_pos _ (by simp [hcc0.symm])]
      · simp only [lookupAssoc]
        rw [List.find?_cons_of_neg _ (by
          simp only [beq_iff_eq]
          exact fun h => hcc0 h.symm)]
        have hih := ih k v c
        simp only [lookupAssoc] at hih
        rw [hih]
        by_cases hck : c = k
        · rw [if_pos hck, if_pos hck]
          rw [List.find?_cons_of_neg _ (by
            simp only [beq_iff_eq]
            exact h0k)]
        · rw [if_neg hck, if_neg hck]
          rw [List.find?_cons_of_neg _ (by
            simp only [beq_iff_eq]
            exact fun h => hcc0 h.symm)]

theorem lookupAssoc_foldl_upsert {α β : Type} (kf : β → String) (vf : β → α) :
    ∀ (P : List β) (acc : List (String × List α)) (c : String),
    (lookupAssoc (P.foldl (fun a x => upsertAppend a (kf x) (vf x)) acc) c).getD [] =
      (lookupAssoc acc c).getD [] ++ (P.filter (fun x => kf x == c)).map vf := by
  intro P
  induction P with
  | nil => intro acc c; simp
  | cons x rest ih =>
    intro acc c
    simp only [List.foldl_cons, List.filter_cons]
    by_cases hk : kf x = c
    · rw [if_pos (by simpa using hk)]
      rw [ih]
      rw [lookupAssoc_upsertAppend]
      rw [if_pos hk.symm]
      subst hk
      simp
    · rw [if_neg (by simpa using hk)]
      rw [ih]
      rw [lookupAssoc_upsertAppend]
      rw [if_neg (fun h => hk h.symm)]

theorem isSome_lookupAssoc_foldl_upsert {α β : Type} (kf : β → String) (vf : β → α) :
    ∀ (P : List β) (acc : List (String × List α)) (c : String),
    (lookupAssoc (P.foldl (fun a x => upsertAppend a (kf x) (vf x)) acc) c).isSome =
      ((lookupAssoc acc c).isSome || P.any (fun x => kf x == c)) := by
  intro P
  induction P with
  | nil => intro acc c; simp
  | cons x rest ih =>
    intro acc c
    simp only [List.foldl_cons, List.any_cons]
    rw [ih]
    rw [lookupAssoc_upsertAppend]
    by_cases hk : c = kf x
    · rw [if_pos hk]
      simp [hk]
    · rw [if_neg hk]
      have : (kf x == c) = false := by
        simp only [beq_eq_false_iff_ne, ne_eq]
        exact fun h => hk h.symm
      rw [this]
      simp

theorem keys_upsertAppend_subset {α : Type} {x : String} :
    ∀ {acc : List (String × List α)} {k : String} {v : α},
    x ∈ (upsertAppend acc k v).map Prod.fst → x ∈ acc.map Prod.fst ∨ x = k := by
  intro acc
  induction acc with
  | nil =>
    intro k v h
    simp only [upsertAppend, List.map_cons, List.map_nil] at h
    rcases List.mem_cons.mp h with h | h
    · exact Or.inr h
    · cases h
  | cons p rest ih =>
    intro k v h
    obtain ⟨c0, vs⟩ := p
    simp only [upsertAppend] at h
    by_cases h0k : c0 == k
    · rw [if_pos h0k] at h
      simp only [List.map_cons] at h
      rcases List.mem_cons.mp h with h | h
      · exact Or.inl (by simp [h])
      · exact Or.inl (List.mem_cons_of_mem _ h)
    · rw [if_neg h0k] at h
      simp only [List.map_cons] at h
      rcases List.mem_cons.mp h with h | h
      · exact Or.inl (by simp [h])
      · rcases ih h with h2 | h2
        · exact Or.inl (List.mem_cons_of_mem _ h2)
        · exact Or.inr h2

theorem keysNodup_upsertAppend {α : Type} :
    ∀ {acc : List (String × List α)} {k : String} {v : α},
    (acc.map Prod.fst).Nodup → ((upsertAppend acc k v).map Prod.fst).Nodup := by
  intro acc
  induction acc with
  | nil =>
    intro k v _
    simp [upsertAppend]
  | cons p rest ih =>
    intro k v hnd
    obtain ⟨c0, vs⟩ := p
    simp only [upsertAppend]
    by_cases h0k : c0 == k
    · rw [if_pos h0k]
      simpa using hnd
    · rw [if_neg h0k]
      simp only [List.map_cons, List.nodup_cons] at hnd ⊢
      refine ⟨?_, ih hnd.2⟩
      intro hmem
      rcases keys_upsertAppend_subset hmem with h | h
      · exact hnd.1 h
      · have hne : ¬ c0 = k := by simpa using h0k
        exact hne h

theorem keysNodup_foldl_upsert {α β : Type} (kf : β → String) (vf : β → α) :
    ∀ (P : List β) (acc : List (String × List α)),
    (acc.map Prod.fst).Nodup →
    ((P.foldl (fun a x => upsertAppend a (kf x) (vf x)) acc).map Prod.fst).Nodup := by
  intro P
  induction P with
  | nil => exact fun acc h => h
  | cons x rest ih =>
    intro acc h
    exact ih _ (keysNodup_upsertAppend h)

theorem lookupAssoc_eq_of_mem {α : Type} {c : String} {vs : α} :
    ∀ {l : List (String × α)}, (l.map Prod.fst).Nodup → (c, vs) ∈ l →
    lookupAssoc l c = some vs := by
  intro l
  induction l with
  | nil => intro _ h; cases h
  | cons p rest ih =>
    intro hnd hmem
    obtain ⟨c0, vs0⟩ := p
    rcases List.mem_cons.mp hmem with h | h
    · cases h
      simp [lookupAssoc]
    · have hne : c0 ≠ c := by
        intro he
        subst he
        simp only [List.map_cons, List.nodup_cons] at hnd
        exact hnd.1 (List.mem_map.mpr ⟨(c0, vs), h, rfl⟩)
      simp only [lookupAssoc]
      rw [List.find?_cons_of_neg _ (by simpa using hne)]
      have := ih (by simpa using (List.nodup_cons.mp (by simpa using hnd)).2) h
      simpa [lookupAssoc] using this

theorem mem_of_lookupAssoc_eq {α : Type} {c : String} {vs : α} :
    ∀ {l : List (String × α)}, lookupAssoc l c = some vs → (c, vs) ∈ l := by
  intro l
  induction l with
  | nil => intro h; simp [lookupAssoc] at h
  | cons p rest ih =>
    intro h
    obtain ⟨c0, vs0⟩ := p
    by_cases h0 : c0 = c
    · subst h0
      simp only [lookupAssoc] at h
      rw [List.find?_cons_of_pos _ (by simp)] at h
      simp only [Option.map_some', Option.some.injEq] at h
      subst h
      exact List.mem_cons_self _ _
    · simp only [lookupAssoc] at h
      rw [List.find?_cons_of_neg _ (by simpa using h0)] at h
      exact List.mem_cons_of_mem _ (ih (by simpa [lookupAssoc] using h))

theorem noDiscrepancyCell_eq_true_iff (a b : Cell) :
    noDiscrepancyCell a b = true ↔ a = b := by
  cases a <;> cases b <;> simp [noDiscrepancyCell]

theorem mk_getElem_mem_enum {α : Type} (l : List α) (i : Nat) (h : i < l.length) :
    (i, l[i]) ∈ l.enum := by
  rw [List.mem_iff_getElem]
  have hlen : l.enum.length = l.length := by simp
  refine ⟨i, by omega, ?_⟩
  exact List.getElem_enum l i (by omega)

theorem mem_alignColPairs {aligned : List Table} {keyNames : List String}
    {i : Nat} {col : String} :
    (i, col) ∈ alignColPairs aligned keyNames ↔
      i < aligned.length ∧ col ∈ (aligned.getD i ⟨[]⟩).columnNames ∧
      keyNames.contains col = false := by
  simp only [alignColPairs, List.mem_flatMap, List.mem_map, List.mem_filter]
  constructor
  · rintro ⟨p, hp, c, ⟨hcmem, hckey⟩, heq⟩
    obtain ⟨pi, pt⟩ := p
    obtain ⟨h1, h2⟩ := Prod.mk.injEq .. ▸ heq
    · obtain ⟨hip, hgp⟩ := List.mem_enum hp
      subst h1
      subst h2
      refine ⟨hip, ?_, by simpa using hckey⟩
      rw [List.getD_eq_getElem _ _ hip]
      rw [← hgp]
      exact hcmem
  · rintro ⟨hi, hcol, hkey⟩
    refine ⟨(i, aligned[i]), mk_getElem_mem_enum aligned i hi, col, ⟨?_, by simpa using hkey⟩, rfl⟩
    rw [List.getD_eq_getElem _ _ hi] at hcol
    exact hcol

theorem consolidationAlignedTables_length {tables : List (String × Table)}
    {keyNames : List String} {merged : Table} :
    (consolidationAlignedTables tables keyNames merged).length = tables.length := by
  simp [consolidationAlignedTables, alignAll]

theorem consolidationMasks_getD_length {tables : List (String × Table)}
    {keyNames : List String} {merged : Table} {i : Nat} (hi : i < tables.length) :
    ((consolidationMasks tables keyNames merged).getD i []).length = merged.numRows := by
  simp only [consolidationMasks, alignAll]
  rw [List.getD_eq_getElem _ _ (by simpa using hi)]
  simp only [List.getElem_map]
  by_cases h : tables[i].2.hasCols keyNames
  · rw [if_pos h]
    simp [alignTable]
  · rw [if_neg h]
    simp

theorem selectCols_names_mem {t : Table} {names : List String} :
    ∀ c ∈ (Table.selectCols t names).cols, c.1 ∈ names := by
  intro c hc
  simp only [Table.selectCols, List.mem_filterMap] at hc
  obtain ⟨n, hn, heq⟩ := hc
  rw [Option.map_eq_some'] at heq
  obtain ⟨colData, _, hc2⟩ := heq
  subst hc2
  exact hn

theorem lookup_getD_length {cols : List (String × List Cell)} {col : String} {n : Nat}
    (hall : ∀ c ∈ cols, c.2.length = n)
    (hpresent : col ∈ cols.map Prod.fst) :
    (((List.find? (fun c => c.1 == col) cols).map Prod.snd).getD []).length = n := by
  cases hf : List.find? (fun c => c.1 == col) cols with
  | none =>
    exfalso
    obtain ⟨c, hcmem, hceq⟩ := List.mem_map.mp hpresent
    have : (List.find? (fun c => c.1 == col) cols).isSome = true := by
      rw [List.find?_isSome]
      exact ⟨c, hcmem, by simp [hceq]⟩
    rw [hf] at this
    cases this
  | some d =>
    have hdm := List.mem_of_find?_eq_some hf
    simp [hall d hdm]

theorem alignTable_colOf_length {merged : Table} {keyNames : List String}
    {t : Table} {col : String}
    (hkey : keyNames.contains col = false)
    (hcol : col ∈ (alignTable merged keyNames t).1.columnNames) :
    (colOf (alignTable merged keyNames t).1 col).length = merged.numRows := by
  have hkeyColsNone :
      List.find? (fun c => c.1 == col) (merged.selectCols keyNames).cols = none := by
    cases hf : List.find? (fun c => c.1 == col) (merged.selectCols keyNames).cols with
    | none => rfl
    | some x =>
      exfalso
      have hmem := List.mem_of_find?_eq_some hf
      have hpred := List.find?_some hf
      simp only [beq_iff_eq] at hpred
      have hxk := selectCols_names_mem x hmem
      rw [hpred] at hxk
      have hct : keyNames.contains col = true := by simpa using hxk
      rw [hct] at hkey
      cases hkey
  simp only [colOf, Table.lookupCol, alignTable]
  rw [List.find?_append, hkeyColsNone, Option.none_or]
  simp only [alignTable, Table.columnNames] at hcol
  rw [List.map_append] at hcol
  rcases List.mem_append.mp hcol with hc | hc
  · exfalso
    obtain ⟨c, hcmem, hceq⟩ := List.mem_map.mp hc
    have hck := selectCols_names_mem c hcmem
    rw [hceq] at hck
    have hct : keyNames.contains col = true := by simpa using hck
    rw [hct] at hkey
    cases hkey
  · refine lookup_getD_length ?_ hc
    intro c hcm
    obtain ⟨c2, _, hceq⟩ := List.mem_map.mp hcm
    subst hceq
    simp

theorem consolidationAligned_colOf_length {tables : List (String × Table)}
    {keyNames : List String} {merged : Table} {i : Nat} {col : String}
    (hkey : keyNames.contains col = false)
    (hcol : col ∈ ((consolidationAlignedTables tables keyNames merged).getD i ⟨[]⟩).columnNames) :
    (colOf ((consolidationAlignedTables tables keyNames merged).getD i ⟨[]⟩) col).length =
      merged.numRows := by
  by_cases hi : i < tables.length
  · have hi2 : i < (consolidationAlignedTables tables keyNames merged).length := by
      rw [consolidationAlignedTables_length]
      exact hi
    rw [List.getD_eq_getElem _ _ hi2] at hcol ⊢
    simp only [consolidationAlignedTables, alignAll, List.getElem_map] at hcol ⊢
    by_cases h : tables[i].2.hasCols keyNames
    · rw [if_pos h] at hcol ⊢
      exact alignTable_colOf_length hkey hcol
    · rw [if_neg h] at hcol
      simp [Table.columnNames] at hcol
  · rw [List.getD_eq_default _ _ (by
      rw [consolidationAlignedTables_length]
      omega)] at hcol
    simp [Table.columnNames] at hcol

theorem colToTables_keysNodup (aligned : List Table) (keyNames : List String) :
    ((colToTables aligned keyNames).map Prod.fst).Nodup :=
  keysNodup_foldl_upsert (fun ic : Nat × String => ic.2) (fun ic => ic.1)
    (alignColPairs aligned keyNames) [] (by simp)

theorem colToTables_lookup_getD (aligned : List Table) (keyNames : List String)
    (col : String) :
    (lookupAssoc (colToTables aligned keyNames) col).getD [] =
      ((alignColPairs aligned keyNames).filter (fun ic => ic.2 == col)).map
        (fun ic => ic.1) := by
  have h := lookupAssoc_foldl_upsert (fun ic : Nat × String => ic.2) (fun ic => ic.1)
    (alignColPairs aligned keyNames) [] col
  simpa [lookupAssoc] using h

theorem mem_colToTables_value {aligned : List Table} {keyNames : List String}
    {col : String} {i : Nat} :
    i ∈ (lookupAssoc (colToTables aligned keyNames) col).getD [] ↔
      (i, col) ∈ alignColPairs aligned keyNames := by
  rw [colToTables_lookup_getD]
  simp only [List.mem_map, List.mem_filter, beq_iff_eq]
  constructor
  · rintro ⟨ic, ⟨hmem, hc⟩, hi⟩
    obtain ⟨ii, cc⟩ := ic
    simp only at hc hi
    subst hc
    subst hi
    exact hmem
  · intro h
    exact ⟨(i, col), ⟨h, rfl⟩, rfl⟩

theorem consolidate_eq_consolidateAligned
    {e1 e2 : String × Table} {restT : List (String × Table)}
    {fields : List EntityFieldRef} {desc : Bool} {merged : Table}
    (hsubne : consolidateSubsets (e1 :: e2 :: restT) (fields.map qualifiedFieldName) ≠ [])
    (hmerge : merge_primary_key_subsets_preserving_order
      (consolidateSubsets (e1 :: e2 :: restT) (fields.map qualifiedFieldName)) desc =
      .ok merged) :
    consolidate_processed_endpoint_tables (e1 :: e2 :: restT) fields desc =
      consolidateAligned (e1 :: e2 :: restT) (fields.map qualifiedFieldName) merged := by
  simp only [consolidate_processed_endpoint_tables]
  rw [if_neg (by simpa [List.isEmpty_iff] using hsubne)]
  rw [hmerge]

/-- Claim C1: with at least two endpoint tables (and the key merge
succeeding), if some non-key column is present in the aligned tables of at
least two endpoints and there is a row where both endpoints' validity masks
are true and the two aligned values are neither equal nor both null, the
consolidation raises `DataProviderMultiEndpointCommonDataDiscrepancyError`
whose `discrepant_columns` contains that column (and no table is returned);
conversely, if every shared non-key column agrees on every common-valid row,
no discrepancy error is raised. -/
theorem claim_C1_discrepancy_detection
    (e1 e2 : String × Table) (restT : List (String × Table))
    (fields : List EntityFieldRef) (desc : Bool) (merged : Table)
    (hsubne : consolidateSubsets (e1 :: e2 :: restT) (fields.map qualifiedFieldName) ≠ [])
    (hmerge : merge_primary_key_subsets_preserving_order
      (consolidateSubsets (e1 :: e2 :: restT) (fields.map qualifiedFieldName)) desc =
      .ok merged) :
    (∀ col i1 i2 j, i1 ≠ i2 →
      (fields.map qualifiedFieldName).contains col = false →
      col ∈ ((consolidationAlignedTables (e1 :: e2 :: restT)
        (fields.map qualifiedFieldName) merged).getD i1 ⟨[]⟩).columnNames →
      col ∈ ((consolidationAlignedTables (e1 :: e2 :: restT)
        (fields.map qualifiedFieldName) merged).getD i2 ⟨[]⟩).columnNames →
      ((consolidationMasks (e1 :: e2 :: restT)
        (fields.map qualifiedFieldName) merged).getD i1 []).getD j false = true →
      ((consolidationMasks (e1 :: e2 :: restT)
        (fields.map qualifiedFieldName) merged).getD i2 []).getD j false = true →
      Table.cellAt ((consolidationAlignedTables (e1 :: e2 :: restT)
          (fields.map qualifiedFieldName) merged).getD i1 ⟨[]⟩) col j ≠
        Table.cellAt ((consolidationAlignedTables (e1 :: e2 :: restT)
          (fields.map qualifiedFieldName) merged).getD i2 ⟨[]⟩) col j →
      ∃ cols dbg,
        consolidate_processed_endpoint_tables (e1 :: e2 :: restT) fields desc =
          .error (.discrepancyError cols dbg (fields.map qualifiedFieldName)) ∧
        col ∈ cols) ∧
    ((∀ col i1 i2 j,
      (fields.map qualifiedFieldName).contains col = false →
      col ∈ ((consolidationAlignedTables (e1 :: e2 :: restT)
        (fields.map qualifiedFieldName) merged).getD i1 ⟨[]⟩).columnNames →
      col ∈ ((consolidationAlignedTables (e1 :: e2 :: restT)
        (fields.map qualifiedFieldName) merged).getD i2 ⟨[]⟩).columnNames →
      ((consolidationMasks (e1 :: e2 :: restT)
        (fields.map qualifiedFieldName) merged).getD i1 []).getD j false = true →
      ((consolidationMasks (e1 :: e2 :: restT)
        (fields.map qualifiedFieldName) merged).getD i2 []).getD j false = true →
      Table.cellAt ((consolidationAlignedTables (e1 :: e2 :: restT)
          (fields.map qualifiedFieldName) merged).getD i1 ⟨[]⟩) col j =
        Table.cellAt ((consolidationAlignedTables (e1 :: e2 :: restT)
          (fields.map qualifiedFieldName) merged).getD i2 ⟨[]⟩) col j) →
      ∀ cols dbg kn,
        consolidate_processed_endpoint_tables (e1 :: e2 :: restT) fields desc ≠
          .error (.discrepancyError cols dbg kn)) := by
  set tables := e1 :: e2 :: restT with htables
  set keyNames := fields.map qualifiedFieldName with hkeyNames
  set aligned := consolidationAlignedTables tables keyNames merged with haligned
  set masks := consolidationMasks tables keyNames merged with hmasks
  have halignedLen : aligned.length = tables.length := consolidationAlignedTables_length
  have hbridge := consolidate_eq_consolidateAligned hsubne hmerge
  constructor
  · -- forward direction: a discrepant column forces the discrepancy error
    intro col i1 i2 j hne hkey hcol1 hcol2 hm1 hm2 hdiff
    have hi1 : i1 < aligned.length := by
      by_contra hge
      rw [List.getD_eq_default _ _ (Nat.le_of_not_lt hge)] at hcol1
      simp [Table.columnNames] at hcol1
    have hi2 : i2 < aligned.length := by
      by_contra hge
      rw [List.getD_eq_default _ _ (Nat.le_of_not_lt hge)] at hcol2
      simp [Table.columnNames] at hcol2
    have hp1 : (i1, col) ∈ alignColPairs aligned keyNames :=
      mem_alignColPairs.mpr ⟨hi1, hcol1, hkey⟩
    have hp2 : (i2, col) ∈ alignColPairs aligned keyNames :=
      mem_alignColPairs.mpr ⟨hi2, hcol2, hkey⟩
    have hv1 : i1 ∈ (lookupAssoc (colToTables aligned keyNames) col).getD [] :=
      mem_colToTables_value.mpr hp1
    have hv2 : i2 ∈ (lookupAssoc (colToTables aligned keyNames) col).getD [] :=
      mem_colToTables_value.mpr hp2
    cases hlook : lookupAssoc (colToTables aligned keyNames) col with
    | none =>
      rw [hlook] at hv1
      cases hv1
    | some vs =>
      rw [hlook] at hv1 hv2
      simp only [Option.getD_some] at hv1 hv2
      have hentry : (col, vs) ∈ colToTables aligned keyNames :=
        mem_of_lookupAssoc_eq hlook
      have hbadBase : BadPair aligned masks col i1 i2 :=
        ⟨j, hm1, hm2, by
          rw [← Bool.not_eq_true]
          intro hagree
          exact hdiff ((noDiscrepancyCell_eq_true_iff _ _).mp hagree)⟩
      have hlen : ∀ i, i < tables.length →
          ((masks.getD i []).length = merged.numRows) := by
        intro i hi
        exact consolidationMasks_getD_length hi
      have hclen : ∀ i, col ∈ (aligned.getD i ⟨[]⟩).columnNames →
          (colOf (aligned.getD i ⟨[]⟩) col).length = merged.numRows := by
        intro i hc
        exact consolidationAligned_colOf_length hkey hc
      have hscan : col ∈ (discrepancyScan aligned masks merged.numRows
          (colToTables aligned keyNames)).1 := by
        rcases indexPairs_cover hv1 hv2 hne with hpr | hpr
        · exact discrepancyScan_mem_of_bad hentry hpr
            (hlen i1 (by omega)) (hlen i2 (by omega))
            (hclen i1 hcol1) (hclen i2 hcol2) hbadBase
        · exact discrepancyScan_mem_of_bad hentry hpr
            (hlen i2 (by omega)) (hlen i1 (by omega))
            (hclen i2 hcol2) (hclen i1 hcol1) (badPair_symm hbadBase)
      rw [hbridge]
      simp only [consolidateAligned]
      rw [if_neg (by
        intro hempty
        rw [List.isEmpty_iff.mp hempty] at hscan
        cases hscan)]
      exact ⟨_, _, rfl, hscan⟩
  · -- converse: agreement everywhere means no discrepancy error
    intro hagree cols dbg kn
    have hgood : ∀ entry ∈ colToTables aligned keyNames,
        ∀ pr ∈ indexPairs entry.2, ∀ st,
        scanPair aligned masks merged.numRows entry.1 st pr = st := by
      intro entry hentry pr hpr st
      have hlook : lookupAssoc (colToTables aligned keyNames) entry.1 = some entry.2 :=
        lookupAssoc_eq_of_mem (colToTables_keysNodup aligned keyNames) hentry
      obtain ⟨h1mem, h2mem⟩ := indexPairs_subset hpr
      have hv1 : pr.1 ∈ (lookupAssoc (colToTables aligned keyNames) entry.1).getD [] := by
        rw [hlook]
        simpa using h1mem
      have hv2 : pr.2 ∈ (lookupAssoc (colToTables aligned keyNames) entry.1).getD [] := by
        rw [hlook]
        simpa using h2mem
      obtain ⟨hp1len, hp1col, hp1key⟩ := mem_alignColPairs.mp (mem_colToTables_value.mp hv1)
      obtain ⟨hp2len, hp2col, hp2key⟩ := mem_alignColPairs.mp (mem_colToTables_value.mp hv2)
      refine scanPair_eq_self
        (consolidationMasks_getD_length (by omega))
        (consolidationMasks_getD_length (by omega))
        (consolidationAligned_colOf_length hp1key hp1col)
        (consolidationAligned_colOf_length hp2key hp2col) ?_
      rintro ⟨j, hb1, hb2, hb3⟩
      have hcells : Table.cellAt (aligned.getD pr.1 ⟨[]⟩) entry.1 j =
          Table.cellAt (aligned.getD pr.2 ⟨[]⟩) entry.1 j :=
        hagree entry.1 pr.1 pr.2 j hp1key hp1col hp2col hb1 hb2
      rw [(noDiscrepancyCell_eq_true_iff _ _).mpr hcells] at hb3
      cases hb3
    have hscan : discrepancyScan aligned masks merged.numRows
        (colToTables aligned keyNames) = ([], none) :=
      discrepancyScan_eq_of_good hgood
    rw [hbridge]
    simp only [consolidateAligned]
    rw [hscan]
    simp

/-- Witness for claim C1: two endpoints sharing `R.x` with different non-null
values on a common-valid row make the consolidation raise the discrepancy
error naming `R.x`. -/
theorem claim_C1_witness :
    (consolidateSubsets (discE1 :: discE2 :: []) (discFields.map qualifiedFieldName) ≠ [] ∧
     merge_primary_key_subsets_preserving_order
       (consolidateSubsets (discE1 :: discE2 :: []) (discFields.map qualifiedFieldName))
       false = .ok discMerged) ∧
    (∃ cols dbg,
      consolidate_processed_endpoint_tables (discE1 :: discE2 :: []) discFields false =
        .error (.discrepancyError cols dbg (discFields.map qualifiedFieldName)) ∧
      ("R.x") ∈ cols) :=
  ⟨⟨by decide, by decide⟩,
   (claim_C1_discrepancy_detection discE1 discE2 [] discFields false discMerged
      (by decide) (by decide)).1 ("R.x") 0 1 1 (by decide) (by decide) (by decide)
      (by decide) (by decide) (by decide) (by decide)⟩

/-- Counterexample to claim C4 as stated: the source groups output columns by
bare field name (the part after the first dot), so column `A.x` is coalesced
together with `B.x` of a different entity.  The returned `A.x` column is
`[1, 2]`, not the claim's coalesce-of-`A.x`-candidates-only `[1, null]`. -/
theorem claim_C4_counterexample :
    ((consolidate_processed_endpoint_tables (cxE1 :: cxE2 :: []) cxFields false).toOption.bind
      (fun t => t.lookupCol ("A.x"))) = some [some 1, some 2] ∧
    exactNameCoalesce (cxE1 :: cxE2 :: []) (cxFields.map qualifiedFieldName)
      (rowsToTable [("K.d")] [[some 1], [some 2]]) ("A.x") = [some 1, none] ∧
    (some [some 1, some 2] : Option (List Cell)) ≠ some [some 1, none] := by
  refine ⟨by decide, by decide, by decide⟩

/-! Lemmas towards the amended coalescing claim. -/

theorem insSortedPair_perm {α : Type} (a : String × α) :
    ∀ (l : List (String × α)), (insSortedPair a l).Perm (a :: l) := by
  intro l
  induction l with
  | nil => simp [insSortedPair]
  | cons b t ih =>
    simp only [insSortedPair]
    by_cases h : strLeB a.1 b.1
    · rw [if_pos h]
    · rw [if_neg h]
      exact (ih.cons b).trans (List.Perm.swap a b t)

theorem sortPairsByKey_perm {α : Type} :
    ∀ (l : List (String × α)), (sortPairsByKey l).Perm l := by
  intro l
  induction l with
  | nil => simp [sortPairsByKey]
  | cons a t ih =>
    simp only [sortPairsByKey, List.foldr_cons]
    exact (insSortedPair_perm a _).trans (ih.cons a)

theorem insSortedStr_perm (a : String) :
    ∀ (l : List String), (insSortedStr a l).Perm (a :: l) := by
  intro l
  induction l with
  | nil => simp [insSortedStr]
  | cons b t ih =>
    simp only [insSortedStr]
    by_cases h : strLeB a b
    · rw [if_pos h]
    · rw [if_neg h]
      exact (ih.cons b).trans (List.Perm.swap a b t)

theorem sortStrings_perm :
    ∀ (l : List String), (sortStrings l).Perm l := by
  intro l
  induction l with
  | nil => simp [sortStrings]
  | cons a t ih =>
    simp only [sortStrings, List.foldr_cons]
    exact (insSortedStr_perm a _).trans (ih.cons a)

/-- Every entry of a dict built by the upsert fold records exactly the fold
inputs keyed to it, and no entry is empty. -/
theorem foldl_upsert_entry {α β : Type} (kf : β → String) (vf : β → α)
    {P : List β} {c : String} {vs : List α}
    (hmem : (c, vs) ∈ P.foldl (fun a x => upsertAppend a (kf x) (vf x)) []) :
    vs = (P.filter (fun x => kf x == c)).map vf ∧ vs ≠ [] := by
  have hnodup := keysNodup_foldl_upsert kf vf P [] (by simp)
  have hlook := lookupAssoc_eq_of_mem hnodup hmem
  have hval := lookupAssoc_foldl_upsert kf vf P [] c
  rw [hlook] at hval
  simp only [Option.getD_some] at hval
  have hsome := isSome_lookupAssoc_foldl_upsert kf vf P [] c
  rw [hlook] at hsome
  simp only [Option.isSome_some, lookupAssoc, List.find?_nil, Option.map_none',
    Option.isSome_none, Bool.false_or] at hsome
  obtain ⟨x, hx, hkx⟩ := List.any_eq_true.mp hsome.symm
  simp only [lookupAssoc, List.find?_nil, Option.map_none', Option.getD_none,
    List.nil_append] at hval
  refine ⟨hval, ?_⟩
  rw [hval]
  intro hnil
  have : x ∈ P.filter (fun x => kf x == c) := List.mem_filter.mpr ⟨hx, hkx⟩
  rw [List.eq_nil_iff_forall_not_mem] at hnil
  exact hnil (vf x) (List.mem_map.mpr ⟨x, this, rfl⟩)

theorem find?_group_chunk {g2 : List String} {mcol : List Cell} {n : String} :
    (List.find? (fun p => p.1 == n) (g2.map (fun full => (full, mcol)))).map Prod.snd =
      if n ∈ g2 then some mcol else none := by
  induction g2 with
  | nil => simp
  | cons m t ih =>
    simp only [List.map_cons]
    by_cases hm : m = n
    · subst hm
      rw [List.find?_cons_of_pos _ (by simp)]
      simp
    · rw [List.find?_cons_of_neg _ (by simpa using hm)]
      rw [ih]
      by_cases hn : n ∈ t
      · rw [if_pos hn, if_pos (List.mem_cons_of_mem _ hn)]
      · rw [if_neg hn, if_neg (by
          intro h
          rcases List.mem_cons.mp h with h | h
          · exact hm h.symm
          · exact hn h)]

theorem collect_inner_ne {aligned : List Table} {full : String} :
    ∀ (tis : List Nat) (arrays : List (List Cell)),
    (arrays ≠ [] ∨ tis ≠ []) →
    (tis.foldl (fun arrays2 ti =>
      let arr := colOf (aligned.getD ti ⟨[]⟩) full
      if arrays2.contains arr then arrays2 else arrays2 ++ [arr]) arrays) ≠ [] := by
  intro tis
  induction tis with
  | nil =>
    intro arrays h
    rcases h with h | h
    · exact h
    · exact absurd rfl h
  | cons ti rest ih =>
    intro arrays _
    simp only [List.foldl_cons]
    refine ih _ (Or.inl ?_)
    by_cases hc : arrays.contains (colOf (aligned.getD ti ⟨[]⟩) full)
    · rw [if_pos hc]
      intro hnil
      subst hnil
      simp at hc
    · rw [if_neg hc]
      simp

theorem collectCoalesceArrays_ne {aligned : List Table}
    {c2t : List (String × List Nat)} {n : String} :
    ∀ (fulls : List String) (arrays : List (List Cell)),
    ((arrays ≠ [] ∨ (n ∈ fulls ∧ (lookupAssoc c2t n).getD [] ≠ []))) →
    (fulls.foldl (fun arrays full =>
      ((lookupAssoc c2t full).getD []).foldl (fun arrays2 ti =>
        let arr := colOf (aligned.getD ti ⟨[]⟩) full
        if arrays2.contains arr then arrays2 else arrays2 ++ [arr]) arrays) arrays) ≠ [] := by
  intro fulls
  induction fulls with
  | nil =>
    intro arrays h
    rcases h with h | h
    · exact h
    · exact absurd h.1 (by simp)
  | cons f rest ih =>
    intro arrays h
    simp only [List.foldl_cons]
    rcases h with h | ⟨hmem, hne⟩
    · refine ih _ (Or.inl ?_)
      by_cases hcase : arrays = []
      · exact absurd hcase h
      · by_cases htis : (lookupAssoc c2t f).getD [] = []
        · rw [htis]
          simpa using hcase
        · exact collect_inner_ne _ _ (Or.inl hcase)
    · rcases List.mem_cons.mp hmem with hf | hf
      · subst hf
        refine ih _ (Or.inl ?_)
        exact collect_inner_ne _ _ (Or.inr hne)
      · by_cases hcase : ((lookupAssoc c2t f).getD []).foldl (fun arrays2 ti =>
            let arr := colOf (aligned.getD ti ⟨[]⟩) f
            if arrays2.contains arr then arrays2 else arrays2 ++ [arr]) arrays = []
        · exact ih _ (Or.inr ⟨hf, hne⟩)
        · exact ih _ (Or.inl hcase)

theorem collectCoalesceArrays_ne_empty {aligned : List Table}
    {c2t : List (String × List Nat)} {fulls : List String} {n : String}
    (hn : n ∈ fulls) (hne : (lookupAssoc c2t n).getD [] ≠ []) :
    collectCoalesceArrays aligned c2t fulls ≠ [] :=
  collectCoalesceArrays_ne fulls [] (Or.inr ⟨hn, hne⟩)

theorem lookupAssoc_consolidatedCoalesced {nRows : Nat} {aligned : List Table}
    {c2t : List (String × List Nat)} {n : String} {g : String × List String}
    (hg : g ∈ sortPairsByKey (fieldToFullNames (sortStrings (c2t.map Prod.fst))))
    (hn : n ∈ g.2)
    (huniq : ∀ g2 ∈ sortPairsByKey (fieldToFullNames (sortStrings (c2t.map Prod.fst))),
      n ∈ g2.2 → g2 = g)
    (harr : collectCoalesceArrays aligned c2t g.2 ≠ []) :
    lookupAssoc (consolidatedCoalesced nRows aligned c2t) n =
      some (coalesceCols nRows (collectCoalesceArrays aligned c2t g.2)) := by
  have hgen : ∀ (gs : List (String × List String)), g ∈ gs →
      (∀ g2 ∈ gs, n ∈ g2.2 → g2 = g) →
      lookupAssoc (gs.flatMap (fun g2 =>
        let arrays := collectCoalesceArrays aligned c2t g2.2
        if arrays.isEmpty then []
        else g2.2.map (fun full => (full, coalesceCols nRows arrays)))) n =
        some (coalesceCols nRows (collectCoalesceArrays aligned c2t g.2)) := by
    intro gs
    induction gs with
    | nil => intro h; cases h
    | cons g0 rest ih =>
      intro hmem huq
      simp only [List.flatMap_cons]
      simp only [lookupAssoc, List.find?_append]
      by_cases hng0 : n ∈ g0.2
      · have hg0g : g0 = g := huq g0 (List.mem_cons_self _ _) hng0
        subst hg0g
        rw [if_neg (by simpa [List.isEmpty_iff] using harr)]
        have hchunk := @find?_group_chunk g0.2
          (coalesceCols nRows (collectCoalesceArrays aligned c2t g0.2)) n
        rw [if_pos hng0] at hchunk
        cases hf : List.find? (fun p => p.1 == n)
            (g0.2.map (fun full =>
              (full, coalesceCols nRows (collectCoalesceArrays aligned c2t g0.2)))) with
        | none =>
          rw [hf] at hchunk
          cases hchunk
        | some p =>
          rw [hf] at hchunk
          simp only [Option.map_some', Option.some.injEq] at hchunk
          simp [hchunk]
      · have hchunkNone : List.find? (fun p => p.1 == n)
            (if (collectCoalesceArrays aligned c2t g0.2).isEmpty then []
             else g0.2.map (fun full =>
               (full, coalesceCols nRows (collectCoalesceArrays aligned c2t g0.2)))) = none := by
          by_cases he : (collectCoalesceArrays aligned c2t g0.2).isEmpty
          · rw [if_pos he]
            rfl
          · rw [if_neg he]
            have hchunk := @find?_group_chunk g0.2
              (coalesceCols nRows (collectCoalesceArrays aligned c2t g0.2)) n
            rw [if_neg hng0] at hchunk
            exact Option.map_eq_none'.mp hchunk
        rw [hchunkNone, Option.none_or]
        have hgrest : g ∈ rest := by
          rcases List.mem_cons.mp hmem with h | h
          · subst h
            exact absurd hn hng0
          · exact h
        have hrec := ih hgrest (fun g2 h2 hn2 => huq g2 (List.mem_cons_of_mem _ h2) hn2)
        simpa [lookupAssoc] using hrec
  exact hgen _ hg huniq

theorem coalesced_lookup_spec {aligned : List Table} {keyNames : List String}
    {n : String} (nRows : Nat)
    (hn : (lookupAssoc (colToTables aligned keyNames) n).isSome = true) :
    lookupAssoc (consolidatedCoalesced nRows aligned (colToTables aligned keyNames)) n =
      some (coalesceCols nRows (collectCoalesceArrays aligned (colToTables aligned keyNames)
        ((sortStrings ((colToTables aligned keyNames).map Prod.fst)).filter
          (fun m => fieldOfFullName m == fieldOfFullName n)))) ∧
    n ∈ sortStrings ((colToTables aligned keyNames).map Prod.fst) ∧
    keyNames.contains n = false := by
  cases hlook : lookupAssoc (colToTables aligned keyNames) n with
  | none =>
    rw [hlook] at hn
    cases hn
  | some vs =>
    have hentry : (n, vs) ∈ colToTables aligned keyNames := mem_of_lookupAssoc_eq hlook
    obtain ⟨hvs, hvsne⟩ := foldl_upsert_entry (fun ic : Nat × String => ic.2)
      (fun ic => ic.1) hentry
    have hnkeys : n ∈ (colToTables aligned keyNames).map Prod.fst :=
      List.mem_map.mpr ⟨(n, vs), hentry, rfl⟩
    have hnall : n ∈ sortStrings ((colToTables aligned keyNames).map Prod.fst) :=
      (sortStrings_perm _).mem_iff.mpr hnkeys
    have hkeyn : keyNames.contains n = false := by
      obtain ⟨i, hi⟩ := List.exists_mem_of_ne_nil vs hvsne
      have hiv : i ∈ (lookupAssoc (colToTables aligned keyNames) n).getD [] := by
        rw [hlook]
        simpa using hi
      exact (mem_alignColPairs.mp (mem_colToTables_value.mp hiv)).2.2
    -- the bare-field group of n
    have hgroupsSome : (lookupAssoc (fieldToFullNames
        (sortStrings ((colToTables aligned keyNames).map Prod.fst)))
        (fieldOfFullName n)).isSome = true := by
      have h := isSome_lookupAssoc_foldl_upsert (fun full => fieldOfFullName full)
        (fun full => full) (sortStrings ((colToTables aligned keyNames).map Prod.fst))
        [] (fieldOfFullName n)
      have hany : (sortStrings ((colToTables aligned keyNames).map Prod.fst)).any
          (fun full => fieldOfFullName full == fieldOfFullName n) = true :=
        List.any_eq_true.mpr ⟨n, hnall, by simp⟩
      simp only [fieldToFullNames]
      rw [h, hany]
      simp
    cases hglook : lookupAssoc (fieldToFullNames
        (sortStrings ((colToTables aligned keyNames).map Prod.fst)))
        (fieldOfFullName n) with
    | none =>
      rw [hglook] at hgroupsSome
      cases hgroupsSome
    | some fulls =>
      have hgentry : (fieldOfFullName n, fulls) ∈ fieldToFullNames
          (sortStrings ((colToTables aligned keyNames).map Prod.fst)) :=
        mem_of_lookupAssoc_eq hglook
      obtain ⟨hfulls, _⟩ := foldl_upsert_entry (fun full => fieldOfFullName full)
        (fun full => full) hgentry
      have hnfulls : n ∈ fulls := by
        rw [hfulls]
        refine List.mem_map.mpr ⟨n, List.mem_filter.mpr ⟨hnall, by simp⟩, rfl⟩
      have hgroupsNodup : ((fieldToFullNames
          (sortStrings ((colToTables aligned keyNames).map Prod.fst))).map
          Prod.fst).Nodup :=
        keysNodup_foldl_upsert (fun full => fieldOfFullName full) (fun full => full) _ []
          (by simp)
      have hgsg : (fieldOfFullName n, fulls) ∈ sortPairsByKey (fieldToFullNames
          (sortStrings ((colToTables aligned keyNames).map Prod.fst))) :=
        (sortPairsByKey_perm _).symm.subset hgentry
      have huniq : ∀ g2 ∈ sortPairsByKey (fieldToFullNames
          (sortStrings ((colToTables aligned keyNames).map Prod.fst))),
          n ∈ g2.2 → g2 = (fieldOfFullName n, fulls) := by
        intro g2 hg2 hng2
        have hg2groups : g2 ∈ fieldToFullNames
            (sortStrings ((colToTables aligned keyNames).map Prod.fst)) :=
          (sortPairsByKey_perm _).subset hg2
        obtain ⟨c2, vs2⟩ := g2
        obtain ⟨hvs2, _⟩ := foldl_upsert_entry (fun full => fieldOfFullName full)
          (fun full => full) hg2groups
        have hc2 : fieldOfFullName n = c2 := by
          rw [hvs2] at hng2
          obtain ⟨m, hm, hmeq⟩ := List.mem_map.mp hng2
          subst hmeq
          simpa using (List.mem_filter.mp hm).2
        subst hc2
        have := lookupAssoc_eq_of_mem hgroupsNodup hg2groups
        rw [hglook] at this
        simp only [Option.some.injEq] at this
        rw [this]
      have hvs2 : (lookupAssoc (colToTables aligned keyNames) n).getD [] ≠ [] := by
        rw [hlook]
        simpa using hvsne
      have harr : collectCoalesceArrays aligned (colToTables aligned keyNames) fulls ≠ [] :=
        collectCoalesceArrays_ne_empty hnfulls hvs2
      have hmain := @lookupAssoc_consolidatedCoalesced nRows aligned
        (colToTables aligned keyNames) n (fieldOfFullName n, fulls) hgsg hnfulls huniq harr
      refine ⟨?_, hnall, hkeyn⟩
      rw [hmain]
      have hfspec : fulls = (sortStrings ((colToTables aligned keyNames).map Prod.fst)).filter
          (fun m => fieldOfFullName m == fieldOfFullName n) := by
        rw [hfulls]
        simp [List.map_id]
      rw [hfspec]

theorem find?_filterMap_assoc {f : String → Option (List Cell)}
    {n : String} {v : List Cell} :
    ∀ {all : List String}, all.Nodup → n ∈ all → f n = some v →
    (List.find? (fun p => p.1 == n)
      (all.filterMap (fun m => (f m).map (fun c => (m, c))))).map Prod.snd = some v := by
  intro all
  induction all with
  | nil => intro _ h; cases h
  | cons m t ih =>
    intro hnd hmem hf
    rcases List.mem_cons.mp hmem with hm | hm
    · subst hm
      simp only [List.filterMap_cons, hf, Option.map_some']
      rw [List.find?_cons_of_pos _ (by simp)]
      simp
    · have hne : m ≠ n := by
        intro he
        subst he
        exact (List.nodup_cons.mp hnd).1 hm
      simp only [List.filterMap_cons]
      cases hfm : f m with
      | none =>
        simp only [Option.map_none']
        exact ih (List.nodup_cons.mp hnd).2 hm hf
      | some w =>
        simp only [Option.map_some']
        rw [List.find?_cons_of_neg _ (by simpa using hne)]
        exact ih (List.nodup_cons.mp hnd).2 hm hf

theorem map_fst_filterMap {f : String → Option (List Cell)} :
    ∀ {all : List String}, (∀ m ∈ all, (f m).isSome = true) →
    (all.filterMap (fun m => (f m).map (fun c => (m, c)))).map Prod.fst = all := by
  intro all
  induction all with
  | nil => intro _; rfl
  | cons m t ih =>
    intro hall
    have hm := hall m (List.mem_cons_self _ _)
    cases hfm : f m with
    | none =>
      rw [hfm] at hm
      cases hm
    | some w =>
      simp only [List.filterMap_cons, hfm, Option.map_some', List.map_cons]
      rw [ih (fun x hx => hall x (List.mem_cons_of_mem _ hx))]

theorem find?_keyCols_none {keyNames : List String} {merged : Table} {n : String}
    (hn : keyNames.contains n = false) :
    List.find? (fun p => p.1 == n)
      (keyNames.map (fun k => (k, colOf merged k))) = none := by
  rw [List.find?_eq_none]
  rintro ⟨k, col⟩ hmem
  obtain ⟨k2, hk2, heq⟩ := List.mem_map.mp hmem
  simp only [Prod.mk.injEq] at heq
  obtain ⟨h1, _⟩ := heq
  subst h1
  simp only [beq_iff_eq]
  intro he
  subst he
  have : keyNames.contains k2 = true := by simpa using hk2
  rw [this] at hn
  cases hn

/-- Claim C4 (amended): when the consolidation of at least two endpoint
tables detects no discrepancy (and the key merge succeeds), it returns a
table whose column order is the key columns first in declared order followed
by all remaining qualified column names in ascending order, and whose column
under each non-key qualified name is the first-non-null coalesce, in
ascending-qualified-name and endpoint-iteration order with duplicate arrays
dropped, of the aligned candidate arrays of ALL qualified names sharing that
name's bare field (the part after the first dot) — not merely the candidates
carrying exactly that one qualified name, as the original claim stated
(refuted by `claim_C4_counterexample`). -/
theorem claim_C4_coalesce_by_bare_field
    (e1 e2 : String × Table) (restT : List (String × Table))
    (fields : List EntityFieldRef) (desc : Bool) (merged : Table)
    (hsubne : consolidateSubsets (e1 :: e2 :: restT) (fields.map qualifiedFieldName) ≠ [])
    (hmerge : merge_primary_key_subsets_preserving_order
      (consolidateSubsets (e1 :: e2 :: restT) (fields.map qualifiedFieldName)) desc =
      .ok merged)
    (hscan : (discrepancyScan
        (consolidationAlignedTables (e1 :: e2 :: restT) (fields.map qualifiedFieldName) merged)
        (consolidationMasks (e1 :: e2 :: restT) (fields.map qualifiedFieldName) merged)
        merged.numRows
        (colToTables (consolidationAlignedTables (e1 :: e2 :: restT)
          (fields.map qualifiedFieldName) merged) (fields.map qualifiedFieldName))).1 = []) :
    ∃ out,
      consolidate_processed_endpoint_tables (e1 :: e2 :: restT) fields desc = .ok out ∧
      out.columnNames = (fields.map qualifiedFieldName) ++
        sortStrings ((colToTables (consolidationAlignedTables (e1 :: e2 :: restT)
          (fields.map qualifiedFieldName) merged)
          (fields.map qualifiedFieldName)).map Prod.fst) ∧
      ∀ n, (lookupAssoc (colToTables (consolidationAlignedTables (e1 :: e2 :: restT)
          (fields.map qualifiedFieldName) merged) (fields.map qualifiedFieldName))
          n).isSome = true →
        out.lookupCol n = some (coalesceCols merged.numRows
          (collectCoalesceArrays
            (consolidationAlignedTables (e1 :: e2 :: restT)
              (fields.map qualifiedFieldName) merged)
            (colToTables (consolidationAlignedTables (e1 :: e2 :: restT)
              (fields.map qualifiedFieldName) merged) (fields.map qualifiedFieldName))
            ((sortStrings ((colToTables (consolidationAlignedTables (e1 :: e2 :: restT)
              (fields.map qualifiedFieldName) merged)
              (fields.map qualifiedFieldName)).map Prod.fst)).filter
              (fun m => fieldOfFullName m == fieldOfFullName n)))) := by
  set tables := e1 :: e2 :: restT with htabs
  set keyNames := fields.map qualifiedFieldName with hkeys
  set aligned := consolidationAlignedTables tables keyNames merged with haligned
  have hbridge := consolidate_eq_consolidateAligned hsubne hmerge
  have hnodup : (sortStrings ((colToTables aligned keyNames).map Prod.fst)).Nodup :=
    (sortStrings_perm _).nodup_iff.mpr (colToTables_keysNodup aligned keyNames)
  have hall : ∀ m ∈ sortStrings ((colToTables aligned keyNames).map Prod.fst),
      (lookupAssoc (consolidatedCoalesced merged.numRows aligned
        (colToTables aligned keyNames)) m).isSome = true := by
    intro m hm
    have hm2 : m ∈ (colToTables aligned keyNames).map Prod.fst :=
      (sortStrings_perm _).mem_iff.mp hm
    obtain ⟨p, hp, hpe⟩ := List.mem_map.mp hm2
    obtain ⟨pm, pv⟩ := p
    have hpm : pm = m := hpe
    subst hpm
    have hlk : lookupAssoc (colToTables aligned keyNames) pm = some pv :=
      lookupAssoc_eq_of_mem (colToTables_keysNodup aligned keyNames) hp
    have hsome : (lookupAssoc (colToTables aligned keyNames) pm).isSome = true := by
      rw [hlk]
      rfl
    rw [(coalesced_lookup_spec merged.numRows hsome).1]
    rfl
  refine ⟨buildConsolidatedTable merged keyNames aligned (colToTables aligned keyNames),
    ?_, ?_, ?_⟩
  · rw [hbridge]
    simp only [consolidateAligned]
    rw [← haligned]
    rw [if_pos (by simp [hscan])]
  · simp only [buildConsolidatedTable, Table.columnNames, List.map_append]
    congr 1
    · have hcomp : (Prod.fst ∘ fun n : String => (n, colOf merged n)) =
          fun n : String => n := rfl
      rw [List.map_map, hcomp]
      exact List.map_id' keyNames
    · exact map_fst_filterMap hall
  · intro n hn
    obtain ⟨hlookC, hmemn, hkeyn⟩ := coalesced_lookup_spec merged.numRows hn
    simp only [buildConsolidatedTable, Table.lookupCol]
    rw [List.find?_append, find?_keyCols_none hkeyn, Option.none_or]
    exact find?_filterMap_assoc hnodup hmemn hlookC

/-- Witness for the amended claim C4: on the cross-entity scenario the
hypotheses hold concretely and the theorem yields the consolidated table
with bare-field-grouped coalescing. -/
theorem claim_C4_witness :
    (consolidateSubsets (cxE1 :: cxE2 :: []) (cxFields.map qualifiedFieldName) ≠ [] ∧
     merge_primary_key_subsets_preserving_order
       (consolidateSubsets (cxE1 :: cxE2 :: []) (cxFields.map qualifiedFieldName)) false =
       .ok cxMerged ∧
     (discrepancyScan
        (consolidationAlignedTables (cxE1 :: cxE2 :: []) (cxFields.map qualifiedFieldName)
          cxMerged)
        (consolidationMasks (cxE1 :: cxE2 :: []) (cxFields.map qualifiedFieldName) cxMerged)
        cxMerged.numRows
        (colToTables (consolidationAlignedTables (cxE1 :: cxE2 :: [])
          (cxFields.map qualifiedFieldName) cxMerged)
          (cxFields.map qualifiedFieldName))).1 = []) ∧
    (∃ out,
      consolidate_processed_endpoint_tables (cxE1 :: cxE2 :: []) cxFields false = .ok out ∧
      out.columnNames = (cxFields.map qualifiedFieldName) ++
        sortStrings ((colToTables (consolidationAlignedTables (cxE1 :: cxE2 :: [])
          (cxFields.map qualifiedFieldName) cxMerged)
          (cxFields.map qualifiedFieldName)).map Prod.fst) ∧
      ∀ n, (lookupAssoc (colToTables (consolidationAlignedTables (cxE1 :: cxE2 :: [])
          (cxFields.map qualifiedFieldName) cxMerged) (cxFields.map qualifiedFieldName))
          n).isSome = true →
        out.lookupCol n = some (coalesceCols cxMerged.numRows
          (collectCoalesceArrays
            (consolidationAlignedTables (cxE1 :: cxE2 :: [])
              (cxFields.map qualifiedFieldName) cxMerged)
            (colToTables (consolidationAlignedTables (cxE1 :: cxE2 :: [])
              (cxFields.map qualifiedFieldName) cxMerged) (cxFields.map qualifiedFieldName))
            ((sortStrings ((colToTables (consolidationAlignedTables (cxE1 :: cxE2 :: [])
              (cxFields.map qualifiedFieldName) cxMerged)
              (cxFields.map qualifiedFieldName)).map Prod.fst)).filter
              (fun m => fieldOfFullName m == fieldOfFullName n))))) :=
  ⟨⟨by decide, by decide, by decide⟩,
   claim_C4_coalesce_by_bare_field cxE1 cxE2 [] cxFields false cxMerged
     (by decide) (by decide) (by decide)⟩

/-! Proof layer for the row-clearing functions. -/

theorem contains_fst_eq_isSome {α : Type} (n : String) :
    ∀ (cols : List (String × α)),
    ((cols.find? (fun c => c.1 == n)).map Prod.snd).isSome =
      (cols.map Prod.fst).contains n := by
  intro cols
  induction cols with
  | nil => rfl
  | cons c rest ih =>
    by_cases h : c.1 = n
    · rw [List.find?_cons_of_pos _ (by simpa using h)]
      simp only [Option.map_some', Option.isSome_some, List.map_cons, List.contains_cons]
      have heq : (n == c.1) = true := beq_iff_eq.mpr h.symm
      rw [heq]
      simp
    · rw [List.find?_cons_of_neg _ (by simpa using h)]
      simp only [List.map_cons, List.contains_cons]
      rw [ih]
      have hne : (n == c.1) = false := beq_eq_false_iff_ne.mpr (fun he => h he.symm)
      rw [hne]
      simp

theorem lookupCol_isSome_eq_contains {t : Table} {n : String} :
    (Table.lookupCol t n).isSome = t.columnNames.contains n := by
  simp only [Table.lookupCol, Table.columnNames]
  exact contains_fst_eq_isSome n t.cols

theorem selectCols_columnNames {t : Table} {names : List String}
    (h : names.find? (fun col => !(t.columnNames.contains col)) = none) :
    (t.selectCols names).columnNames = names := by
  have hall : ∀ m ∈ names, (Table.lookupCol t m).isSome = true := by
    intro m hm
    have h2 := List.find?_eq_none.mp h m hm
    have hc : t.columnNames.contains m = true := by
      cases hb : t.columnNames.contains m with
      | false =>
        refine absurd ?_ h2
        rw [hb]
        rfl
      | true => rfl
    rw [lookupCol_isSome_eq_contains]
    exact hc
  exact map_fst_filterMap hall

theorem clearRowMask_length {table keys : Table} :
    (clearRowMask table keys).length = table.numRows := by
  simp [clearRowMask]

theorem clearRowMask_getD {table keys : Table} {j : Nat} (hj : j < table.numRows) :
    (clearRowMask table keys).getD j false =
      (List.range keys.numRows).any (fun i =>
        rowKey table keys.columnNames j == rowKey keys keys.columnNames i) := by
  simp only [clearRowMask]
  rw [List.getD_eq_getElem _ _ (by simpa using hj)]
  simp

theorem clearMap_columnNames {cols : List (String × List Cell)} {mask : List Bool}
    {preserved : List String} :
    (cols.map (fun c => if preserved.contains c.1 then c
      else (c.1, (c.2.zip mask).map (fun p => if p.2 then none else p.1)))).map Prod.fst =
      cols.map Prod.fst := by
  induction cols with
  | nil => rfl
  | cons c rest ih =>
    simp only [List.map_cons]
    by_cases h : preserved.contains c.1
    · rw [if_pos h, ih]
    · rw [if_neg h, ih]

theorem clearMap_numRows {table : Table} {mask : List Bool} {preserved : List String}
    (hmask : mask.length = table.numRows) :
    Table.numRows ⟨table.cols.map (fun c => if preserved.contains c.1 then c
      else (c.1, (c.2.zip mask).map (fun p => if p.2 then none else p.1)))⟩ =
      table.numRows := by
  cases htc : table.cols with
  | nil => simp [Table.numRows, htc]
  | cons c rest =>
    have hnum : table.numRows = c.2.length := by simp [Table.numRows, htc]
    simp only [Table.numRows, htc, List.map_cons]
    by_cases h : preserved.contains c.1
    · rw [if_pos h]
    · rw [if_neg h]
      simp only [List.length_map, List.length_zip, hmask]
      omega

theorem clearMap_lookupCol_preserved {cols : List (String × List Cell)} {mask : List Bool}
    {preserved : List String} {name : String} (h : preserved.contains name = true) :
    (List.find? (fun c => c.1 == name) (cols.map (fun c =>
      if preserved.contains c.1 then c
      else (c.1, (c.2.zip mask).map (fun p => if p.2 then none else p.1))))).map Prod.snd =
    (List.find? (fun c => c.1 == name) cols).map Prod.snd := by
  induction cols with
  | nil => rfl
  | cons c rest ih =>
    simp only [List.map_cons]
    by_cases hp : preserved.contains c.1
    · rw [if_pos hp]
      by_cases hc : c.1 = name
      · rw [List.find?_cons_of_pos _ (by simpa using hc),
            List.find?_cons_of_pos _ (by simpa using hc)]
      · rw [List.find?_cons_of_neg _ (by simpa using hc),
            List.find?_cons_of_neg _ (by simpa using hc)]
        exact ih
    · rw [if_neg hp]
      by_cases hc : c.1 = name
      · exfalso
        rw [hc] at hp
        exact hp h
      · rw [List.find?_cons_of_neg _ (by simpa using hc),
            List.find?_cons_of_neg _ (by simpa using hc)]
        exact ih

theorem clearMap_lookupCol_not_preserved {cols : List (String × List Cell)}
    {mask : List Bool} {preserved : List String} {name : String}
    (h : preserved.contains name = false) :
    (List.find? (fun c => c.1 == name) (cols.map (fun c =>
      if preserved.contains c.1 then c
      else (c.1, (c.2.zip mask).map (fun p => if p.2 then none else p.1))))).map Prod.snd =
    ((List.find? (fun c => c.1 == name) cols).map Prod.snd).map
      (fun v => (v.zip mask).map (fun p => if p.2 then none else p.1)) := by
  induction cols with
  | nil => rfl
  | cons c rest ih =>
    simp only [List.map_cons]
    by_cases hc : c.1 = name
    · have hp : preserved.contains c.1 = false := by
        rw [hc]
        exact h
      rw [if_neg (by
        rw [hp]
        exact Bool.false_ne_true)]
      rw [List.find?_cons_of_pos _ (by simpa using hc),
          List.find?_cons_of_pos _ (by simpa using hc)]
      rfl
    · by_cases hp : preserved.contains c.1
      · rw [if_pos hp]
        rw [List.find?_cons_of_neg _ (by simpa using hc),
            List.find?_cons_of_neg _ (by simpa using hc)]
        exact ih
      · rw [if_neg hp]
        rw [List.find?_cons_of_neg _ (by simpa using hc),
            List.find?_cons_of_neg _ (by simpa using hc)]
        exact ih

theorem zipMask_getD_true {v : List Cell} {mask : List Bool} {j : Nat}
    (hm : mask.getD j false = true) :
    ((v.zip mask).map (fun p => if p.2 then none else p.1)).getD j none = none := by
  by_cases hv : j < v.length
  · have hjm : j < mask.length := getD_true_lt_length hm
    have hz : j < (v.zip mask).length := by
      rw [List.length_zip]
      omega
    rw [List.getD_eq_getElem _ _ (by simpa using hz)]
    simp only [List.getElem_map, List.getElem_zip]
    rw [List.getD_eq_getElem _ _ hjm] at hm
    simp [hm]
  · rw [List.getD_eq_default _ _ (by
      rw [List.length_map, List.length_zip]
      omega)]

theorem zipMask_getD_false {v : List Cell} {mask : List Bool} {j : Nat}
    (hj : j < mask.length) (hm : mask.getD j false = false) :
    ((v.zip mask).map (fun p => if p.2 then none else p.1)).getD j none =
      v.getD j none := by
  by_cases hv : j < v.length
  · have hz : j < (v.zip mask).length := by
      rw [List.length_zip]
      omega
    rw [List.getD_eq_getElem _ _ (by simpa using hz), List.getD_eq_getElem _ _ hv]
    simp only [List.getElem_map, List.getElem_zip]
    rw [List.getD_eq_getElem _ _ hj] at hm
    simp [hm]
  · rw [List.getD_eq_default _ _ (by
      rw [List.length_map, List.length_zip]
      omega),
      List.getD_eq_default _ _ (by omega)]

theorem clear_table_rows_spec {table keys : Table} {preserved : List String}
    (hval : ((keys.columnNames ++ preserved).find?
      (fun col => !(table.columnNames.contains col))) = none) :
    ∃ u, clear_table_rows_by_primary_key table keys preserved = .ok u ∧
      u.columnNames = table.columnNames ∧
      u.numRows = table.numRows ∧
      (∀ name, preserved.contains name = true →
        u.lookupCol name = table.lookupCol name) ∧
      (∀ name j, preserved.contains name = false → j < table.numRows →
        (((List.range keys.numRows).any (fun i =>
            rowKey table keys.columnNames j == rowKey keys keys.columnNames i)) = true →
          Table.cellAt u name j = none) ∧
        (((List.range keys.numRows).any (fun i =>
            rowKey table keys.columnNames j == rowKey keys keys.columnNames i)) = false →
          Table.cellAt u name j = Table.cellAt table name j)) ∧
      (table.numRows = 0 ∨ keys.numRows = 0 → u = table) := by
  have hred : clear_table_rows_by_primary_key table keys preserved =
      (if table.numRows == 0 || keys.numRows == 0 then Except.ok table
       else
         if (clearRowMask table keys).any id then
           Except.ok ⟨table.cols.map (fun c =>
             if preserved.contains c.1 then c
             else (c.1, (c.2.zip (clearRowMask table keys)).map
               (fun p => if p.2 then none else p.1)))⟩
         else Except.ok table) := by
    simp only [clear_table_rows_by_primary_key]
    rw [hval]
  rw [hred]
  by_cases hzero : table.numRows == 0 || keys.numRows == 0
  · rw [if_pos hzero]
    refine ⟨table, rfl, rfl, rfl, fun name h => rfl, ?_, fun h => rfl⟩
    intro name j hp hj
    refine ⟨?_, fun h => rfl⟩
    intro hany
    rcases (by simpa using hzero : table.numRows = 0 ∨ keys.numRows = 0) with h0 | h0
    · omega
    · rw [h0] at hany
      simp at hany
  · rw [if_neg hzero]
    have hmaskLen : (clearRowMask table keys).length = table.numRows := clearRowMask_length
    by_cases hany : (clearRowMask table keys).any id
    · rw [if_pos hany]
      refine ⟨_, rfl, ?_, clearMap_numRows hmaskLen, ?_, ?_, ?_⟩
      · simp only [Table.columnNames]
        exact clearMap_columnNames
      · intro name h
        simp only [Table.lookupCol]
        exact clearMap_lookupCol_preserved h
      · intro name j hp hj
        have hmaskj := @clearRowMask_getD table keys j hj
        have hcell : Table.cellAt
            ⟨table.cols.map (fun c => if preserved.contains c.1 then c
              else (c.1, (c.2.zip (clearRowMask table keys)).map
                (fun p => if p.2 then none else p.1)))⟩ name j =
            ((((List.find? (fun c => c.1 == name) table.cols).map Prod.snd).map
              (fun v => (v.zip (clearRowMask table keys)).map
                (fun p => if p.2 then none else p.1))).getD []).getD j none := by
          simp only [Table.cellAt, Table.lookupCol]
          rw [clearMap_lookupCol_not_preserved hp]
        constructor
        · intro htrue
          rw [hcell]
          cases hf : (List.find? (fun c => c.1 == name) table.cols).map Prod.snd with
          | none => rfl
          | some v =>
            simp only [Option.map_some', Option.getD_some]
            exact zipMask_getD_true (by rw [hmaskj]; exact htrue)
        · intro hfalse
          rw [hcell]
          simp only [Table.cellAt, Table.lookupCol]
          cases hf : (List.find? (fun c => c.1 == name) table.cols).map Prod.snd with
          | none => rfl
          | some v =>
            simp only [Option.map_some', Option.getD_some]
            exact zipMask_getD_false (by omega) (by rw [hmaskj]; exact hfalse)
      · intro h
        exfalso
        rcases h with h0 | h0 <;> simp [h0] at hzero
    · rw [if_neg hany]
      refine ⟨table, rfl, rfl, rfl, fun name h => rfl, ?_, fun h => rfl⟩
      intro name j hp hj
      refine ⟨?_, fun h => rfl⟩
      intro htrue
      exfalso
      have hmj : (clearRowMask table keys).getD j false = true := by
        rw [clearRowMask_getD hj]
        exact htrue
      have hjlt : j < (clearRowMask table keys).length := by omega
      rw [List.getD_eq_getElem _ _ hjlt] at hmj
      exact hany (List.any_eq_true.mpr ⟨(clearRowMask table keys)[j],
        List.mem_iff_getElem.mpr ⟨j, hjlt, rfl⟩, hmj⟩)

theorem clearEndpointLoop_spec {keys : Table} {preserved : List String} :
    ∀ {tablesL : List (String × Table)},
    (∀ et ∈ tablesL, ((keys.columnNames ++ preserved).find?
      (fun col => !(et.2.columnNames.contains col))) = none) →
    ∃ outs, clearEndpointLoop tablesL keys preserved = .ok outs ∧
      outs.length = tablesL.length ∧
      ∀ k, k < tablesL.length →
        (outs.getD k epDefault).1 = (tablesL.getD k epDefault).1 ∧
        clear_table_rows_by_primary_key (tablesL.getD k epDefault).2 keys preserved =
          .ok (outs.getD k epDefault).2 := by
  intro tablesL
  induction tablesL with
  | nil =>
    intro _
    exact ⟨[], rfl, rfl, fun k hk => absurd hk (by simp)⟩
  | cons et rest ih =>
    intro h
    obtain ⟨u, hu, _⟩ := clear_table_rows_spec (h et (List.mem_cons_self _ _))
    obtain ⟨outs, houts, hlen, hk⟩ := ih (fun e he => h e (List.mem_cons_of_mem _ he))
    refine ⟨(et.1, u) :: outs, ?_, by simp [hlen], ?_⟩
    · simp only [clearEndpointLoop]
      rw [hu, houts]
    · intro k hkk
      cases k with
      | zero => exact ⟨rfl, hu⟩
      | succ k2 =>
        simp only [List.getD_cons_succ]
        exact hk k2 (by simpa using hkk)

/-- Claim C5 (amended): provided every key column exists in the discrepancy
table and every key and preserved column exists in every endpoint table, the
clearing succeeds; every returned endpoint table keeps its endpoint name,
column names, row count and row order; the designated preserved columns are
unchanged; every NON-PRESERVED column — including a key column that is not
listed as preserved, contrary to the original claim (refuted by
`claim_C5_counterexample`) — is unchanged on rows whose key tuple does not
occur in the discrepancy key table and null on rows whose key tuple does
occur; and an endpoint table with zero rows, or a discrepancy key table with
zero rows, leaves the endpoint table unchanged. -/
theorem claim_C5_clear_rows
    (disc : Table) (tablesL : List (String × Table)) (keyNames preserved : List String)
    (hdisc : (keyNames.find? (fun col => !(disc.columnNames.contains col))) = none)
    (hval : ∀ et ∈ tablesL,
      (((disc.selectCols keyNames).columnNames ++ preserved).find?
        (fun col => !(et.2.columnNames.contains col))) = none) :
    (disc.selectCols keyNames).columnNames = keyNames ∧
    ∃ outs,
      clear_discrepant_processed_endpoint_tables_rows disc tablesL keyNames preserved =
        .ok outs ∧
      outs.length = tablesL.length ∧
      ∀ k, k < tablesL.length →
        (outs.getD k epDefault).1 = (tablesL.getD k epDefault).1 ∧
        (outs.getD k epDefault).2.columnNames =
          (tablesL.getD k epDefault).2.columnNames ∧
        (outs.getD k epDefault).2.numRows = (tablesL.getD k epDefault).2.numRows ∧
        (∀ name, preserved.contains name = true →
          (outs.getD k epDefault).2.lookupCol name =
            (tablesL.getD k epDefault).2.lookupCol name) ∧
        (∀ name j, preserved.contains name = false →
          j < (tablesL.getD k epDefault).2.numRows →
          (((List.range (disc.selectCols keyNames).numRows).any (fun i =>
              rowKey (tablesL.getD k epDefault).2 (disc.selectCols keyNames).columnNames j ==
                rowKey (disc.selectCols keyNames) (disc.selectCols keyNames).columnNames i)) =
              true →
            Table.cellAt (outs.getD k epDefault).2 name j = none) ∧
          (((List.range (disc.selectCols keyNames).numRows).any (fun i =>
              rowKey (tablesL.getD k epDefault).2 (disc.selectCols keyNames).columnNames j ==
                rowKey (disc.selectCols keyNames) (disc.selectCols keyNames).columnNames i)) =
              false →
            Table.cellAt (outs.getD k epDefault).2 name j =
              Table.cellAt (tablesL.getD k epDefault).2 name j)) ∧
        ((tablesL.getD k epDefault).2.numRows = 0 ∨
            (disc.selectCols keyNames).numRows = 0 →
          (outs.getD k epDefault).2 = (tablesL.getD k epDefault).2) := by
  have hpub : clear_discrepant_processed_endpoint_tables_rows disc tablesL keyNames
      preserved = clearEndpointLoop tablesL (disc.selectCols keyNames) preserved := by
    unfold clear_discrepant_processed_endpoint_tables_rows
    rw [hdisc]
  refine ⟨selectCols_columnNames hdisc, ?_⟩
  obtain ⟨outs, houts, hlen, hk⟩ := clearEndpointLoop_spec hval
  refine ⟨outs, by rw [hpub]; exact houts, hlen, ?_⟩
  intro k hkk
  obtain ⟨hname, hok⟩ := hk k hkk
  have hmem : tablesL.getD k epDefault ∈ tablesL := by
    rw [List.getD_eq_getElem _ _ hkk]
    exact List.mem_iff_getElem.mpr ⟨k, hkk, rfl⟩
  obtain ⟨u, hu, hcols, hrows, hpres, hcell, hnoop⟩ := clear_table_rows_spec (hval _ hmem)
  rw [hu] at hok
  have huo : u = (outs.getD k epDefault).2 := by
    exact Except.ok.inj hok
  rw [← huo]
  exact ⟨hname, hcols, hrows, hpres, hcell, hnoop⟩

/-- Counterexample to claim C5 as stated: with no preserved columns, the key
column itself is nulled on the matching row — "values in the key columns ...
are unchanged in every row" fails. -/
theorem claim_C5_counterexample :
    ((clear_discrepant_processed_endpoint_tables_rows clrDisc [(("ep1"), clrEp)]
        [("K.d")] []).toOption.bind (fun ts =>
          (lookupAssoc ts ("ep1")).bind (fun t => t.lookupCol ("K.d")))) =
      some [none, some 2] ∧
    clrEp.lookupCol ("K.d") = some [some 1, some 2] ∧
    (some [none, some 2] : Option (List Cell)) ≠ some [some 1, some 2] :=
  ⟨by decide, by decide, by decide⟩

/-- Witness for the amended claim C5 on the row-clearing scenario. -/
theorem claim_C5_witness :
    (([("K.d")].find? (fun col => !(clrDisc.columnNames.contains col)) = none) ∧
     (∀ et ∈ [(("ep1"), clrEp)],
       (((clrDisc.selectCols [("K.d")]).columnNames ++ ([] : List String)).find?
         (fun col => !((et.2.columnNames.contains col)))) = none)) ∧
    ((clrDisc.selectCols [("K.d")]).columnNames = [("K.d")] ∧
     ∃ outs,
      clear_discrepant_processed_endpoint_tables_rows clrDisc [(("ep1"), clrEp)]
          [("K.d")] [] = .ok outs ∧
      outs.length = [(("ep1"), clrEp)].length ∧
      ∀ k, k < [(("ep1"), clrEp)].length →
        (outs.getD k epDefault).1 = ([(("ep1"), clrEp)].getD k epDefault).1 ∧
        (outs.getD k epDefault).2.columnNames =
          ([(("ep1"), clrEp)].getD k epDefault).2.columnNames ∧
        (outs.getD k epDefault).2.numRows =
          ([(("ep1"), clrEp)].getD k epDefault).2.numRows ∧
        (∀ name, ([] : List String).contains name = true →
          (outs.getD k epDefault).2.lookupCol name =
            ([(("ep1"), clrEp)].getD k epDefault).2.lookupCol name) ∧
        (∀ name j, ([] : List String).contains name = false →
          j < ([(("ep1"), clrEp)].getD k epDefault).2.numRows →
          (((List.range (clrDisc.selectCols [("K.d")]).numRows).any (fun i =>
              rowKey ([(("ep1"), clrEp)].getD k epDefault).2
                  (clrDisc.selectCols [("K.d")]).columnNames j ==
                rowKey (clrDisc.selectCols [("K.d")])
                  (clrDisc.selectCols [("K.d")]).columnNames i)) = true →
            Table.cellAt (outs.getD k epDefault).2 name j = none) ∧
          (((List.range (clrDisc.selectCols [("K.d")]).numRows).any (fun i =>
              rowKey ([(("ep1"), clrEp)].getD k epDefault).2
                  (clrDisc.selectCols [("K.d")]).columnNames j ==
                rowKey (clrDisc.selectCols [("K.d")])
                  (clrDisc.selectCols [("K.d")]).columnNames i)) = false →
            Table.cellAt (outs.getD k epDefault).2 name j =
              Table.cellAt ([(("ep1"), clrEp)].getD k epDefault).2 name j)) ∧
        (([(("ep1"), clrEp)].getD k epDefault).2.numRows = 0 ∨
            (clrDisc.selectCols [("K.d")]).numRows = 0 →
          (outs.getD k epDefault).2 = ([(("ep1"), clrEp)].getD k epDefault).2)) :=
  ⟨⟨by decide, by decide⟩,
   claim_C5_clear_rows clrDisc [(("ep1"), clrEp)] [("K.d")] [] (by decide) (by decide)⟩

end DataProviderToolkit

namespace BaseDataBlock

/-- Claim C6: `convert_value_to_type` returns `None` for a nullable union
target on `None` or the empty string and otherwise converts to the unwrapped
type; passes through a value whose runtime type already equals the target;
dispatches by target type name — `date` from a datetime (truncated) or an
ISO string, `Decimal` from the value's string representation, `int`, `float`
and `str`; raises the not-implemented error for any other target name; and
wraps every conversion failure (`InvalidOperation`/`TypeError`/`ValueError`)
into the runtime conversion error carrying the target type name and the
original value. -/
theorem claim_C6_convert_value_to_type :
    (∀ t v, (v = PyVal.pnone ∨ v = PyVal.pstr ("")) →
      convert_value_to_type v (.union t .noneType) = .ok .pnone) ∧
    (∀ t v, v ≠ PyVal.pnone → v ≠ PyVal.pstr ("") →
      convert_value_to_type v (.union t .noneType) =
        convert_value_to_type v (.simple t)) ∧
    (∀ t v, typeOf v = t → convert_value_to_type v (.simple t) = .ok v) ∧
    (∀ dt, convert_value_to_type (.pdatetime dt) (.simple .date) =
      .ok (.pdate (PyDateTime.toDate dt))) ∧
    (∀ s, convert_value_to_type (.pstr s) (.simple .date) =
      (match parseIsoDate s.data with
       | some d => .ok (.pdate d)
       | none => .error (.runtime (("date")) (.pstr s)))) ∧
    (∀ v, typeOf v ≠ .date → typeOf v ≠ .datetime → typeOf v ≠ .str →
      convert_value_to_type v (.simple .date) = .error (.runtime (("date")) v)) ∧
    (∀ v, typeOf v ≠ .decimal →
      convert_value_to_type v (.simple .decimal) =
      (match parseScaled ((pyStr v).data) with
       | some p => .ok (.pdec p.1 p.2)
       | none => .error (.runtime (("Decimal")) v))) ∧
    (∀ s, convert_value_to_type (.pstr s) (.simple .int) =
      (match parseInt s.data with
       | some n => .ok (.pint n)
       | none => .error (.runtime (("int")) (.pstr s)))) ∧
    (∀ m e, convert_value_to_type (.pfloat m e) (.simple .int) =
      .ok (.pint (Int.tdiv m ((10 : Int) ^ e)))) ∧
    (∀ m e, convert_value_to_type (.pdec m e) (.simple .int) =
      .ok (.pint (Int.tdiv m ((10 : Int) ^ e)))) ∧
    (∀ v, typeOf v = .noneType ∨ typeOf v = .date ∨ typeOf v = .datetime →
      convert_value_to_type v (.simple .int) = .error (.runtime (("int")) v)) ∧
    (∀ s, convert_value_to_type (.pstr s) (.simple .float) =
      (match parseScaled s.data with
       | some p => .ok (.pfloat p.1 p.2)
       | none => .error (.runtime (("float")) (.pstr s)))) ∧
    (∀ n, convert_value_to_type (.pint n) (.simple .float) = .ok (.pfloat n 0)) ∧
    (∀ m e, convert_value_to_type (.pdec m e) (.simple .float) = .ok (.pfloat m e)) ∧
    (∀ v, typeOf v = .noneType ∨ typeOf v = .date ∨ typeOf v = .datetime →
      convert_value_to_type v (.simple .float) = .error (.runtime (("float")) v)) ∧
    (∀ v, typeOf v ≠ .str →
      convert_value_to_type v (.simple .str) = .ok (.pstr (pyStr v))) ∧
    (∀ t v, PyTy.name t ∉ [("date"), ("Decimal"), ("int"), ("float"), ("str")] →
      typeOf v ≠ t →
      convert_value_to_type v (.simple t) = .error (.notImplemented (PyTy.name t) v)) := by
  refine ⟨?_, ?_, ?_, fun dt => rfl, fun s => rfl, ?_, ?_, fun s => rfl,
    fun m e => rfl, fun m e => rfl, ?_, fun s => rfl, fun n => rfl, fun m e => rfl,
    ?_, ?_, ?_⟩
  · intro t v h
    simp only [convert_value_to_type]
    rw [if_pos trivial, if_pos h]
  · intro t v h1 h2
    simp only [convert_value_to_type]
    rw [if_pos trivial, if_neg (by
      rintro (h | h)
      · exact h1 h
      · exact h2 h)]
  · intro t v h
    simp only [convert_value_to_type, convertCore]
    rw [if_pos h]
  · intro v h1 h2 h3
    cases v with
    | pnone => rfl
    | pstr s => exact absurd rfl h3
    | pint n => rfl
    | pfloat m e => rfl
    | pdec m e => rfl
    | pdate d => exact absurd rfl h1
    | pdatetime dt => exact absurd rfl h2
  · intro v h
    cases v with
    | pnone => rfl
    | pstr s => rfl
    | pint n => rfl
    | pfloat m e => rfl
    | pdec m e => exact absurd rfl h
    | pdate d => rfl
    | pdatetime dt => rfl
  · intro v h
    cases v with
    | pnone => rfl
    | pstr s =>
      rcases h with h | h | h <;> cases h
    | pint n =>
      rcases h with h | h | h <;> cases h
    | pfloat m e =>
      rcases h with h | h | h <;> cases h
    | pdec m e =>
      rcases h with h | h | h <;> cases h
    | pdate d => rfl
    | pdatetime dt => rfl
  · intro v h
    cases v with
    | pnone => rfl
    | pstr s =>
      rcases h with h | h | h <;> cases h
    | pint n =>
      rcases h with h | h | h <;> cases h
    | pfloat m e =>
      rcases h with h | h | h <;> cases h
    | pdec m e =>
      rcases h with h | h | h <;> cases h
    | pdate d => rfl
    | pdatetime dt => rfl
  · intro v h
    cases v with
    | pnone => rfl
    | pstr s => exact absurd rfl h
    | pint n => rfl
    | pfloat m e => rfl
    | pdec m e => rfl
    | pdate d => rfl
    | pdatetime dt => rfl
  · intro t v hnot hty
    have hd : ¬ PyTy.name t = ("date") := fun h => hnot (by
      rw [h]
      decide)
    have hdec : ¬ PyTy.name t = ("Decimal") := fun h => hnot (by
      rw [h]
      decide)
    have hint : ¬ PyTy.name t = ("int") := fun h => hnot (by
      rw [h]
      decide)
    have hfl : ¬ PyTy.name t = ("float") := fun h => hnot (by
      rw [h]
      decide)
    have hstr : ¬ PyTy.name t = ("str") := fun h => hnot (by
      rw [h]
      decide)
    simp only [convert_value_to_type, convertCore]
    rw [if_neg hty, if_neg hd, if_neg hdec, if_neg hint, if_neg hfl, if_neg hstr]

/-- Witness for claim C6: concrete conversions through each branch. -/
theorem claim_C6_witness :
    ((PyVal.pnone = PyVal.pnone ∨ PyVal.pnone = PyVal.pstr ("")) ∧
     convert_value_to_type .pnone (.union .int .noneType) = .ok .pnone) ∧
    (typeOf (.pint 5) = .int ∧
     convert_value_to_type (.pint 5) (.simple .int) = .ok (.pint 5)) ∧
    convert_value_to_type (.pstr ("2024-02-29")) (.simple .date) =
      .ok (.pdate ⟨2024, 2, 29⟩) ∧
    (typeOf (.pfloat 25 1) ≠ .decimal ∧
     convert_value_to_type (.pfloat 25 1) (.simple .decimal) = .ok (.pdec 25 1)) ∧
    (PyTy.name .datetime ∉ [("date"), ("Decimal"), ("int"), ("float"), ("str")] ∧
     typeOf (.pint 3) ≠ .datetime ∧
     convert_value_to_type (.pint 3) (.simple .datetime) =
       .error (.notImplemented (("datetime")) (.pint 3))) :=
  ⟨⟨Or.inl rfl, claim_C6_convert_value_to_type.1 .int .pnone (Or.inl rfl)⟩,
   ⟨rfl, claim_C6_convert_value_to_type.2.2.1 .int (.pint 5) rfl⟩,
   by
     rw [claim_C6_convert_value_to_type.2.2.2.2.1 ("2024-02-29")]
     decide,
   ⟨by decide, by
     rw [claim_C6_convert_value_to_type.2.2.2.2.2.2.1 (.pfloat 25 1) (by decide)]
     decide⟩,
   ⟨by decide, by decide, by
     rw [claim_C6_convert_value_to_type.2.2.2.2.2.2.2.2.2.2.2.2.2.2.2.2
       .datetime (.pint 3) (by decide) (by decide)]
     decide⟩⟩

/-- Counterexample to claim C9 as stated: `remaining_entities` is a Python
`set`, so the ready entities of a round are appended in hash-dependent set
iteration order, not in first-discovery order (the source comment asserting
otherwise notwithstanding).  With the set order `[B, A, M]` the second
round-tied pair `A`, `B` is emitted as `[B, A]`, differing from the
first-discovery order `[A, B]`. -/
theorem claim_C9_counterexample :
    firstDiscoveryOrderMap ("M") c9classes = [("A"), ("B"), ("M")] ∧
    calculate_ordered_entity_relation_map ("M") c9classes
      (fun _ => [("B"), ("A"), ("M")]) = [("B"), ("A"), ("M")] ∧
    ([("B"), ("A"), ("M")] : List String) ≠ [("A"), ("B"), ("M")] :=
  ⟨by decide, by decide, by decide⟩

theorem getD_mem_take {l : List String} {j i : Nat} (hji : j < i) (hjl : j < l.length) :
    l.getD j ("") ∈ l.take i := by
  induction l generalizing j i with
  | nil => simp at hjl
  | cons a t ih =>
    cases i with
    | zero => omega
    | succ i2 =>
      cases j with
      | zero => simp
      | succ j2 =>
        simp only [List.take_succ_cons, List.getD_cons_succ]
        exact List.mem_cons_of_mem _ (ih (by omega) (by simpa using hjl))

theorem mem_take_elim {l : List String} {b : String} {i : Nat}
    (hb : b ∈ l.take i) : ∃ j, j < i ∧ j < l.length ∧ l.getD j ("") = b := by
  induction l generalizing i with
  | nil => simp at hb
  | cons a t ih =>
    cases i with
    | zero => simp at hb
    | succ i2 =>
      simp only [List.take_succ_cons] at hb
      rcases List.mem_cons.mp hb with h | h
      · exact ⟨0, by omega, by simp, by simp [h.symm]⟩
      · obtain ⟨j, h1, h2, h3⟩ := ih h
        exact ⟨j + 1, by omega, by simpa using h2, by simpa using h3⟩

theorem DepPrefix_append {deps : List (String × List (String × String))}
    {r add : List String}
    (hr : DepPrefix deps r)
    (hadd : ∀ e ∈ add, isReadyB deps r e = true) :
    DepPrefix deps (r ++ add) := by
  intro i hi fd hfd
  rw [List.take_append_eq_append_take]
  by_cases hlt : i < r.length
  · have hget : (r ++ add).getD i ("") = r.getD i ("") := by
      rw [List.getD_eq_getElem _ _ hi, List.getD_eq_getElem _ _ hlt]
      exact List.getElem_append_left hlt
    rw [hget] at hfd
    exact List.mem_append_left _ (hr i hlt fd hfd)
  · have hge : r.length ≤ i := Nat.le_of_not_lt hlt
    have hk : i - r.length < add.length := by
      rw [List.length_append] at hi
      omega
    have hget : (r ++ add).getD i ("") = add.getD (i - r.length) ("") := by
      rw [List.getD_eq_getElem _ _ hi, List.getD_eq_getElem _ _ hk]
      exact List.getElem_append_right hge
    rw [hget] at hfd
    have hmemadd : add.getD (i - r.length) ("") ∈ add := by
      rw [List.getD_eq_getElem _ _ hk]
      exact List.mem_iff_getElem.mpr ⟨_, hk, rfl⟩
    have hready := hadd _ hmemadd
    have hcont : r.contains fd.2 = true := by
      simpa using List.all_eq_true.mp hready fd hfd
    have hfr : fd.2 ∈ r := by simpa using hcont
    rw [List.take_of_length_le hge]
    exact List.mem_append_left _ hfr

theorem topoLoop_invariant {deps : List (String × List (String × String))}
    {ord : Nat → List String} (hord : ∀ r, (ord r).Nodup) :
    ∀ fuel round result remaining,
    DepPrefix deps result →
    result.Nodup →
    (∀ e ∈ remaining, e ∉ result) →
    (∀ e ∈ result, e ∈ deps.map Prod.fst) →
    (∀ e ∈ remaining, e ∈ deps.map Prod.fst) →
    DepPrefix deps (topoLoop deps ord fuel round result remaining) ∧
    (topoLoop deps ord fuel round result remaining).Nodup ∧
    (∀ e ∈ topoLoop deps ord fuel round result remaining, e ∈ deps.map Prod.fst) := by
  intro fuel
  induction fuel with
  | zero =>
    intro round result remaining h1 h2 h3 h4 h5
    exact ⟨h1, h2, h4⟩
  | succ f ih =>
    intro round result remaining h1 h2 h3 h4 h5
    simp only [topoLoop]
    by_cases hempty : remaining.isEmpty
    · rw [if_pos hempty]
      exact ⟨h1, h2, h4⟩
    · rw [if_neg hempty]
      by_cases hready : ((ord round).filter (fun e =>
          remaining.contains e && isReadyB deps result e)).isEmpty
      · rw [if_pos hready]
        exact ⟨h1, h2, h4⟩
      · rw [if_neg hready]
        have hreadyMem : ∀ e ∈ (ord round).filter (fun e =>
            remaining.contains e && isReadyB deps result e),
            e ∈ remaining ∧ isReadyB deps result e = true := by
          intro e he
          obtain ⟨_, hpred⟩ := List.mem_filter.mp he
          have hp := (Bool.and_eq_true _ _).mp hpred
          exact ⟨by simpa using hp.1, hp.2⟩
        refine ih (round + 1) _ _ ?_ ?_ ?_ ?_ ?_
        · exact DepPrefix_append h1 (fun e he => (hreadyMem e he).2)
        · rw [List.nodup_append]
          refine ⟨h2, List.Nodup.filter _ (hord round), ?_⟩
          intro a ha hb
          exact h3 a (hreadyMem a hb).1 ha
        · intro e he
          obtain ⟨her, hnr⟩ := List.mem_filter.mp he
          intro hin
          rcases List.mem_append.mp hin with h | h
          · exact h3 e her h
          · have hc : ((ord round).filter (fun e =>
                remaining.contains e && isReadyB deps result e)).contains e = true := by
              simpa using h
            rw [hc] at hnr
            exact absurd hnr (by decide)
        · intro e he
          rcases List.mem_append.mp he with h | h
          · exact h4 e h
          · exact h5 e (hreadyMem e h).1
        · intro e he
          exact h5 e (List.mem_filter.mp he).1

theorem collectDeps_sublist (classes : List EntityClass) :
    ∀ fuel queue processed acc,
    List.Sublist acc (collectDeps classes fuel queue processed acc) := by
  intro fuel
  induction fuel with
  | zero =>
    intro q p acc
    exact List.Sublist.refl acc
  | succ f ih =>
    intro q p acc
    cases q with
    | nil => exact List.Sublist.refl acc
    | cons e rest =>
      by_cases hp : p.contains e
      · have hstep : collectDeps classes (f + 1) (e :: rest) p acc =
            collectDeps classes f rest p acc := by
          simp only [collectDeps]
          rw [if_pos hp]
        rw [hstep]
        exact ih rest p acc
      · cases hent : entityDepEntry classes e with
        | none =>
          have hstep : collectDeps classes (f + 1) (e :: rest) p acc =
              collectDeps classes f rest (p ++ [e]) acc := by
            simp only [collectDeps]
            rw [if_neg hp, hent]
          rw [hstep]
          exact ih rest (p ++ [e]) acc
        | some ed =>
          have hstep : collectDeps classes (f + 1) (e :: rest) p acc =
              collectDeps classes f
                (rest ++ ed.filterMap (fun fd =>
                  if (p ++ [e]).contains fd.2 then none else some fd.2))
                (p ++ [e]) (acc ++ [(e, ed)]) := by
            simp only [collectDeps]
            rw [if_neg hp, hent]
          rw [hstep]
          exact (List.sublist_append_left acc [(e, ed)]).trans (ih _ _ _)

theorem collectDeps_invariant (classes : List EntityClass) (main : String) :
    ∀ fuel queue processed acc,
    (∀ q ∈ queue, Reach (collectDeps classes fuel queue processed acc) main q) →
    (∀ p ∈ acc, Reach (collectDeps classes fuel queue processed acc) main p.1) →
    ((acc.map Prod.fst).Nodup) →
    (∀ k ∈ acc.map Prod.fst, k ∈ processed) →
    (∀ p ∈ collectDeps classes fuel queue processed acc,
        Reach (collectDeps classes fuel queue processed acc) main p.1) ∧
    ((collectDeps classes fuel queue processed acc).map Prod.fst).Nodup := by
  intro fuel
  induction fuel with
  | zero =>
    intro q p acc hq hacc hnd hsub
    exact ⟨hacc, hnd⟩
  | succ f ih =>
    intro q p acc hq hacc hnd hsub
    cases q with
    | nil => exact ⟨hacc, hnd⟩
    | cons e rest =>
      by_cases hp : p.contains e
      · have hstep : collectDeps classes (f + 1) (e :: rest) p acc =
            collectDeps classes f rest p acc := by
          simp only [collectDeps]
          rw [if_pos hp]
        rw [hstep] at hq hacc ⊢
        exact ih rest p acc (fun x hx => hq x (List.mem_cons_of_mem _ hx)) hacc hnd hsub
      · cases hent : entityDepEntry classes e with
        | none =>
          have hstep : collectDeps classes (f + 1) (e :: rest) p acc =
              collectDeps classes f rest (p ++ [e]) acc := by
            simp only [collectDeps]
            rw [if_neg hp, hent]
          rw [hstep] at hq hacc ⊢
          exact ih rest _ acc (fun x hx => hq x (List.mem_cons_of_mem _ hx)) hacc hnd
            (fun k hk => List.mem_append_left _ (hsub k hk))
        | some ed =>
          have hstep : collectDeps classes (f + 1) (e :: rest) p acc =
              collectDeps classes f
                (rest ++ ed.filterMap (fun fd =>
                  if (p ++ [e]).contains fd.2 then none else some fd.2))
                (p ++ [e]) (acc ++ [(e, ed)]) := by
            simp only [collectDeps]
            rw [if_neg hp, hent]
          rw [hstep] at hq hacc ⊢
          have hsubl := collectDeps_sublist classes f
            (rest ++ ed.filterMap (fun fd =>
              if (p ++ [e]).contains fd.2 then none else some fd.2))
            (p ++ [e]) (acc ++ [(e, ed)])
          have hFentry : (e, ed) ∈ collectDeps classes f
              (rest ++ ed.filterMap (fun fd =>
                if (p ++ [e]).contains fd.2 then none else some fd.2))
              (p ++ [e]) (acc ++ [(e, ed)]) :=
            hsubl.subset (List.mem_append_right _ (List.mem_cons_self _ _))
          have hRe := hq e (List.mem_cons_self _ _)
          refine ih _ _ _ ?_ ?_ ?_ ?_
          · intro x hx
            rcases List.mem_append.mp hx with hx | hx
            · exact hq x (List.mem_cons_of_mem _ hx)
            · obtain ⟨fd, hfd, hxeq⟩ := List.mem_filterMap.mp hx
              have hxfd : x = fd.2 := by
                by_cases hc : (p ++ [e]).contains fd.2
                · rw [if_pos hc] at hxeq
                  cases hxeq
                · rw [if_neg hc] at hxeq
                  exact (Option.some.inj hxeq).symm
              rw [hxfd]
              exact Reach.step hRe ⟨ed, hFentry, fd.1, hfd⟩
          · intro px hpx
            rcases List.mem_append.mp hpx with h | h
            · exact hacc px h
            · rcases List.mem_cons.mp h with h | h
              · rw [h]
                exact hRe
              · cases h
          · rw [List.map_append]
            rw [List.nodup_append]
            refine ⟨hnd, by simp, ?_⟩
            intro k hk hk2
            simp only [List.map_cons, List.map_nil, List.mem_cons,
              List.not_mem_nil, or_false] at hk2
            rw [hk2] at hk
            have : e ∈ p := hsub e hk
            have hec : p.contains e = true := by simpa using this
            rw [hec] at hp
            exact hp rfl
          · intro k hk
            rw [List.map_append] at hk
            rcases List.mem_append.mp hk with h | h
            · exact List.mem_append_left _ (hsub k h)
            · simp only [List.map_cons, List.map_nil, List.mem_cons,
                List.not_mem_nil, or_false] at h
              rw [h]
              exact List.mem_append_right _ (List.mem_cons_self _ _)

theorem allEntityDeps_reach (classes : List EntityClass) (main : String) :
    (∀ p ∈ allEntityDeps classes main,
      Reach (allEntityDeps classes main) main p.1) ∧
    ((allEntityDeps classes main).map Prod.fst).Nodup := by
  refine collectDeps_invariant classes main (2 + totalEntityFields classes) [main] [] []
    ?_ ?_ (by simp) (by simp)
  · intro x hx
    rcases List.mem_cons.mp hx with h | h
    · rw [h]
      exact Reach.refl
    · cases h
  · intro px hpx
    cases hpx

theorem getLast?_eq_getD {l : List String} (h : l ≠ []) :
    l.getLast? = some (l.getD (l.length - 1) ("")) := by
  induction l with
  | nil => cases h rfl
  | cons a t ih =>
    cases t with
    | nil => rfl
    | cons b t2 =>
      rw [List.getLast?_cons_cons]
      rw [ih (by simp)]
      simp only [List.length_cons, Nat.add_sub_cancel]
      rw [List.getD_cons_succ]

theorem result_main_last {deps : List (String × List (String × String))}
    {r : List String} {main : String}
    (hdnd : (deps.map Prod.fst).Nodup)
    (hdp : DepPrefix deps r) (hnd : r.Nodup)
    (hkeys : ∀ e ∈ r, e ∈ deps.map Prod.fst)
    (hreach : ∀ k ∈ deps.map Prod.fst, Reach deps main k)
    (hmain : main ∈ r) :
    r.getLast? = some main := by
  obtain ⟨im, him, hgm⟩ := List.mem_iff_getElem.mp hmain
  have hgmD : r.getD im ("") = main := by
    rw [List.getD_eq_getElem _ _ him]
    exact hgm
  have hdesc : ∀ a, a ∈ r.take im ∨ a = main → ∀ c,
      (∃ ed, (a, ed) ∈ deps ∧ ∃ f, (f, c) ∈ ed) → c ∈ r.take im := by
    intro a ha c hc
    obtain ⟨ed, hed, f, hfc⟩ := hc
    have hlook : DataProviderToolkit.lookupAssoc deps a = some ed :=
      DataProviderToolkit.lookupAssoc_eq_of_mem hdnd hed
    rcases ha with ha | ha
    · obtain ⟨ja, hja1, hja2, hja3⟩ := mem_take_elim ha
      have := hdp ja hja2 (f, c) (by
        rw [hja3, hlook]
        simpa using hfc)
      obtain ⟨jc, hjc1, hjc2, hjc3⟩ := mem_take_elim this
      have hjc4 : r.getD jc ("") = c := hjc3
      rw [← hjc4]
      exact getD_mem_take (by omega) hjc2
    · subst ha
      exact hdp im him (f, c) (by
        rw [hgmD, hlook]
        simpa using hfc)
  have hreachTake : ∀ e, Reach deps main e → e = main ∨ e ∈ r.take im := by
    intro e he
    induction he with
    | refl => exact Or.inl rfl
    | step hb hbc ihb =>
      rcases ihb with h | h
      · exact Or.inr (hdesc _ (Or.inr h) _ hbc)
      · exact Or.inr (hdesc _ (Or.inl h) _ hbc)
  have hne : r ≠ [] := by
    intro h0
    rw [h0] at hmain
    cases hmain
  rw [getLast?_eq_getD hne]
  have hlenpos : 0 < r.length := List.length_pos.mpr hne
  have hzmem : r.getD (r.length - 1) ("") ∈ r := by
    rw [List.getD_eq_getElem _ _ (by omega)]
    exact List.mem_iff_getElem.mpr ⟨_, by omega, rfl⟩
  rcases hreachTake _ (hreach _ (hkeys _ hzmem)) with h | h
  · rw [h]
  · obtain ⟨jz, hjz1, hjz2, hjz3⟩ := mem_take_elim h
    have hj1 : r[jz] = r[r.length - 1] := by
      rw [← List.getD_eq_getElem _ ("") hjz2, ← List.getD_eq_getElem _ ("") (by omega)]
      exact hjz3
    have : jz = r.length - 1 := (List.Nodup.getElem_inj_iff hnd).mp hj1
    omega

theorem exists_min_rank {l : List String} (rank : String → Nat) (h : l ≠ []) :
    ∃ e ∈ l, ∀ x ∈ l, rank e ≤ rank x := by
  induction l with
  | nil => cases h rfl
  | cons a t ih =>
    cases t with
    | nil =>
      refine ⟨a, by simp, ?_⟩
      intro x hx
      rcases List.mem_cons.mp hx with h2 | h2
      · rw [h2]
      · cases h2
    | cons b t2 =>
      obtain ⟨e, he, hmin⟩ := ih (by simp)
      by_cases hc : rank a ≤ rank e
      · refine ⟨a, List.mem_cons_self _ _, ?_⟩
        intro x hx
        rcases List.mem_cons.mp hx with h2 | h2
        · rw [h2]
        · exact Nat.le_trans hc (hmin x h2)
      · refine ⟨e, List.mem_cons_of_mem _ he, ?_⟩
        intro x hx
        rcases List.mem_cons.mp hx with h2 | h2
        · rw [h2]
          exact Nat.le_of_lt (Nat.lt_of_not_le hc)
        · exact hmin x h2

theorem filter_length_lt {l : List String} {p : String → Bool} {x : String}
    (hx : x ∈ l) (hpx : p x = false) : (l.filter p).length < l.length := by
  induction l with
  | nil => cases hx
  | cons a t ih =>
    rcases List.mem_cons.mp hx with h | h
    · subst h
      rw [List.filter_cons_of_neg (by simp [hpx])]
      have := List.length_filter_le p t
      simp only [List.length_cons]
      omega
    · by_cases hpa : p a
      · rw [List.filter_cons_of_pos hpa]
        simp only [List.length_cons]
        exact Nat.succ_lt_succ (ih h)
      · rw [List.filter_cons_of_neg (by simpa using hpa)]
        have := ih h
        simp only [List.length_cons]
        omega

theorem contains_append_str {l1 l2 : List String} {a : String} :
    (l1 ++ l2).contains a = (l1.contains a || l2.contains a) := by
  induction l1 with
  | nil => simp
  | cons b t ih =>
    simp only [List.cons_append, List.contains_cons, ih, Bool.or_assoc]

theorem topoLoop_all_keys {deps : List (String × List (String × String))}
    {ord : Nat → List String} (rank : String → Nat)
    (hdnd : (deps.map Prod.fst).Nodup)
    (hrank : ∀ p ∈ deps, ∀ fd ∈ p.2, rank fd.2 < rank p.1)
    (hclosed : ∀ p ∈ deps, ∀ fd ∈ p.2, fd.2 ∈ deps.map Prod.fst)
    (hcov : ∀ ro, ∀ e ∈ deps.map Prod.fst, e ∈ ord ro) :
    ∀ fuel round result,
    ((deps.map Prod.fst).filter (fun e => !(result.contains e))).length < fuel →
    ∀ k ∈ deps.map Prod.fst,
      k ∈ topoLoop deps ord fuel round result
        ((deps.map Prod.fst).filter (fun e => !(result.contains e))) := by
  intro fuel
  induction fuel with
  | zero =>
    intro round result hlen
    omega
  | succ f ih =>
    intro round result hlen k hk
    simp only [topoLoop]
    by_cases hempty : ((deps.map Prod.fst).filter
        (fun e => !(result.contains e))).isEmpty
    · rw [if_pos hempty]
      have hnil := List.isEmpty_iff.mp hempty
      have : k ∈ result := by
        by_contra hkr
        have : k ∈ (deps.map Prod.fst).filter (fun e => !(result.contains e)) :=
          List.mem_filter.mpr ⟨hk, by simpa using hkr⟩
        rw [hnil] at this
        cases this
      exact this
    · rw [if_neg hempty]
      have hremne : (deps.map Prod.fst).filter (fun e => !(result.contains e)) ≠ [] := by
        simpa [List.isEmpty_iff] using hempty
      obtain ⟨e, hemem, hemin⟩ := exists_min_rank rank hremne
      have heready : isReadyB deps result e = true := by
        obtain ⟨hekeys, _⟩ := List.mem_filter.mp hemem
        obtain ⟨pe, hpe, hpeq⟩ := List.mem_map.mp hekeys
        have hlook : DataProviderToolkit.lookupAssoc deps e = some pe.2 := by
          have : (e, pe.2) ∈ deps := by
            rw [← hpeq]
            exact hpe
          exact DataProviderToolkit.lookupAssoc_eq_of_mem hdnd this
        simp only [isReadyB, hlook, Option.getD_some]
        rw [List.all_eq_true]
        intro fd hfd
        have hfdk : fd.2 ∈ deps.map Prod.fst := hclosed pe hpe fd hfd
        have hfdrank : rank fd.2 < rank e := by
          have := hrank pe hpe fd hfd
          rw [hpeq] at this
          exact this
        by_cases hres : result.contains fd.2
        · simpa using hres
        · exfalso
          have : fd.2 ∈ (deps.map Prod.fst).filter (fun e2 => !(result.contains e2)) :=
            List.mem_filter.mpr ⟨hfdk, by simpa using hres⟩
          have := hemin fd.2 this
          omega
      have hein : e ∈ (ord round).filter (fun e2 =>
          ((deps.map Prod.fst).filter (fun e3 => !(result.contains e3))).contains e2 &&
            isReadyB deps result e2) := by
        refine List.mem_filter.mpr ⟨hcov round e (List.mem_filter.mp hemem).1, ?_⟩
        rw [heready]
        have : ((deps.map Prod.fst).filter
            (fun e3 => !(result.contains e3))).contains e = true := by
          simpa using hemem
        rw [this]
        rfl
      have hreadyne : ¬ ((ord round).filter (fun e2 =>
          ((deps.map Prod.fst).filter (fun e3 => !(result.contains e3))).contains e2 &&
            isReadyB deps result e2)).isEmpty := by
        rw [List.isEmpty_iff]
        intro hnil2
        rw [hnil2] at hein
        cases hein
      rw [if_neg hreadyne]
      set ready := (ord round).filter (fun e2 =>
        ((deps.map Prod.fst).filter (fun e3 => !(result.contains e3))).contains e2 &&
          isReadyB deps result e2) with hready_def
      have hrem2 : ((deps.map Prod.fst).filter
            (fun e2 => !(result.contains e2))).filter (fun e2 => !(ready.contains e2)) =
          (deps.map Prod.fst).filter (fun e2 => !((result ++ ready).contains e2)) := by
        rw [List.filter_filter]
        refine List.filter_congr ?_
        intro a _
        rw [contains_append_str]
        cases h1 : result.contains a <;> cases h2 : ready.contains a <;> rfl
      rw [hrem2]
      refine ih (round + 1) (result ++ ready) ?_ k hk
      have hsub : ((deps.map Prod.fst).filter
          (fun e2 => !((result ++ ready).contains e2))).length <
          ((deps.map Prod.fst).filter (fun e2 => !(result.contains e2))).length := by
        rw [← hrem2]
        refine filter_length_lt hemem ?_
        have : ready.contains e = true := by simpa using hein
        rw [this]
        rfl
      omega

/-- Claim C9 (amended): for EVERY set-iteration order of the second-pass
`remaining_entities` set (parameter `ord`, each round's order duplicate-free)
— not merely the first-discovery order the original claim asserts (refuted by
`claim_C9_counterexample`) — the ordered relation map lists every entity
after all of its recorded dependencies; under an acyclicity rank for the
collected dependency graph, with every dependency itself collected and every
entity visible to each round's iteration order, the map's keys are exactly
the collected entities; and whenever the main entity is a key it is the last
key. -/
theorem claim_C9_relation_map_order
    (main : String) (classes : List EntityClass) (ord : Nat → List String)
    (rank : String → Nat)
    (hordnd : ∀ r, (ord r).Nodup)
    (hrank : ∀ p ∈ allEntityDeps classes main, ∀ fd ∈ p.2, rank fd.2 < rank p.1)
    (hclosed : ∀ p ∈ allEntityDeps classes main, ∀ fd ∈ p.2,
      fd.2 ∈ (allEntityDeps classes main).map Prod.fst)
    (hcov : ∀ ro, ∀ e ∈ (allEntityDeps classes main).map Prod.fst, e ∈ ord ro) :
    DepPrefix (allEntityDeps classes main)
      (calculate_ordered_entity_relation_map main classes ord) ∧
    (calculate_ordered_entity_relation_map main classes ord).Perm
      ((allEntityDeps classes main).map Prod.fst) ∧
    (main ∈ calculate_ordered_entity_relation_map main classes ord →
      (calculate_ordered_entity_relation_map main classes ord).getLast? = some main) := by
  obtain ⟨hreach, hdnd⟩ := allEntityDeps_reach classes main
  have hreach2 : ∀ k ∈ (allEntityDeps classes main).map Prod.fst,
      Reach (allEntityDeps classes main) main k := by
    intro k hk
    obtain ⟨p2, hp2, hpeq⟩ := List.mem_map.mp hk
    rw [← hpeq]
    exact hreach p2 hp2
  have hinv := @topoLoop_invariant (allEntityDeps classes main) _ hordnd
    ((allEntityDeps classes main).length + 1) 0 []
    ((allEntityDeps classes main).map Prod.fst)
    (fun i hi => absurd hi (by simp))
    (by simp)
    (fun e _ h => absurd h (List.not_mem_nil e))
    (fun e h => absurd h (List.not_mem_nil e))
    (fun e h => h)
  obtain ⟨hdp, hnd, hsubkeys⟩ := hinv
  have hall : ∀ k ∈ (allEntityDeps classes main).map Prod.fst,
      k ∈ calculate_ordered_entity_relation_map main classes ord := by
    intro k hk
    have hstart : ((allEntityDeps classes main).map Prod.fst).filter
        (fun e => !(([] : List String).contains e)) =
        (allEntityDeps classes main).map Prod.fst := by
      refine List.filter_eq_self.mpr ?_
      intro a _
      rfl
    have := topoLoop_all_keys rank hdnd hrank hclosed hcov
      ((allEntityDeps classes main).length + 1) 0 [] (by
        rw [hstart]
        have := List.length_map (allEntityDeps classes main) Prod.fst
        simp [this])
      k hk
    rw [hstart] at this
    exact this
  have hperm : (calculate_ordered_entity_relation_map main classes ord).Perm
      ((allEntityDeps classes main).map Prod.fst) := by
    refine List.Subperm.antisymm ?_ ?_
    · exact List.Nodup.subperm hnd (fun a ha => hsubkeys a ha)
    · exact List.Nodup.subperm hdnd (fun a ha => hall a ha)
  refine ⟨hdp, hperm, ?_⟩
  intro hmain
  exact result_main_last hdnd hdp hnd hsubkeys hreach2 hmain

/-- Witness for the amended claim C9 on the two-dependency scenario with an
adversarial set order. -/
theorem claim_C9_witness :
    ((∀ r : Nat, ([("B"), ("A"), ("M")] : List String).Nodup) ∧
     (∀ p ∈ allEntityDeps c9classes ("M"), ∀ fd ∈ p.2,
       (fun s => if s = ("M") then 1 else 0 : String → Nat) fd.2 <
         (fun s => if s = ("M") then 1 else 0 : String → Nat) p.1) ∧
     (∀ p ∈ allEntityDeps c9classes ("M"), ∀ fd ∈ p.2,
       fd.2 ∈ (allEntityDeps c9classes ("M")).map Prod.fst) ∧
     (∀ ro : Nat, ∀ e ∈ (allEntityDeps c9classes ("M")).map Prod.fst,
       e ∈ [("B"), ("A"), ("M")])) ∧
    (DepPrefix (allEntityDeps c9classes ("M"))
      (calculate_ordered_entity_relation_map ("M") c9classes
        (fun _ => [("B"), ("A"), ("M")])) ∧
     (calculate_ordered_entity_relation_map ("M") c9classes
        (fun _ => [("B"), ("A"), ("M")])).Perm
       ((allEntityDeps c9classes ("M")).map Prod.fst) ∧
     (("M") ∈ calculate_ordered_entity_relation_map ("M") c9classes
        (fun _ => [("B"), ("A"), ("M")]) →
      (calculate_ordered_entity_relation_map ("M") c9classes
        (fun _ => [("B"), ("A"), ("M")])).getLast? = some ("M"))) :=
  ⟨⟨fun _ => by decide, by decide, by decide, fun _ => by decide⟩,
   claim_C9_relation_map_order ("M") c9classes (fun _ => [("B"), ("A"), ("M")])
     (fun s => if s = ("M") then 1 else 0)
     (fun _ => (by decide : ([("B"), ("A"), ("M")] : List String).Nodup))
     (by decide) (by decide)
     (fun _ => (by decide :
       ∀ e ∈ (allEntityDeps c9classes ("M")).map Prod.fst,
         e ∈ ([("B"), ("A"), ("M")] : List String)))⟩

theorem setAssoc_lookup_self {α : Type} {k : String} {v : α} :
    ∀ {l : List (String × α)},
    DataProviderToolkit.lookupAssoc (setAssoc l k v) k = some v := by
  intro l
  induction l with
  | nil =>
    simp [setAssoc, DataProviderToolkit.lookupAssoc]
  | cons p t ih =>
    obtain ⟨k0, v0⟩ := p
    simp only [setAssoc]
    by_cases h : k0 == k
    · rw [if_pos h]
      have hk : k0 = k := by simpa using h
      simp only [DataProviderToolkit.lookupAssoc]
      rw [List.find?_cons_of_pos _ (by simpa using hk)]
      rfl
    · rw [if_neg h]
      have hk : ¬ k0 = k := by simpa using h
      simp only [DataProviderToolkit.lookupAssoc]
      rw [List.find?_cons_of_neg _ (by simpa using hk)]
      exact ih

theorem setAssoc_lookup_other {α : Type} {k x : String} {v : α} (hne : x ≠ k) :
    ∀ {l : List (String × α)},
    DataProviderToolkit.lookupAssoc (setAssoc l k v) x =
      DataProviderToolkit.lookupAssoc l x := by
  intro l
  induction l with
  | nil =>
    simp only [setAssoc, DataProviderToolkit.lookupAssoc]
    rw [List.find?_cons_of_neg _ (by simpa using fun h => hne h.symm)]
  | cons p t ih =>
    obtain ⟨k0, v0⟩ := p
    simp only [setAssoc]
    by_cases h : k0 == k
    · rw [if_pos h]
      have hk : k0 = k := by simpa using h
      subst hk
      simp only [DataProviderToolkit.lookupAssoc]
      rw [List.find?_cons_of_neg _ (by simpa using fun h2 => hne h2.symm),
        List.find?_cons_of_neg _ (by simpa using fun h2 => hne h2.symm)]
    · rw [if_neg h]
      simp only [DataProviderToolkit.lookupAssoc]
      by_cases hx : k0 = x
      · rw [List.find?_cons_of_pos _ (by simpa using hx),
          List.find?_cons_of_pos _ (by simpa using hx)]
      · rw [List.find?_cons_of_neg _ (by simpa using hx),
          List.find?_cons_of_neg _ (by simpa using hx)]
        exact ih

theorem lookupAssoc_append_of_none {α : Type} {l l2 : List (String × α)} {k : String}
    (h : DataProviderToolkit.lookupAssoc l k = none) :
    DataProviderToolkit.lookupAssoc (l ++ l2) k =
      DataProviderToolkit.lookupAssoc l2 k := by
  simp only [DataProviderToolkit.lookupAssoc] at h ⊢
  rw [List.find?_append]
  cases hf : List.find? (fun p => p.1 == k) l with
  | none => rw [Option.none_or]
  | some p =>
    rw [hf] at h
    cases h

theorem setEntityCol_self {acc : List (String × List (String × List Cell))}
    {e f : String} {col : List Cell} :
    lookup2 (setEntityCol acc e f col) e f = some col := by
  simp only [setEntityCol]
  cases hl : DataProviderToolkit.lookupAssoc acc e with
  | none =>
    simp only [lookup2]
    rw [lookupAssoc_append_of_none hl]
    simp only [DataProviderToolkit.lookupAssoc]
    rw [List.find?_cons_of_pos _ (by simp)]
    simp only [Option.map_some', Option.some_bind]
    rw [List.find?_cons_of_pos _ (by simp)]
    rfl
  | some inner =>
    simp only [lookup2]
    rw [setAssoc_lookup_self]
    simp only [Option.some_bind]
    exact setAssoc_lookup_self

theorem lookupAssoc_append_singleton_other {α : Type} {l : List (String × α)}
    {k x : String} {v : α} (hne : x ≠ k) :
    DataProviderToolkit.lookupAssoc (l ++ [(k, v)]) x =
      DataProviderToolkit.lookupAssoc l x := by
  simp only [DataProviderToolkit.lookupAssoc]
  rw [List.find?_append]
  have hsing : List.find? (fun p => p.1 == x) [(k, v)] = none := by
    rw [List.find?_cons_of_neg _ (by simpa using fun h => hne h.symm)]
    rfl
  rw [hsing, Option.or_none]

theorem setEntityCol_other {acc : List (String × List (String × List Cell))}
    {e2 f2 e f : String} {col : List Cell} (hne : ¬ (e2 = e ∧ f2 = f)) :
    lookup2 (setEntityCol acc e2 f2 col) e f = lookup2 acc e f := by
  simp only [setEntityCol]
  by_cases he : e = e2
  · subst he
    have hf : f ≠ f2 := by
      intro h
      exact hne ⟨rfl, h.symm⟩
    cases hl : DataProviderToolkit.lookupAssoc acc e with
    | none =>
      simp only [lookup2]
      rw [lookupAssoc_append_of_none hl, hl]
      simp only [DataProviderToolkit.lookupAssoc]
      rw [List.find?_cons_of_pos _ (by simp)]
      simp only [Option.map_some', Option.some_bind, Option.none_bind]
      rw [List.find?_cons_of_neg _ (by simpa using fun h => hf h.symm)]
      rfl
    | some inner =>
      simp only [lookup2]
      rw [setAssoc_lookup_self, hl]
      simp only [Option.some_bind]
      exact setAssoc_lookup_other hf
  · cases hl : DataProviderToolkit.lookupAssoc acc e2 with
    | none =>
      simp only [lookup2]
      rw [lookupAssoc_append_singleton_other he]
    | some inner =>
      simp only [lookup2]
      rw [setAssoc_lookup_other he]

theorem splitDot_recover : ∀ {cs b : List Char},
    (splitDot cs).2 = some b → cs = (splitDot cs).1 ++ ('.') :: b := by
  intro cs
  induction cs with
  | nil =>
    intro b h
    simp [splitDot] at h
  | cons c rest ih =>
    intro b h
    by_cases hc : c = ('.')
    · have hsp : splitDot (c :: rest) = ([], some rest) := by
        simp only [splitDot]
        rw [if_pos hc]
      rw [hsp] at h ⊢
      simp only at h ⊢
      have hrb : rest = b := Option.some.inj h
      rw [hc, ← hrb]
      rfl
    · have hsp1 : (splitDot (c :: rest)).1 = c :: (splitDot rest).1 := by
        simp only [splitDot]
        rw [if_neg hc]

      have hsp2 : (splitDot (c :: rest)).2 = (splitDot rest).2 := by
        simp only [splitDot]
        rw [if_neg hc]
      rw [hsp2] at h
      rw [hsp1, List.cons_append]
      exact congrArg (List.cons c) (ih h)

theorem lookupAssoc_map_snd {α β : Type} (g : α → β) :
    ∀ {l : List (String × α)} {k : String},
    DataProviderToolkit.lookupAssoc (l.map (fun p => (p.1, g p.2))) k =
      (DataProviderToolkit.lookupAssoc l k).map g := by
  intro l
  induction l with
  | nil => intro k; rfl
  | cons p t ih =>
    intro k
    obtain ⟨k0, v0⟩ := p
    simp only [List.map_cons, DataProviderToolkit.lookupAssoc]
    by_cases h : k0 = k
    · rw [List.find?_cons_of_pos _ (by simpa using h),
        List.find?_cons_of_pos _ (by simpa using h)]
      rfl
    · rw [List.find?_cons_of_neg _ (by simpa using h),
        List.find?_cons_of_neg _ (by simpa using h)]
      exact ih

theorem splitLoop_ok_lookup {map : List (String × EntityClass)} {e f : String}
    {col0 : List Cell} :
    ∀ {cols : List (String × List Cell)} {acc},
    (∀ c ∈ cols, columnNameValid map c.1 = true) →
    (∀ c ∈ cols, ∀ fp, (splitDot c.1.data).2 = some fp →
      ((⟨(splitDot c.1.data).1⟩ : String) = e ∧ (⟨fp⟩ : String) = f) → c.2 = col0) →
    (lookup2 acc e f = some col0 ∨
      ∃ c ∈ cols, ∃ fp, (splitDot c.1.data).2 = some fp ∧
        (⟨(splitDot c.1.data).1⟩ : String) = e ∧ (⟨fp⟩ : String) = f) →
    ∃ out, splitLoop map cols acc = .ok out ∧ lookup2 out e f = some col0 := by
  intro cols
  induction cols with
  | nil =>
    intro acc hvalid huniq hstart
    rcases hstart with h | ⟨c, hc, _⟩
    · exact ⟨acc, rfl, h⟩
    · cases hc
  | cons c rest ih =>
    intro acc hvalid huniq hstart
    obtain ⟨cn, col⟩ := c
    have hv := hvalid (cn, col) (List.mem_cons_self _ _)
    cases hsp : (splitDot cn.data).2 with
    | none =>
      simp only [columnNameValid, hsp] at hv
      exact absurd hv (by decide)
    | some fp =>
      cases hcls : DataProviderToolkit.lookupAssoc map
          (⟨(splitDot cn.data).1⟩ : String) with
      | none =>
        simp only [columnNameValid, hsp, hcls] at hv
        exact absurd hv (by decide)
      | some cls =>
        have hvcls : cls.isDataclass = true ∧
            ((cls.efields.map Prod.fst).contains (⟨fp⟩ : String)) = true := by
          simp only [columnNameValid, hsp, hcls] at hv
          exact (Bool.and_eq_true _ _).mp hv
        have hstep : splitLoop map ((cn, col) :: rest) acc =
            splitLoop map rest (setEntityCol acc (⟨(splitDot cn.data).1⟩ : String)
              (⟨fp⟩ : String) col) := by
          simp only [splitLoop, hsp, hcls]
          rw [if_neg (by
              rw [hvcls.1]
              decide),
            if_neg (by
              rw [hvcls.2]
              decide)]
        rw [hstep]
        by_cases hpair : (⟨(splitDot cn.data).1⟩ : String) = e ∧ (⟨fp⟩ : String) = f
        · have hcol : col = col0 :=
            huniq (cn, col) (List.mem_cons_self _ _) fp hsp hpair
          refine ih (fun c2 h2 => hvalid c2 (List.mem_cons_of_mem _ h2))
            (fun c2 h2 => huniq c2 (List.mem_cons_of_mem _ h2)) (Or.inl ?_)
          rw [hpair.1, hpair.2, hcol]
          exact setEntityCol_self
        · refine ih (fun c2 h2 => hvalid c2 (List.mem_cons_of_mem _ h2))
            (fun c2 h2 => huniq c2 (List.mem_cons_of_mem _ h2)) ?_
          rcases hstart with h | ⟨c2, hc2, fp2, hfp2, hpair2⟩
          · exact Or.inl (by rw [setEntityCol_other hpair]; exact h)
          · rcases List.mem_cons.mp hc2 with h2 | h2
            · exfalso
              rw [h2] at hfp2 hpair2
              rw [hsp] at hfp2
              have : fp2 = fp := (Option.some.inj hfp2).symm
              rw [this] at hpair2
              exact hpair hpair2
            · exact Or.inr ⟨c2, h2, fp2, hfp2, hpair2⟩

theorem splitLoop_error {map : List (String × EntityClass)} :
    ∀ {cols : List (String × List Cell)} {acc},
    (∃ c ∈ cols, columnNameValid map c.1 = false) →
    ∃ msg, splitLoop map cols acc = .error (.incorrectMappingType msg) := by
  intro cols
  induction cols with
  | nil =>
    intro acc h
    obtain ⟨c, hc, _⟩ := h
    cases hc
  | cons c rest ih =>
    intro acc hbad
    obtain ⟨cn, col⟩ := c
    cases hsp : (splitDot cn.data).2 with
    | none =>
      refine ⟨(("Invalid column name format: ") ++ cn), ?_⟩
      simp [splitLoop, hsp]
    | some fp =>
      cases hcls : DataProviderToolkit.lookupAssoc map
          (⟨(splitDot cn.data).1⟩ : String) with
      | none =>
        refine ⟨(("Entity not found for column ") ++ cn), ?_⟩
        simp [splitLoop, hsp, hcls]
      | some cls =>
        by_cases hdc : cls.isDataclass
        · by_cases hfm : ((cls.efields.map Prod.fst).contains (⟨fp⟩ : String))
          · have hstep : splitLoop map ((cn, col) :: rest) acc =
                splitLoop map rest (setEntityCol acc
                  (⟨(splitDot cn.data).1⟩ : String) (⟨fp⟩ : String) col) := by
              simp only [splitLoop, hsp, hcls]
              rw [if_neg (by
                  rw [hdc]
                  decide),
                if_neg (by
                  rw [hfm]
                  decide)]
            rw [hstep]
            refine ih ?_
            obtain ⟨c2, hc2, hbad2⟩ := hbad
            rcases List.mem_cons.mp hc2 with h2 | h2
            · exfalso
              rw [h2] at hbad2
              have : columnNameValid map cn = true := by
                simp only [columnNameValid, hsp, hcls]
                rw [hdc, hfm]
                rfl
              rw [this] at hbad2
              cases hbad2
            · exact ⟨c2, h2, hbad2⟩
          · have hfm2 : ((cls.efields.map Prod.fst).contains (⟨fp⟩ : String)) = false := by
              cases h : ((cls.efields.map Prod.fst).contains (⟨fp⟩ : String)) with
              | true => exact absurd h hfm
              | false => rfl
            refine ⟨(("Field not found for column ") ++ cn), ?_⟩
            simp only [splitLoop, hsp, hcls]
            rw [if_neg (by
                rw [hdc]
                decide),
              if_pos (by
                rw [hfm2]
                decide)]
        · have hdc2 : cls.isDataclass = false := by
            cases h : cls.isDataclass with
            | true => exact absurd h hdc
            | false => rfl
          refine ⟨(("Entity class is not a dataclass for ") ++ cn), ?_⟩
          simp only [splitLoop, hsp, hcls]
          rw [if_pos (by
              rw [hdc2]
              decide)]

/-- Claim C8: on a consolidated table whose column names are all of the shape
`Entity.field` with a known dataclass entity and a declared field, splitting
and reading back field `field` from entity `Entity`'s table reproduces the
original column exactly; and a column name without a dot, with an unknown
entity, a non-dataclass entity, or an undeclared field makes the splitter
raise `DataBlockIncorrectMappingTypeError`. -/
theorem claim_C8_split_round_trip
    (table : Table) (map : List (String × EntityClass))
    (hnodup : (table.cols.map Prod.fst).Nodup) :
    ((∀ c ∈ table.cols, columnNameValid map c.1 = true) →
      ∃ ets, _split_consolidated_table_into_entity_tables table map = .ok ets ∧
        ∀ c ∈ table.cols, ∀ fp, (splitDot c.1.data).2 = some fp →
          (DataProviderToolkit.lookupAssoc ets
              (⟨(splitDot c.1.data).1⟩ : String)).bind
            (fun t => t.lookupCol (⟨fp⟩ : String)) = some c.2) ∧
    ((∃ c ∈ table.cols, columnNameValid map c.1 = false) →
      ∃ msg, _split_consolidated_table_into_entity_tables table map =
        .error (.incorrectMappingType msg)) := by
  constructor
  · intro hvalid
    -- per-column preservation, assembled pointwise
    have hpoint : ∀ c ∈ table.cols, ∀ fp, (splitDot c.1.data).2 = some fp →
        ∃ out, splitLoop map table.cols [] = .ok out ∧
          lookup2 out (⟨(splitDot c.1.data).1⟩ : String) (⟨fp⟩ : String) = some c.2 := by
      intro c hc fp hfp
      refine splitLoop_ok_lookup hvalid ?_ (Or.inr ⟨c, hc, fp, hfp, rfl, rfl⟩)
      intro c2 hc2 fp2 hfp2 hpair2
      -- same (entity, field) pair forces the same column name, hence the same entry
      have hrec1 : c.1.data = (splitDot c.1.data).1 ++ ('.') :: fp :=
        splitDot_recover hfp
      have hrec2 : c2.1.data = (splitDot c2.1.data).1 ++ ('.') :: fp2 :=
        splitDot_recover hfp2
      have hent : (splitDot c2.1.data).1 = (splitDot c.1.data).1 :=
        congrArg String.data hpair2.1
      have hfld : fp2 = fp := congrArg String.data hpair2.2
      have hcn : c2.1 = c.1 := by
        have hdata : c2.1.data = c.1.data := by
          rw [hrec2, hent, hfld, ← hrec1]
        exact congrArg String.mk hdata
      have hl1 := DataProviderToolkit.lookupAssoc_eq_of_mem hnodup
        (show (c.1, c.2) ∈ table.cols from hc)
      have hl2 := DataProviderToolkit.lookupAssoc_eq_of_mem hnodup
        (show (c2.1, c2.2) ∈ table.cols from hc2)
      rw [hcn] at hl2
      rw [hl1] at hl2
      exact (Option.some.inj hl2).symm
    -- the splitLoop output is independent of the chosen column
    cases hout : splitLoop map table.cols [] with
    | error e =>
      by_cases hne : table.cols = []
      · refine ⟨[], ?_, ?_⟩
        · simp only [_split_consolidated_table_into_entity_tables, hne, splitLoop]
          rfl
        · intro c hc
          rw [hne] at hc
          cases hc
      · -- a nonempty all-valid table cannot error: contradiction via any column
        exfalso
        obtain ⟨c0, hc0⟩ := List.exists_mem_of_ne_nil table.cols hne
        have hv0 := hvalid c0 hc0
        cases hsp0 : (splitDot c0.1.data).2 with
        | none =>
          simp only [columnNameValid, hsp0] at hv0
          exact absurd hv0 (by decide)
        | some fp0 =>
          obtain ⟨out, hout2, _⟩ := hpoint c0 hc0 fp0 hsp0
          rw [hout] at hout2
          exact absurd hout2 (by simp)
    | ok out =>
      refine ⟨out.map (fun p => (p.1, (⟨p.2⟩ : Table))), ?_, ?_⟩
      · simp only [_split_consolidated_table_into_entity_tables, hout]
        rfl
      · intro c hc fp hfp
        obtain ⟨out2, hout2, hlook⟩ := hpoint c hc fp hfp
        rw [hout] at hout2
        have hoeq : out = out2 := Except.ok.inj hout2
        rw [← hoeq] at hlook
        rw [lookupAssoc_map_snd (fun inner => (⟨inner⟩ : Table))]
        simp only [lookup2] at hlook
        cases hfind : DataProviderToolkit.lookupAssoc out
            (⟨(splitDot c.1.data).1⟩ : String) with
        | none =>
          rw [hfind] at hlook
          cases hlook
        | some inner =>
          rw [hfind] at hlook
          simp only [Option.some_bind] at hlook
          simp only [Option.map_some', Option.some_bind]
          exact hlook
  · intro hbad
    obtain ⟨msg, hmsg⟩ := @splitLoop_error map _ ([]) hbad
    refine ⟨msg, ?_⟩
    simp only [_split_consolidated_table_into_entity_tables, hmsg]
    rfl

/-- Witness for claim C8: the scenario table splits losslessly, and a table
with a dotless column name raises the mapping error. -/
theorem claim_C8_witness :
    ((splitTable.cols.map Prod.fst).Nodup ∧
     (∀ c ∈ splitTable.cols, columnNameValid splitMap c.1 = true) ∧
     (∃ ets, _split_consolidated_table_into_entity_tables splitTable splitMap =
        .ok ets ∧
       ∀ c ∈ splitTable.cols, ∀ fp, (splitDot c.1.data).2 = some fp →
         (DataProviderToolkit.lookupAssoc ets
             (⟨(splitDot c.1.data).1⟩ : String)).bind
           (fun t => t.lookupCol (⟨fp⟩ : String)) = some c.2)) ∧
    ((∃ c ∈ (⟨[(("nodot"), [some 1])]⟩ : Table).cols,
        columnNameValid splitMap c.1 = false) ∧
     (∃ msg, _split_consolidated_table_into_entity_tables
        (⟨[(("nodot"), [some 1])]⟩ : Table) splitMap =
        .error (.incorrectMappingType msg))) :=
  ⟨⟨by decide, by decide,
    (claim_C8_split_round_trip splitTable splitMap (by decide)).1 (by decide)⟩,
   ⟨⟨(("nodot"), [some 1]), by decide, by decide⟩,
    (claim_C8_split_round_trip (⟨[(("nodot"), [some 1])]⟩ : Table) splitMap
      (by decide)).2 ⟨(("nodot"), [some 1]), by decide, by decide⟩⟩⟩

/-- Claim C7: during `_pack_entity_hierarchy_rows`, a row whose every
non-key common field (declared, present, non-dependency, non-clock-sync) is
null packs to `None`: for the clock-sync entity the ISO-date key is mapped
to `None` in the master rows, for any other entity `None` is appended to its
dependency rows — and in both cases the result does not involve the entity
constructor at all (it is the same for every `mkFails`), so no entity
instance with all-null fields is ever constructed for such a row. -/
theorem claim_C7_pack_empty_rows
    (classes : List EntityClass)
    (mkFails : String → List (String × Packed) → Bool)
    (clockEntity clockField entity : String)
    (edeps : List (String × String)) (table : PTable) (cls : EntityClass)
    (clockCol : List PyVal) (st : PackState) (j : Nat)
    (hnull : (nonKeyCommonFieldNames cls table edeps clockField).all (fun fn =>
      (DataProviderToolkit.lookupAssoc (rowAssoc table j) fn).getD .pnone ==
        PyVal.pnone) = true) :
    (∀ d, clockEntity = entity →
      DataProviderToolkit.lookupAssoc (rowAssoc table j) clockField =
        some (.pdate d) →
      packEntityRow classes mkFails clockEntity clockField entity edeps table
        (missingFieldNames cls table edeps)
        (nonKeyCommonFieldNames cls table edeps clockField) clockCol st j =
        .ok { st with
          masterRows := setAssoc st.masterRows (⟨renderDate d⟩ : String) none }) ∧
    (clockEntity ≠ entity →
      packEntityRow classes mkFails clockEntity clockField entity edeps table
        (missingFieldNames cls table edeps)
        (nonKeyCommonFieldNames cls table edeps clockField) clockCol st j =
        .ok { st with depRows := appendDepRow st.depRows entity none }) := by
  constructor
  · intro d hce hclock
    simp only [packEntityRow]
    rw [if_pos hnull, if_pos (beq_iff_eq.mpr hce), hclock]
    rfl
  · intro hne
    simp only [packEntityRow]
    rw [if_pos hnull, if_neg (by simpa using hne)]

/-- Witness for claim C7: the all-null rows of both the clock-sync entity
and a dependency entity pack to `None`. -/
theorem claim_C7_witness :
    (((nonKeyCommonFieldNames c7M c7MTable [] ("d")).all (fun fn =>
        (DataProviderToolkit.lookupAssoc (rowAssoc c7MTable 0) fn).getD .pnone ==
          PyVal.pnone) = true) ∧
     (("M") : String) = ("M") ∧
     DataProviderToolkit.lookupAssoc (rowAssoc c7MTable 0) ("d") =
       some (.pdate ⟨2024, 1, 2⟩) ∧
     packEntityRow [c7M, c7A] (fun _ _ => false) ("M") ("d") ("M") [] c7MTable
        (missingFieldNames c7M c7MTable [])
        (nonKeyCommonFieldNames c7M c7MTable [] ("d"))
        [.pdate ⟨2024, 1, 2⟩] c7State 0 =
       .ok { c7State with
         masterRows := setAssoc c7State.masterRows
           (⟨renderDate ⟨2024, 1, 2⟩⟩ : String) none }) ∧
    (((nonKeyCommonFieldNames c7A c7ATable [] ("d")).all (fun fn =>
        (DataProviderToolkit.lookupAssoc (rowAssoc c7ATable 0) fn).getD .pnone ==
          PyVal.pnone) = true) ∧
     (("M") : String) ≠ ("A") ∧
     packEntityRow [c7M, c7A] (fun _ _ => false) ("M") ("d") ("A") [] c7ATable
        (missingFieldNames c7A c7ATable [])
        (nonKeyCommonFieldNames c7A c7ATable [] ("d"))
        [.pdate ⟨2024, 1, 2⟩] c7State 0 =
       .ok { c7State with depRows := appendDepRow c7State.depRows ("A") none }) :=
  ⟨⟨by decide, rfl, by decide,
    (claim_C7_pack_empty_rows [c7M, c7A] (fun _ _ => false) ("M") ("d") ("M") []
      c7MTable c7M [.pdate ⟨2024, 1, 2⟩] c7State 0 (by decide)).1
      ⟨2024, 1, 2⟩ rfl (by decide)⟩,
   ⟨by decide, by decide,
    (claim_C7_pack_empty_rows [c7M, c7A] (fun _ _ => false) ("M") ("d") ("A") []
      c7ATable c7A [.pdate ⟨2024, 1, 2⟩] c7State 0 (by decide)).2
      (by decide)⟩⟩

end BaseDataBlock

namespace DataProviderToolkit

/-- `process_endpoint_tables` on a data block with no cache entries (the first
call): both mappings are computed from the given endpoint field map, appended
to the caches, and used. -/
theorem process_endpoint_tables_first_call
    (applyPre : String → List (List Cell) → List Cell)
    (caches : ToolkitCaches) (data_block : String) (efm : EndpointFieldMapT)
    (t : String × Table) (ts : List (String × Table))
    (h0r : lookupAssoc caches.remapsCache data_block = none)
    (h0p : lookupAssoc caches.presCache data_block = none)
    (hm : ¬ (t :: ts).foldl (fun a et => Nat.max a et.2.numRows) 0 = 0) :
    process_endpoint_tables applyPre caches data_block efm (t :: ts) =
      (_process_remapped_endpoint_tables applyPre
        (_calculate_endpoint_field_preprocessors efm)
        (_remap_endpoint_table_columns (_calculate_endpoint_column_remaps efm) (t :: ts)),
       ⟨caches.remapsCache ++ [(data_block, _calculate_endpoint_column_remaps efm)],
        caches.presCache ++ [(data_block, _calculate_endpoint_field_preprocessors efm)]⟩) := by
  simp only [process_endpoint_tables, h0r, h0p]
  rw [if_neg hm]

/-- `process_endpoint_tables` on a data block whose remaps and preprocessors
are already cached: the cached mappings are used, the caches are unchanged,
and the endpoint field map argument plays no role. -/
theorem process_endpoint_tables_cached
    (applyPre : String → List (List Cell) → List Cell)
    (caches : ToolkitCaches) (data_block : String) (efm : EndpointFieldMapT)
    (t : String × Table) (ts : List (String × Table))
    (r : EndpointColumnRemapsT) (p : EndpointFieldMapT)
    (hr : lookupAssoc caches.remapsCache data_block = some r)
    (hp : lookupAssoc caches.presCache data_block = some p)
    (hm : ¬ (t :: ts).foldl (fun a et => Nat.max a et.2.numRows) 0 = 0) :
    process_endpoint_tables applyPre caches data_block efm (t :: ts) =
      (_process_remapped_endpoint_tables applyPre p
        (_remap_endpoint_table_columns r (t :: ts)), caches) := by
  simp only [process_endpoint_tables, hr, hp]
  rw [if_neg hm]

/-- Looking up a key in a singleton assoc list holding that key. -/
theorem lookupAssoc_singleton_self {α : Type} (k : String) (v : α) :
    lookupAssoc [(k, v)] k = some v := by
  simp [lookupAssoc, List.find?]

/-- C10: `process_endpoint_tables` memoizes the column remaps and field
preprocessors in class-level caches keyed only by the data-block class.
Starting with no cache entries for `data_block`, the first call (with
non-empty, non-all-empty tables) computes both mappings from its
`endpoint_field_map` `efm1`, appends them to the caches and processes with
them; a second call for the same `data_block` with a possibly different map
`efm2` (and possibly different tables) ignores `efm2` entirely: its output
tables are remapped and preprocessed with the mappings derived from `efm1`,
and the caches are left unchanged. -/
theorem claim_C10_cache_keyed_by_data_block
    (applyPre : String → List (List Cell) → List Cell)
    (caches : ToolkitCaches) (data_block : String)
    (efm1 efm2 : EndpointFieldMapT)
    (t1 t2 : String × Table) (ts1 ts2 : List (String × Table))
    (h0r : lookupAssoc caches.remapsCache data_block = none)
    (h0p : lookupAssoc caches.presCache data_block = none)
    (hm1 : ¬ (t1 :: ts1).foldl (fun a et => Nat.max a et.2.numRows) 0 = 0)
    (hm2 : ¬ (t2 :: ts2).foldl (fun a et => Nat.max a et.2.numRows) 0 = 0) :
    process_endpoint_tables applyPre caches data_block efm1 (t1 :: ts1) =
      (_process_remapped_endpoint_tables applyPre
        (_calculate_endpoint_field_preprocessors efm1)
        (_remap_endpoint_table_columns (_calculate_endpoint_column_remaps efm1) (t1 :: ts1)),
       ⟨caches.remapsCache ++ [(data_block, _calculate_endpoint_column_remaps efm1)],
        caches.presCache ++ [(data_block, _calculate_endpoint_field_preprocessors efm1)]⟩)
    ∧ process_endpoint_tables applyPre
        (process_endpoint_tables applyPre caches data_block efm1 (t1 :: ts1)).2
        data_block efm2 (t2 :: ts2) =
      (_process_remapped_endpoint_tables applyPre
        (_calculate_endpoint_field_preprocessors efm1)
        (_remap_endpoint_table_columns (_calculate_endpoint_column_remaps efm1) (t2 :: ts2)),
       (process_endpoint_tables applyPre caches data_block efm1 (t1 :: ts1)).2) := by
  have h1 := process_endpoint_tables_first_call applyPre caches data_block efm1 t1 ts1
    h0r h0p hm1
  refine ⟨h1, ?_⟩
  have hr2 : lookupAssoc
      (process_endpoint_tables applyPre caches data_block efm1 (t1 :: ts1)).2.remapsCache
      data_block = some (_calculate_endpoint_column_remaps efm1) := by
    rw [h1]
    exact (BaseDataBlock.lookupAssoc_append_of_none h0r).trans
      (lookupAssoc_singleton_self _ _)
  have hp2 : lookupAssoc
      (process_endpoint_tables applyPre caches data_block efm1 (t1 :: ts1)).2.presCache
      data_block = some (_calculate_endpoint_field_preprocessors efm1) := by
    rw [h1]
    exact (BaseDataBlock.lookupAssoc_append_of_none h0p).trans
      (lookupAssoc_singleton_self _ _)
  exact process_endpoint_tables_cached applyPre _ data_block efm2 t2 ts2 _ _ hr2 hp2 hm2

/-- C10 witness: on concrete data, the first call from empty caches with the
t1→E.x map populates both caches, and the second call with the t1→E.y map
still produces the tables derived from the t1→E.x map with caches unchanged. -/
theorem claim_C10_witness :
    (lookupAssoc (ToolkitCaches.mk [] []).remapsCache ("blk") = none
     ∧ lookupAssoc (ToolkitCaches.mk [] []).presCache ("blk") = none
     ∧ ¬ [c10table].foldl (fun a et => Nat.max a et.2.numRows) 0 = 0)
    ∧ (process_endpoint_tables c10applyPre (ToolkitCaches.mk [] []) ("blk") c10efm1 [c10table] =
        (_process_remapped_endpoint_tables c10applyPre
          (_calculate_endpoint_field_preprocessors c10efm1)
          (_remap_endpoint_table_columns (_calculate_endpoint_column_remaps c10efm1) [c10table]),
         ⟨[(("blk"), _calculate_endpoint_column_remaps c10efm1)],
          [(("blk"), _calculate_endpoint_field_preprocessors c10efm1)]⟩)
       ∧ process_endpoint_tables c10applyPre
           (process_endpoint_tables c10applyPre (ToolkitCaches.mk [] []) ("blk") c10efm1
             [c10table]).2 ("blk") c10efm2 [c10table] =
         (_process_remapped_endpoint_tables c10applyPre
           (_calculate_endpoint_field_preprocessors c10efm1)
           (_remap_endpoint_table_columns (_calculate_endpoint_column_remaps c10efm1) [c10table]),
          (process_endpoint_tables c10applyPre (ToolkitCaches.mk [] []) ("blk") c10efm1
            [c10table]).2)) :=
  ⟨⟨rfl, rfl, by decide⟩,
   claim_C10_cache_keyed_by_data_block c10applyPre (ToolkitCaches.mk [] []) ("blk")
     c10efm1 c10efm2 c10table c10table [] [] rfl rfl (by decide) (by decide)⟩

end DataProviderToolkit

end DataCurator
